import Mathlib

/-!
# rz::units : dimension algebra of `Quantity<T, L, M, C>`

Shallow embedding of `Quantity.hpp`, `Number.hpp` and `Angle.hpp`.

* A C++ type `std::ratio<N, D>` is the pair of its template arguments (`Ratio`); its static
  members `num` and `den` are computed as the C++ standard defines them ([ratio.ratio]).
* A quantity is a record of its four template arguments and of its private `value`.  What C++
  rejects at compile time (template argument deduction that fails, a constraint that is not
  satisfied, `std::ratio` arithmetic whose result `intmax_t` cannot represent) is the result
  `none`; a function whose result type is the type of its argument is total.
* The magnitude type `α` stands for `double`; its arithmetic comes from the usual operator
  classes, the `<cmath>` functions are the fields of `CMath` and `Trig`, and the way a stream
  writes a `double` is the parameter `render`.
* `Double` is the type `double` itself, IEEE 754 binary64 with rounding to nearest, ties to
  even: sums, differences, products and quotients are rounded as the format prescribes, and
  `Double.relation` is its four-way comparison.  The comparison operators of a quantity take
  the relation of two magnitudes as the parameter `rel`; `std_lerp` and `std_hash_double` are
  the functions of libstdc++.
-/

namespace rz.units

/-! ## `std::ratio` -/

/-- Largest value of `intmax_t` (64 bits). -/
def INTMAX_MAX : Int := 9223372036854775807

/-- Smallest value of `int32_t`. -/
def INT32_MIN : Int := -2147483648

/-- Largest value of `int32_t`. -/
def INT32_MAX : Int := 2147483647

/-- The type `std::ratio<N, D>`, identified with its two template arguments. -/
structure Ratio where
  N : Int
  D : Int
deriving DecidableEq, Repr

/-- The instantiation `std::ratio<N, D>` is well-formed: `D` is not zero and the absolute values
of `N` and `D` are representable by `intmax_t` ([ratio.ratio]/1). -/
def Ratio.WellFormed (r : Ratio) : Prop :=
  r.D ≠ 0 ∧ -INTMAX_MAX ≤ r.N ∧ r.N ≤ INTMAX_MAX ∧ -INTMAX_MAX ≤ r.D ∧ r.D ≤ INTMAX_MAX

instance (r : Ratio) : Decidable r.WellFormed := by
  unfold Ratio.WellFormed; infer_instance

/-- Static member `std::ratio<N, D>::num`: `sign(N) * sign(D) * abs(N) / gcd(N, D)`. -/
def Ratio.num (r : Ratio) : Int :=
  Int.sign r.N * Int.sign r.D * (r.N.natAbs : Int) / (Int.gcd r.N r.D : Int)

/-- Static member `std::ratio<N, D>::den`: `abs(D) / gcd(N, D)`. -/
def Ratio.den (r : Ratio) : Int :=
  (r.D.natAbs : Int) / (Int.gcd r.N r.D : Int)

/-- The expression `std::ratio<N, D>` in a template: the type when it is well-formed. -/
def ratio (N D : Int) : Option Ratio :=
  if Ratio.WellFormed ⟨N, D⟩ then some ⟨N, D⟩ else none

/-- The type `std::ratio<U, V>` that an arithmetic alias denotes ([ratio.arithmetic]/1-2): `U`
and `V` are `num` and `den` of `std::ratio<X, Y>` for the exact integers `X` and `Y` of the
operation.  The program is ill-formed when `Y` is zero or when `U` or `V` is not representable;
otherwise the implementation yields `U` and `V`, as the standard recommends and libstdc++ does,
also when `X` or `Y` itself is not representable. -/
def ratio_reduced (X Y : Int) : Option Ratio :=
  if Y = 0 then none else ratio (Ratio.num ⟨X, Y⟩) (Ratio.den ⟨X, Y⟩)

/-- The alias `std::ratio_add<R1, R2>`: `X = R1::num * R2::den + R2::num * R1::den` and
`Y = R1::den * R2::den`. -/
def ratio_add (R1 R2 : Ratio) : Option Ratio :=
  ratio_reduced (R1.num * R2.den + R2.num * R1.den) (R1.den * R2.den)

/-- The alias `std::ratio_subtract<R1, R2>`: `X = R1::num * R2::den - R2::num * R1::den` and
`Y = R1::den * R2::den`. -/
def ratio_subtract (R1 R2 : Ratio) : Option Ratio :=
  ratio_reduced (R1.num * R2.den - R2.num * R1.den) (R1.den * R2.den)

/-- The alias `std::ratio_multiply<R1, R2>`: `X = R1::num * R2::num` and
`Y = R1::den * R2::den`. -/
def ratio_multiply (R1 R2 : Ratio) : Option Ratio :=
  ratio_reduced (R1.num * R2.num) (R1.den * R2.den)

/-- The alias `std::ratio_divide<R1, R2>`: `X = R1::num * R2::den` and `Y = R1::den * R2::num`. -/
def ratio_divide (R1 R2 : Ratio) : Option Ratio :=
  ratio_reduced (R1.num * R2.den) (R1.den * R2.num)

/-! ## Concepts (Quantity.hpp 9-17) -/

/-- The concept `IsDimension`: `Dimension` is the same type as
`std::ratio<Dimension::num, Dimension::den>`. -/
def IsDimension (Dimension : Ratio) : Prop :=
  Dimension.WellFormed ∧ Dimension = ⟨Dimension.num, Dimension.den⟩

instance (r : Ratio) : Decidable (IsDimension r) := by
  unfold IsDimension; infer_instance

/-- The concept `IsDimensionless`: each of the four types is `std::ratio<0>`. -/
def IsDimensionless (Time Length Mass Current : Ratio) : Prop :=
  Time = ⟨0, 1⟩ ∧ Length = ⟨0, 1⟩ ∧ Mass = ⟨0, 1⟩ ∧ Current = ⟨0, 1⟩

instance (T L M C : Ratio) : Decidable (IsDimensionless T L M C) := by
  unfold IsDimensionless; infer_instance

/-! ## The class template `Quantity` (Quantity.hpp 20-56) -/

/-- A value of `Quantity<T, L, M, C>`: the template arguments and the member `value`. -/
structure Quantity (α : Type) where
  T : Ratio
  L : Ratio
  M : Ratio
  C : Ratio
  value : α
deriving DecidableEq, Repr

/-- The constraints of the class template: `Quantity<T, L, M, C>` names a type only when every
argument satisfies `IsDimension`. -/
def Quantity.WellTyped {α : Type} (q : Quantity α) : Prop :=
  IsDimension q.T ∧ IsDimension q.L ∧ IsDimension q.M ∧ IsDimension q.C

instance {α : Type} (q : Quantity α) : Decidable q.WellTyped := by
  unfold Quantity.WellTyped; infer_instance

/-- The expression `Quantity<T, L, M, C>(value)` (the explicit constructor, Quantity.hpp 28),
rejected when a constraint of the class template is not satisfied. -/
def Quantity.make {α : Type} (T L M C : Ratio) (value : α) : Option (Quantity α) :=
  if IsDimension T ∧ IsDimension L ∧ IsDimension M ∧ IsDimension C then
    some ⟨T, L, M, C, value⟩
  else none

/-- The `<cmath>` functions the library calls on magnitudes. -/
structure CMath (α : Type) where
  abs : α → α
  lerp : α → α → α → α
  pow : α → α → α
  sqrt : α → α
  cbrt : α → α
  hypot : α → α → α

/-- The `<cmath>` functions `std::sin`, `std::cos` and `std::tan`. -/
structure Trig (α : Type) where
  sin : α → α
  cos : α → α
  tan : α → α

/-- The alias `IntegralQuantity<T, L, M, C>` (Quantity.hpp 60-61) applied to a magnitude:
a value of `Quantity<std::ratio<T>, std::ratio<L>, std::ratio<M>, std::ratio<C>>` for `int32_t`
template arguments. -/
def IntegralQuantity {α : Type} (T L M C : Int) (value : α) : Quantity α :=
  ⟨⟨T, 1⟩, ⟨L, 1⟩, ⟨M, 1⟩, ⟨C, 1⟩, value⟩

/-! ## Standard mathematical operations (Quantity.hpp 64-125) -/

/-- The function `operator+(Quantity<T, L, M, C>, Quantity<T, L, M, C>)` (Quantity.hpp 65-68):
template argument deduction succeeds only when both operands have the same four arguments. -/
def operator_add {α : Type} [Add α] (lhs rhs : Quantity α) : Option (Quantity α) :=
  if lhs.T = rhs.T ∧ lhs.L = rhs.L ∧ lhs.M = rhs.M ∧ lhs.C = rhs.C then
    some ⟨lhs.T, lhs.L, lhs.M, lhs.C, lhs.value + rhs.value⟩
  else none

/-- The function `operator-(Quantity<T, L, M, C>)` (Quantity.hpp 70-73). -/
def operator_neg {α : Type} [Neg α] (quantity : Quantity α) : Quantity α :=
  ⟨quantity.T, quantity.L, quantity.M, quantity.C, -quantity.value⟩

/-- The function `operator-(Quantity<T, L, M, C>, Quantity<T, L, M, C>)` (Quantity.hpp 75-78). -/
def operator_sub {α : Type} [Sub α] (lhs rhs : Quantity α) : Option (Quantity α) :=
  if lhs.T = rhs.T ∧ lhs.L = rhs.L ∧ lhs.M = rhs.M ∧ lhs.C = rhs.C then
    some ⟨lhs.T, lhs.L, lhs.M, lhs.C, lhs.value - rhs.value⟩
  else none

/-- The function `operator*(Quantity<T1, L1, M1, C1>, Quantity<T2, L2, M2, C2>)`
(Quantity.hpp 80-89). -/
def operator_mul {α : Type} [Mul α] (lhs rhs : Quantity α) : Option (Quantity α) := do
  let NewT ← ratio_add lhs.T rhs.T
  let NewL ← ratio_add lhs.L rhs.L
  let NewM ← ratio_add lhs.M rhs.M
  let NewC ← ratio_add lhs.C rhs.C
  Quantity.make NewT NewL NewM NewC (lhs.value * rhs.value)

/-- The function `operator*(double, Quantity<T, L, M, C>)` (Quantity.hpp 91-94). -/
def operator_mul_double_lhs {α : Type} [Mul α] (lhs : α) (rhs : Quantity α) : Quantity α :=
  ⟨rhs.T, rhs.L, rhs.M, rhs.C, lhs * rhs.value⟩

/-- The function `operator*(Quantity<T, L, M, C>, double)` (Quantity.hpp 96-99). -/
def operator_mul_double_rhs {α : Type} [Mul α] (lhs : Quantity α) (rhs : α) : Quantity α :=
  ⟨lhs.T, lhs.L, lhs.M, lhs.C, lhs.value * rhs⟩

/-- The function `operator/(Quantity<T1, L1, M1, C1>, Quantity<T2, L2, M2, C2>)`
(Quantity.hpp 101-110). -/
def operator_div {α : Type} [Div α] (lhs rhs : Quantity α) : Option (Quantity α) := do
  let NewT ← ratio_subtract lhs.T rhs.T
  let NewL ← ratio_subtract lhs.L rhs.L
  let NewM ← ratio_subtract lhs.M rhs.M
  let NewC ← ratio_subtract lhs.C rhs.C
  Quantity.make NewT NewL NewM NewC (lhs.value / rhs.value)

/-- The function `operator/(double, Quantity<T, L, M, C>)` (Quantity.hpp 112-120). -/
def operator_div_double_lhs {α : Type} [Div α] (lhs : α) (rhs : Quantity α) :
    Option (Quantity α) := do
  let NewT ← ratio_subtract ⟨0, 1⟩ rhs.T
  let NewL ← ratio_subtract ⟨0, 1⟩ rhs.L
  let NewM ← ratio_subtract ⟨0, 1⟩ rhs.M
  let NewC ← ratio_subtract ⟨0, 1⟩ rhs.C
  Quantity.make NewT NewL NewM NewC (lhs / rhs.value)

/-- The function `operator/(Quantity<T, L, M, C>, double)` (Quantity.hpp 122-125). -/
def operator_div_double_rhs {α : Type} [Div α] (lhs : Quantity α) (rhs : α) : Quantity α :=
  ⟨lhs.T, lhs.L, lhs.M, lhs.C, lhs.value / rhs⟩

/-! ## Text output (Quantity.hpp 127-162, 289-306) -/

/-- The function `std::to_string(intmax_t)`: the decimal digits, after a minus sign when the
value is negative. -/
def to_string (val : Int) : String :=
  if val < 0 then "-" ++ Nat.repr val.natAbs else Nat.repr val.natAbs

/-- The function template `format_dimension<Dimension>(symbol)` (Quantity.hpp 127-151); the
static `buffer` is cleared before it is used and returned by value. -/
def format_dimension (Dimension : Ratio) (symbol : String) : String :=
  if Dimension.num = 0 then ""
  else
    let buffer := ""
    let buffer := buffer ++ symbol
    if Dimension.num = 1 ∧ Dimension.den = 1 then buffer
    else
      let buffer := buffer ++ "^"
      let buffer := buffer ++ to_string Dimension.num
      let buffer := if Dimension.den ≠ 1 then (buffer ++ "/") ++ to_string Dimension.den
        else buffer
      buffer

/-- The function `operator<<(std::ostream&, Quantity<T, L, M, C>)` (Quantity.hpp 153-162).
The stream is the text written so far and `render` is how the stream writes a `double`. -/
def operator_shl {α : Type} (render : α → String) (os : String) (quantity : Quantity α) :
    String :=
  let os := os ++ render quantity.value
  let os := os ++ format_dimension quantity.T "s"
  let os := os ++ format_dimension quantity.L "m"
  let os := os ++ format_dimension quantity.M "kg"
  let os := os ++ format_dimension quantity.C "A"
  os

/-- The member `std::formatter<Quantity<T, L, M, C>>::format` (Quantity.hpp 295-305).
The output iterator is the text written so far and `render` is how `"{}"` formats a
`double`. -/
def formatter_format {α : Type} (render : α → String) (out : String) (quantity : Quantity α) :
    String :=
  let out := out ++ render quantity.value
  let out := out ++ format_dimension quantity.T "s"
  let out := out ++ format_dimension quantity.L "m"
  let out := out ++ format_dimension quantity.M "kg"
  let out := out ++ format_dimension quantity.C "A"
  out

/-! ## cmath functions (Quantity.hpp 165-221) -/

/-- The function `abs(Quantity<T, L, M, C>)` (Quantity.hpp 166-169). -/
def abs {α : Type} (cm : CMath α) (num : Quantity α) : Quantity α :=
  ⟨num.T, num.L, num.M, num.C, cm.abs num.value⟩

/-- The function `lerp(Quantity<T, L, M, C>, Quantity<T, L, M, C>, double)`
(Quantity.hpp 171-174). -/
def lerp {α : Type} (cm : CMath α) (a b : Quantity α) (t : α) : Option (Quantity α) :=
  if a.T = b.T ∧ a.L = b.L ∧ a.M = b.M ∧ a.C = b.C then
    some ⟨a.T, a.L, a.M, a.C, cm.lerp a.value b.value t⟩
  else none

/-- The function template `pow<T, L, M, C, power>(Quantity<T, L, M, C>)` (Quantity.hpp 177-185);
`power` is the fifth template argument, of type `int32_t`, and `std::pow` receives it converted
to `double`. -/
def pow {α : Type} [IntCast α] (cm : CMath α) (power : Int) (base : Quantity α) :
    Option (Quantity α) := do
  if ¬ (INT32_MIN ≤ power ∧ power ≤ INT32_MAX) then none
  let p ← ratio power 1
  let NewT ← ratio_multiply base.T p
  let NewL ← ratio_multiply base.L p
  let NewM ← ratio_multiply base.M p
  let NewC ← ratio_multiply base.C p
  Quantity.make NewT NewL NewM NewC (cm.pow base.value (power : α))

/-- The function template `pow<T, L, M, C, Num, Den>(Quantity<T, L, M, C>, std::ratio<Num, Den>)`
(Quantity.hpp 187-196); `Num` and `Den` are the last two template arguments, of type `int32_t`,
and the argument type `std::ratio<Num, Den>` need not be in lowest terms. -/
def pow_ratio {α : Type} [IntCast α] [Div α] (cm : CMath α) (base : Quantity α)
    (Num Den : Int) : Option (Quantity α) := do
  if ¬ (INT32_MIN ≤ Num ∧ Num ≤ INT32_MAX ∧ INT32_MIN ≤ Den ∧ Den ≤ INT32_MAX) then none
  let p ← ratio Num Den
  let NewT ← ratio_multiply base.T p
  let NewL ← ratio_multiply base.L p
  let NewM ← ratio_multiply base.M p
  let NewC ← ratio_multiply base.C p
  let exp : α := (Num : α) / (Den : α)
  Quantity.make NewT NewL NewM NewC (cm.pow base.value exp)

/-- The function `sqrt(Quantity<T, L, M, C>)` (Quantity.hpp 198-206). -/
def sqrt {α : Type} (cm : CMath α) (num : Quantity α) : Option (Quantity α) := do
  let NewT ← ratio_divide num.T ⟨2, 1⟩
  let NewL ← ratio_divide num.L ⟨2, 1⟩
  let NewM ← ratio_divide num.M ⟨2, 1⟩
  let NewC ← ratio_divide num.C ⟨2, 1⟩
  Quantity.make NewT NewL NewM NewC (cm.sqrt num.value)

/-- The function `cbrt(Quantity<T, L, M, C>)` (Quantity.hpp 208-216). -/
def cbrt {α : Type} (cm : CMath α) (num : Quantity α) : Option (Quantity α) := do
  let NewT ← ratio_divide num.T ⟨3, 1⟩
  let NewL ← ratio_divide num.L ⟨3, 1⟩
  let NewM ← ratio_divide num.M ⟨3, 1⟩
  let NewC ← ratio_divide num.C ⟨3, 1⟩
  Quantity.make NewT NewL NewM NewC (cm.cbrt num.value)

/-! ## Number.hpp and Angle.hpp -/

/-- The constructor `Number(value)` of `Number = IntegralQuantity<0, 0, 0, 0>` (Number.hpp 7). -/
def Number {α : Type} (value : α) : Quantity α := IntegralQuantity 0 0 0 0 value

/-- The constructor `Angle(value)` of `Angle = IntegralQuantity<0, 0, 0, 0>` (Angle.hpp 8). -/
def Angle {α : Type} (value : α) : Quantity α := IntegralQuantity 0 0 0 0 value

/-- The function `sin(Angle)` (Angle.hpp 17-19); the argument converts to `double` implicitly
because `Angle` is dimensionless, and no other quantity type converts to `Angle`. -/
def sin {α : Type} (std : Trig α) (num : Quantity α) : Option (Quantity α) :=
  if IsDimensionless num.T num.L num.M num.C then some (Number (std.tan num.value)) else none

/-- The function `cos(Angle)` (Angle.hpp 21-23). -/
def cos {α : Type} (std : Trig α) (num : Quantity α) : Option (Quantity α) :=
  if IsDimensionless num.T num.L num.M num.C then some (Number (std.tan num.value)) else none

/-- The function `tan(Angle)` (Angle.hpp 25-27). -/
def tan {α : Type} (std : Trig α) (rhs : Quantity α) : Option (Quantity α) :=
  if IsDimensionless rhs.T rhs.L rhs.M rhs.C then some (Number (std.tan rhs.value)) else none

/-! ## Members of `Quantity`, `std::hash` and the rest of Number.hpp and Angle.hpp -/

/-- The member function `Quantity::Convert(Quantity rhs)` (Quantity.hpp 40-42); the parameter has
the type of the object, and no quantity of another type converts to it. -/
def Quantity.Convert {α : Type} [Div α] (self rhs : Quantity α) : Option α :=
  if self.T = rhs.T ∧ self.L = rhs.L ∧ self.M = rhs.M ∧ self.C = rhs.C then
    some (self.value / rhs.value)
  else none

/-- The type `std::partial_ordering`. -/
inductive partial_ordering where
  | less
  | equivalent
  | greater
  | unordered
deriving DecidableEq, Repr

/-- The built-in `x == y` on `double`, for the relation `rel` that IEEE 754 defines between two
doubles: true when they are equal. -/
def double_eq {α : Type} (rel : α → α → partial_ordering) (x y : α) : Bool :=
  decide (rel x y = partial_ordering.equivalent)

/-- The built-in `x != y` on `double`: the negation of `x == y`, true also when the operands are
unordered. -/
def double_ne {α : Type} (rel : α → α → partial_ordering) (x y : α) : Bool :=
  !double_eq rel x y

/-- The built-in `x < y` on `double`. -/
def double_lt {α : Type} (rel : α → α → partial_ordering) (x y : α) : Bool :=
  decide (rel x y = partial_ordering.less)

/-- The built-in `x > y` on `double`. -/
def double_gt {α : Type} (rel : α → α → partial_ordering) (x y : α) : Bool :=
  decide (rel x y = partial_ordering.greater)

/-- The built-in `x <= y` on `double`: less or equal, false when the operands are unordered. -/
def double_le {α : Type} (rel : α → α → partial_ordering) (x y : α) : Bool :=
  decide (rel x y = partial_ordering.less ∨ rel x y = partial_ordering.equivalent)

/-- The built-in `x >= y` on `double`: greater or equal, false when the operands are
unordered. -/
def double_ge {α : Type} (rel : α → α → partial_ordering) (x y : α) : Bool :=
  decide (rel x y = partial_ordering.greater ∨ rel x y = partial_ordering.equivalent)

/-- The built-in `x <=> y` on `double` ([expr.spaceship]/4): `less` if `x < y`, `greater` if
`x > y`, `equivalent` if `x == y`, `unordered` otherwise. -/
def double_spaceship {α : Type} (rel : α → α → partial_ordering) (x y : α) : partial_ordering :=
  if double_lt rel x y then partial_ordering.less
  else if double_gt rel x y then partial_ordering.greater
  else if double_eq rel x y then partial_ordering.equivalent
  else partial_ordering.unordered

/-- The defaulted friend `operator<=>(Quantity lhs, Quantity rhs)` (Quantity.hpp 52): the
three-way comparison of the member `value`; both parameters have the type of the class. -/
def operator_spaceship {α : Type} (rel : α → α → partial_ordering) (lhs rhs : Quantity α) :
    Option partial_ordering :=
  if lhs.T = rhs.T ∧ lhs.L = rhs.L ∧ lhs.M = rhs.M ∧ lhs.C = rhs.C then
    some (double_spaceship rel lhs.value rhs.value)
  else none

/-- The `operator==` that the defaulted `operator<=>` declares (Quantity.hpp 52): `==` on the
member `value`. -/
def operator_eq {α : Type} (rel : α → α → partial_ordering) (lhs rhs : Quantity α) :
    Option Bool :=
  if lhs.T = rhs.T ∧ lhs.L = rhs.L ∧ lhs.M = rhs.M ∧ lhs.C = rhs.C then
    some (double_eq rel lhs.value rhs.value)
  else none

/-- The expression `lhs != rhs`, rewritten to `!(lhs == rhs)`. -/
def operator_ne {α : Type} (rel : α → α → partial_ordering) (lhs rhs : Quantity α) :
    Option Bool :=
  (operator_eq rel lhs rhs).map fun r => !r

/-- The expression `lhs < rhs`, rewritten to `(lhs <=> rhs) < 0`. -/
def operator_lt {α : Type} (rel : α → α → partial_ordering) (lhs rhs : Quantity α) :
    Option Bool :=
  (operator_spaceship rel lhs rhs).map fun o => decide (o = partial_ordering.less)

/-- The expression `lhs <= rhs`, rewritten to `(lhs <=> rhs) <= 0`. -/
def operator_le {α : Type} (rel : α → α → partial_ordering) (lhs rhs : Quantity α) :
    Option Bool :=
  (operator_spaceship rel lhs rhs).map fun o =>
    decide (o = partial_ordering.less ∨ o = partial_ordering.equivalent)

/-- The expression `lhs > rhs`, rewritten to `(lhs <=> rhs) > 0`. -/
def operator_gt {α : Type} (rel : α → α → partial_ordering) (lhs rhs : Quantity α) :
    Option Bool :=
  (operator_spaceship rel lhs rhs).map fun o => decide (o = partial_ordering.greater)

/-- The expression `lhs >= rhs`, rewritten to `(lhs <=> rhs) >= 0`. -/
def operator_ge {α : Type} (rel : α → α → partial_ordering) (lhs rhs : Quantity α) :
    Option Bool :=
  (operator_spaceship rel lhs rhs).map fun o =>
    decide (o = partial_ordering.greater ∨ o = partial_ordering.equivalent)

/-- The member `std::hash<Quantity<T, L, M, C>>::operator()` (Quantity.hpp 229-234);
`std_hash` is `std::hash<double>`. -/
def hash {α : Type} (std_hash : α → Nat) (x : Quantity α) : Nat :=
  std_hash x.value

/-- The function `lerp(Quantity<T, L, M, C>, Quantity<T, L, M, C>, Number)` (Number.hpp 17-20). -/
def lerp_Number {α : Type} (cm : CMath α) (a b t : Quantity α) : Option (Quantity α) :=
  if IsDimensionless t.T t.L t.M t.C then lerp cm a b t.value else none

/-- Number of binary digits of `n`, computed with `fuel` halvings at most. -/
def bit_length_aux : Nat → Nat → Nat
  | 0, _ => 0
  | fuel + 1, n => if n = 0 then 0 else bit_length_aux fuel (n / 2) + 1

/-- Number of binary digits of `n`: 0 for 0, and `k + 1` when `2 ^ k ≤ n < 2 ^ (k + 1)`. -/
def bit_length (n : Nat) : Nat := bit_length_aux n n

/-- The quotient `n / d` rounded to the nearest integer, a tie to the even one. -/
def round_half_even (n d : Nat) : Nat :=
  if 2 * (n % d) < d then n / d
  else if d < 2 * (n % d) then n / d + 1
  else if n / d % 2 = 0 then n / d
  else n / d + 1

/-- The type `double` as IEEE 754 binary64: a finite value with a sign, a biased exponent from
0 to 2046 and a fraction of 52 bits, an infinity with a sign, or a NaN (the sign and the payload
of a NaN are not told apart). -/
inductive Double where
  | finite (sign : Bool) (exponent : Fin 2047) (fraction : Fin 4503599627370496)
  | inf (sign : Bool)
  | nan
deriving DecidableEq, Repr

/-- The integer significand of a finite double: the fraction of a subnormal, the fraction with
the implicit leading bit of a normal number. -/
def Double.significand : Double → Nat
  | Double.finite _ e f => if e.val = 0 then f.val else 4503599627370496 + f.val
  | Double.inf _ => 0
  | Double.nan => 0

/-- The exponent of the last place of a finite double, whose value is
`± significand * 2 ^ quantum`. -/
def Double.quantum : Double → Int
  | Double.finite _ e _ => if e.val = 0 then -1074 else (e.val : Int) - 1075
  | Double.inf _ => 0
  | Double.nan => 0

/-- The sign bit of a double that is not a NaN. -/
def Double.sign : Double → Bool
  | Double.finite s _ _ => s
  | Double.inf s => s
  | Double.nan => false

/-- The 63 bits below the sign bit: biased exponent and fraction. -/
def Double.magnitude_bits : Double → Nat
  | Double.finite _ e f => e.val * 4503599627370496 + f.val
  | Double.inf _ => 2047 * 4503599627370496
  | Double.nan => 2047 * 4503599627370496 + 2251799813685248

/-- The object representation of a double as a 64-bit number. -/
def Double.bits (x : Double) : Nat :=
  (if x.sign then 9223372036854775808 else 0) + x.magnitude_bits

/-- The value of a finite double as a rational number, `± significand * 2 ^ quantum`; 0 for an
infinity and for a NaN. -/
def Double.toRat (x : Double) : ℚ :=
  (if x.sign then -1 else 1) * (x.significand : ℚ) * (2 : ℚ) ^ x.quantum

/-- The double of the sign `s` whose bits below the sign bit are `n`; every value from the
exponent 2047 on is the infinity, as it is the result of an overflow. -/
def Double.of_magnitude_bits (s : Bool) (n : Nat) : Double :=
  if h : n / 4503599627370496 < 2047 then
    Double.finite s ⟨n / 4503599627370496, h⟩
      ⟨n % 4503599627370496, Nat.mod_lt _ (by decide)⟩
  else Double.inf s

/-- The double nearest to `± m * 2 ^ q`, a tie to the even significand (the rounding of IEEE 754
`roundTiesToEven`): the last place of the result is `q + bit_length m - 53`, and -1074 at
least; a result beyond the largest finite double is the infinity. -/
def Double.round (s : Bool) (m : Nat) (q : Int) : Double :=
  if m = 0 then Double.finite s 0 0
  else
    let qe : Int := max (q + (bit_length m : Int) - 53) (-1074)
    let mant : Nat :=
      if qe ≤ q then m * 2 ^ (q - qe).toNat else round_half_even m (2 ^ (qe - q).toNat)
    Double.of_magnitude_bits s ((qe + 1074).toNat * 4503599627370496 + mant)

/-- Unary minus on `double`. -/
def Double.neg : Double → Double
  | Double.finite s e f => Double.finite (!s) e f
  | Double.inf s => Double.inf (!s)
  | Double.nan => Double.nan

/-- The function `std::abs(double)`. -/
def Double.abs : Double → Double
  | Double.finite _ e f => Double.finite false e f
  | Double.inf _ => Double.inf false
  | Double.nan => Double.nan

/-- The function `std::isfinite(double)`. -/
def Double.isFinite : Double → Bool
  | Double.finite _ _ _ => true
  | Double.inf _ => false
  | Double.nan => false

/-- The biased exponent field of a double: 2047 for an infinity and for a NaN. -/
def Double.exponent : Double → Nat
  | Double.finite _ e _ => e.val
  | Double.inf _ => 2047
  | Double.nan => 2047

/-- The product `x * y` on `double`. -/
def Double.mul (x y : Double) : Double :=
  match x, y with
  | Double.nan, _ => Double.nan
  | _, Double.nan => Double.nan
  | Double.inf s, Double.inf t => Double.inf (Bool.xor s t)
  | Double.inf s, Double.finite t e f =>
    if (Double.finite t e f).significand = 0 then Double.nan else Double.inf (Bool.xor s t)
  | Double.finite s e f, Double.inf t =>
    if (Double.finite s e f).significand = 0 then Double.nan else Double.inf (Bool.xor s t)
  | Double.finite s e f, Double.finite t e2 f2 =>
    Double.round (Bool.xor s t)
      ((Double.finite s e f).significand * (Double.finite t e2 f2).significand)
      ((Double.finite s e f).quantum + (Double.finite t e2 f2).quantum)

/-- The sum `x + y` on `double`; an exact zero sum is `+0`, unless both operands are negative. -/
def Double.add (x y : Double) : Double :=
  match x, y with
  | Double.nan, _ => Double.nan
  | _, Double.nan => Double.nan
  | Double.inf s, Double.inf t => if s = t then Double.inf s else Double.nan
  | Double.inf s, Double.finite _ _ _ => Double.inf s
  | Double.finite _ _ _, Double.inf t => Double.inf t
  | Double.finite s e f, Double.finite t e2 f2 =>
    let q : Int := min (Double.finite s e f).quantum (Double.finite t e2 f2).quantum
    let a : Int := (Double.finite s e f).significand * 2 ^ ((Double.finite s e f).quantum - q).toNat
    let b : Int :=
      (Double.finite t e2 f2).significand * 2 ^ ((Double.finite t e2 f2).quantum - q).toNat
    let z : Int := (if s then -a else a) + (if t then -b else b)
    if z = 0 then Double.finite (s && t) 0 0 else Double.round (decide (z < 0)) z.natAbs q

/-- The difference `x - y` on `double`. -/
def Double.sub (x y : Double) : Double := Double.add x (Double.neg y)

/-- The quotient `x / y` on `double`.  The quotient of the significands is computed to 108
binary places, more than 55 significant bits, and a last bit records a non-zero remainder, so
that `Double.round` rounds it as it rounds the exact quotient. -/
def Double.div (x y : Double) : Double :=
  match x, y with
  | Double.nan, _ => Double.nan
  | _, Double.nan => Double.nan
  | Double.inf _, Double.inf _ => Double.nan
  | Double.inf s, Double.finite t _ _ => Double.inf (Bool.xor s t)
  | Double.finite s _ _, Double.inf t => Double.finite (Bool.xor s t) 0 0
  | Double.finite s e f, Double.finite t e2 f2 =>
    if (Double.finite t e2 f2).significand = 0 then
      if (Double.finite s e f).significand = 0 then Double.nan else Double.inf (Bool.xor s t)
    else
      let n : Nat := (Double.finite s e f).significand * 2 ^ 108
      let d : Nat := (Double.finite t e2 f2).significand
      Double.round (Bool.xor s t) (2 * (n / d) + (if n % d = 0 then 0 else 1))
        ((Double.finite s e f).quantum - (Double.finite t e2 f2).quantum - 109)

/-- The conversion `static_cast<double>(n)` of an integer. -/
def Double.ofInt (n : Int) : Double := Double.round (decide (n < 0)) n.natAbs 0

/-- The place of a double that is not a NaN in the order of the values: the bits below the
sign bit, negated for a negative double, so that both zeros have the place 0. -/
def Double.key (x : Double) : Int :=
  if x.sign then -(x.magnitude_bits : Int) else (x.magnitude_bits : Int)

/-- The relation of two doubles in IEEE 754: less, equal, greater, or unordered when one of
them is a NaN. -/
def Double.relation (x y : Double) : partial_ordering :=
  match x, y with
  | Double.nan, _ => partial_ordering.unordered
  | _, Double.nan => partial_ordering.unordered
  | x, y =>
    if x.key < y.key then partial_ordering.less
    else if y.key < x.key then partial_ordering.greater
    else partial_ordering.equivalent

instance : Add Double := ⟨Double.add⟩
instance : Sub Double := ⟨Double.sub⟩
instance : Mul Double := ⟨Double.mul⟩
instance : Div Double := ⟨Double.div⟩
instance : Neg Double := ⟨Double.neg⟩
instance : IntCast Double := ⟨Double.ofInt⟩

/-- The double `2.0`. -/
def Double.two : Double := Double.finite false 1024 0

/-- The value `std::numeric_limits<double>::max()`. -/
def Double.max : Double := Double.finite false 2046 4503599627370495

/-- The value `std::numeric_limits<double>::denorm_min()`. -/
def Double.denorm_min : Double := Double.finite false 0 1

/-- The value `std::numeric_limits<double>::infinity()`. -/
def Double.infinity : Double := Double.inf false

/-- The double `+0.0`. -/
def Double.zero : Double := Double.finite false 0 0

/-- The double `1.0`. -/
def Double.one : Double := Double.finite false 1023 0

/-- The function `std::lerp(double, double, double)` of libstdc++ (`__lerp` in `<cmath>`). -/
def std_lerp (a b t : Double) : Double :=
  if (double_le Double.relation a Double.zero && double_ge Double.relation b Double.zero) ||
      (double_ge Double.relation a Double.zero && double_le Double.relation b Double.zero) then
    t * b + (Double.one - t) * a
  else if double_eq Double.relation t Double.one then b
  else
    let x := a + t * (b - a)
    if double_gt Double.relation t Double.one == double_gt Double.relation b a then
      (if double_lt Double.relation b x then x else b)
    else (if double_gt Double.relation b x then x else b)

/-- The function `std::hash<double>::operator()` of libstdc++ (`<bits/functional_hash.h>`):
`__val != 0.0 ? std::_Hash_impl::hash(__val) : 0`, where `hash_bytes` is the hash of the object
representation. -/
def std_hash_double (hash_bytes : Nat → Nat) (val : Double) : Nat :=
  if double_ne Double.relation val Double.zero then hash_bytes val.bits else 0

/-! ## Reading of the exponents as rational numbers -/

/-- The rational number that the type `std::ratio<N, D>` denotes. -/
def Ratio.toRat (r : Ratio) : ℚ := Rat.divInt r.N r.D

/-- The type `std::ratio<n, d>` for the numerator `n` and the denominator `d` of a rational
number in lowest terms. -/
def Ratio.ofRat (q : ℚ) : Ratio := ⟨q.num, q.den⟩

/-- Numerator and denominator of the rational number in lowest terms are representable as
template arguments of `std::ratio`. -/
def Representable (q : ℚ) : Prop :=
  -INTMAX_MAX ≤ q.num ∧ q.num ≤ INTMAX_MAX ∧ (q.den : Int) ≤ INTMAX_MAX

instance (q : ℚ) : Decidable (Representable q) := by
  unfold Representable; infer_instance

/-- The type `std::ratio<n, d>` of a rational number in lowest terms, when it is well-formed. -/
def ratio_of_rat (q : ℚ) : Option Ratio :=
  if Representable q then some (Ratio.ofRat q) else none

/-- The exponent is written in lowest terms with a positive denominator. -/
def Ratio.LowestTerms (r : Ratio) : Prop :=
  0 < r.D ∧ Int.gcd r.N r.D = 1

instance (r : Ratio) : Decidable r.LowestTerms := by
  unfold Ratio.LowestTerms; infer_instance

/-- Every exponent of the signature of the quantity is in lowest terms with a positive
denominator. -/
def Quantity.LowestTerms {α : Type} (q : Quantity α) : Prop :=
  q.T.LowestTerms ∧ q.L.LowestTerms ∧ q.M.LowestTerms ∧ q.C.LowestTerms

/-- The unit token in the words of the specification (section 6): no token for a zero exponent,
the bare symbol for the exponent 1/1, otherwise the symbol, `^` and the numerator, followed by
`/` and the denominator exactly when the denominator is not 1. -/
def unit_token_spec (symbol : String) (exponent : ℚ) : String :=
  if exponent = 0 then ""
  else if exponent.num = 1 ∧ exponent.den = 1 then symbol
  else symbol ++ ("^" ++ (to_string exponent.num ++
    (if exponent.den ≠ 1 then "/" ++ to_string (exponent.den : Int) else "")))

/-- Value of a list of decimal digit characters, the most significant first. -/
def decimal_value : List Char → Nat
  | [] => 0
  | c :: cs => (c.toNat - 48) * 10 ^ cs.length + decimal_value cs

/-- The characters that `format_dimension` appends to the symbol: nothing for the exponent
1/1, otherwise `^` and the numerator, then `/` and the denominator when it is not 1. -/
def exponent_chars (r : Ratio) : List Char :=
  if r.num = 1 ∧ r.den = 1 then []
  else '^' :: ((to_string r.num).data ++
    (if r.den ≠ 1 then '/' :: (to_string r.den).data else []))

/-- The character can occur in the exponent of a unit token: a digit, `-`, `^` or `/`. -/
def IsExponentChar (c : Char) : Prop :=
  c.isDigit = true ∨ c = '-' ∨ c = '^' ∨ c = '/'

instance (c : Char) : Decidable (IsExponentChar c) := by
  unfold IsExponentChar; infer_instance

/-- The four template arguments of the type of a quantity. -/
def Quantity.signature {α : Type} (q : Quantity α) : Ratio × Ratio × Ratio × Ratio :=
  (q.T, q.L, q.M, q.C)

end rz.units

namespace rz.units

/-! ## `std::ratio` arithmetic is rational arithmetic -/

theorem Ratio.num_eq (r : Ratio) : r.num = r.toRat.num := by
  unfold Ratio.num Ratio.toRat
  rw [Rat.num_mk]
  have h : Int.sign r.N * Int.sign r.D * (r.N.natAbs : Int) = Int.sign r.D * r.N := by
    rw [mul_comm (Int.sign r.N), mul_assoc, Int.sign_mul_natAbs]
  rw [h]

theorem Ratio.den_eq (r : Ratio) (h : r.D ≠ 0) : r.den = (r.toRat.den : Int) := by
  unfold Ratio.den Ratio.toRat
  rw [Rat.den_mk, if_neg h, Int.ofNat_ediv]

theorem Ratio.toRat_ofRat (q : ℚ) : (Ratio.ofRat q).toRat = q := by
  unfold Ratio.toRat Ratio.ofRat
  exact Rat.num_divInt_den q

theorem Ratio.ofRat_D_ne (q : ℚ) : (Ratio.ofRat q).D ≠ 0 := by
  unfold Ratio.ofRat
  simp [q.den_nz]

theorem IsDimension.D_ne {r : Ratio} (h : IsDimension r) : r.D ≠ 0 := h.1.1

theorem IsDimension.eq_ofRat {r : Ratio} (h : IsDimension r) : r = Ratio.ofRat r.toRat := by
  have h2 := h.2
  rw [Ratio.num_eq, Ratio.den_eq r h.D_ne] at h2
  exact h2

theorem wellFormed_ofRat_iff (q : ℚ) : (Ratio.ofRat q).WellFormed ↔ Representable q := by
  unfold Ratio.WellFormed Representable Ratio.ofRat INTMAX_MAX
  dsimp only
  have h1 : (q.den : Int) ≠ 0 := by simp [q.den_nz]
  have h2 : (0 : Int) ≤ q.den := Int.natCast_nonneg _
  constructor
  · rintro ⟨_, a, b, _, d⟩; exact ⟨a, b, d⟩
  · rintro ⟨a, b, d⟩; exact ⟨h1, a, b, by omega, d⟩

theorem isDimension_ofRat_iff (q : ℚ) : IsDimension (Ratio.ofRat q) ↔ Representable q := by
  unfold IsDimension
  rw [wellFormed_ofRat_iff, Ratio.num_eq, Ratio.den_eq _ (Ratio.ofRat_D_ne q), Ratio.toRat_ofRat]
  constructor
  · exact fun h => h.1
  · exact fun h => ⟨h, rfl⟩

theorem IsDimension.representable {r : Ratio} (h : IsDimension r) : Representable r.toRat := by
  rw [← isDimension_ofRat_iff, ← h.eq_ofRat]
  exact h

theorem ratio_reduced_eq (X Y : Int) (hY : Y ≠ 0) :
    ratio_reduced X Y = ratio_of_rat (Rat.divInt X Y) := by
  unfold ratio_reduced ratio ratio_of_rat
  rw [if_neg hY, Ratio.num_eq, Ratio.den_eq ⟨X, Y⟩ hY]
  have h := wellFormed_ofRat_iff (Ratio.toRat ⟨X, Y⟩)
  unfold Ratio.ofRat at h
  simp only [h]
  rfl

theorem ratio_add_eq (R1 R2 : Ratio) (h1 : R1.D ≠ 0) (h2 : R2.D ≠ 0) :
    ratio_add R1 R2 = ratio_of_rat (R1.toRat + R2.toRat) := by
  have d1 : (R1.toRat.den : Int) ≠ 0 := by simp [R1.toRat.den_nz]
  have d2 : (R2.toRat.den : Int) ≠ 0 := by simp [R2.toRat.den_nz]
  unfold ratio_add
  rw [Ratio.num_eq, Ratio.num_eq, Ratio.den_eq _ h1, Ratio.den_eq _ h2,
    ratio_reduced_eq _ _ (mul_ne_zero d1 d2), ← Rat.divInt_add_divInt _ _ d1 d2,
    Rat.num_divInt_den, Rat.num_divInt_den]

theorem ratio_subtract_eq (R1 R2 : Ratio) (h1 : R1.D ≠ 0) (h2 : R2.D ≠ 0) :
    ratio_subtract R1 R2 = ratio_of_rat (R1.toRat - R2.toRat) := by
  have d1 : (R1.toRat.den : Int) ≠ 0 := by simp [R1.toRat.den_nz]
  have d2 : (R2.toRat.den : Int) ≠ 0 := by simp [R2.toRat.den_nz]
  unfold ratio_subtract
  rw [Ratio.num_eq, Ratio.num_eq, Ratio.den_eq _ h1, Ratio.den_eq _ h2,
    ratio_reduced_eq _ _ (mul_ne_zero d1 d2), ← Rat.divInt_sub_divInt _ _ d1 d2,
    Rat.num_divInt_den, Rat.num_divInt_den]

theorem ratio_multiply_eq (R1 R2 : Ratio) (h1 : R1.D ≠ 0) (h2 : R2.D ≠ 0) :
    ratio_multiply R1 R2 = ratio_of_rat (R1.toRat * R2.toRat) := by
  have d1 : (R1.toRat.den : Int) ≠ 0 := by simp [R1.toRat.den_nz]
  have d2 : (R2.toRat.den : Int) ≠ 0 := by simp [R2.toRat.den_nz]
  unfold ratio_multiply
  rw [Ratio.num_eq, Ratio.num_eq, Ratio.den_eq _ h1, Ratio.den_eq _ h2,
    ratio_reduced_eq _ _ (mul_ne_zero d1 d2), ← Rat.divInt_mul_divInt _ _ d1 d2,
    Rat.num_divInt_den, Rat.num_divInt_den]

theorem ratio_divide_eq (R1 R2 : Ratio) (h1 : R1.D ≠ 0) (h2 : R2.D ≠ 0) (hn : R2.N ≠ 0) :
    ratio_divide R1 R2 = ratio_of_rat (R1.toRat / R2.toRat) := by
  have d1 : (R1.toRat.den : Int) ≠ 0 := by simp [R1.toRat.den_nz]
  have n2 : R2.toRat.num ≠ 0 := by
    rw [Rat.num_ne_zero]
    unfold Ratio.toRat
    exact Rat.divInt_ne_zero_of_ne_zero hn h2
  unfold ratio_divide
  rw [Ratio.num_eq, Ratio.num_eq, Ratio.den_eq _ h1, Ratio.den_eq _ h2,
    ratio_reduced_eq _ _ (mul_ne_zero d1 n2), ← Rat.div_def']

/-- The shape shared by the operations that compute a new signature: four `std::ratio`
computations, then the construction of the quantity. -/
theorem make_bind_eq {α : Type} (oT oL oM oC : Option Ratio) (qT qL qM qC : ℚ)
    (hT : oT = ratio_of_rat qT) (hL : oL = ratio_of_rat qL) (hM : oM = ratio_of_rat qM)
    (hC : oC = ratio_of_rat qC) (v : α) :
    (oT.bind fun NewT => oL.bind fun NewL => oM.bind fun NewM => oC.bind fun NewC =>
      Quantity.make NewT NewL NewM NewC v) =
    if Representable qT ∧ Representable qL ∧ Representable qM ∧ Representable qC then
      some ⟨Ratio.ofRat qT, Ratio.ofRat qL, Ratio.ofRat qM, Ratio.ofRat qC, v⟩
    else none := by
  subst hT hL hM hC
  unfold ratio_of_rat Quantity.make
  by_cases h1 : Representable qT <;> by_cases h2 : Representable qL <;>
    by_cases h3 : Representable qM <;> by_cases h4 : Representable qC <;>
    simp [h1, h2, h3, h4, isDimension_ofRat_iff]

/-- What a result in the shape of `make_bind_eq` says about the quantity that is produced. -/
theorem some_ofRat_spec {α : Type} {P : Prop} [Decidable P] {qT qL qM qC : ℚ} {v : α}
    {q : Quantity α}
    (hP : P → Representable qT ∧ Representable qL ∧ Representable qM ∧ Representable qC)
    (h : (if P then some (⟨Ratio.ofRat qT, Ratio.ofRat qL, Ratio.ofRat qM, Ratio.ofRat qC, v⟩ :
      Quantity α) else none) = some q) :
    q.WellTyped ∧ q.T.toRat = qT ∧ q.L.toRat = qL ∧ q.M.toRat = qM ∧ q.C.toRat = qC ∧
      q.value = v := by
  by_cases hp : P
  · rw [if_pos hp] at h
    obtain ⟨r1, r2, r3, r4⟩ := hP hp
    cases Option.some.inj h
    exact ⟨⟨(isDimension_ofRat_iff _).2 r1, (isDimension_ofRat_iff _).2 r2,
      (isDimension_ofRat_iff _).2 r3, (isDimension_ofRat_iff _).2 r4⟩,
      Ratio.toRat_ofRat _, Ratio.toRat_ofRat _, Ratio.toRat_ofRat _, Ratio.toRat_ofRat _, rfl⟩
  · rw [if_neg hp] at h
    cases h

theorem operator_mul_eq {α : Type} [Mul α] (a b : Quantity α) (ha : a.WellTyped)
    (hb : b.WellTyped) :
    operator_mul a b =
      if Representable (a.T.toRat + b.T.toRat) ∧ Representable (a.L.toRat + b.L.toRat) ∧
          Representable (a.M.toRat + b.M.toRat) ∧ Representable (a.C.toRat + b.C.toRat) then
        some ⟨Ratio.ofRat (a.T.toRat + b.T.toRat), Ratio.ofRat (a.L.toRat + b.L.toRat),
          Ratio.ofRat (a.M.toRat + b.M.toRat), Ratio.ofRat (a.C.toRat + b.C.toRat),
          a.value * b.value⟩
      else none :=
  make_bind_eq _ _ _ _ _ _ _ _
    (ratio_add_eq _ _ ha.1.D_ne hb.1.D_ne) (ratio_add_eq _ _ ha.2.1.D_ne hb.2.1.D_ne)
    (ratio_add_eq _ _ ha.2.2.1.D_ne hb.2.2.1.D_ne) (ratio_add_eq _ _ ha.2.2.2.D_ne hb.2.2.2.D_ne) _

theorem operator_div_eq {α : Type} [Div α] (a b : Quantity α) (ha : a.WellTyped)
    (hb : b.WellTyped) :
    operator_div a b =
      if Representable (a.T.toRat - b.T.toRat) ∧ Representable (a.L.toRat - b.L.toRat) ∧
          Representable (a.M.toRat - b.M.toRat) ∧ Representable (a.C.toRat - b.C.toRat) then
        some ⟨Ratio.ofRat (a.T.toRat - b.T.toRat), Ratio.ofRat (a.L.toRat - b.L.toRat),
          Ratio.ofRat (a.M.toRat - b.M.toRat), Ratio.ofRat (a.C.toRat - b.C.toRat),
          a.value / b.value⟩
      else none :=
  make_bind_eq _ _ _ _ _ _ _ _
    (ratio_subtract_eq _ _ ha.1.D_ne hb.1.D_ne) (ratio_subtract_eq _ _ ha.2.1.D_ne hb.2.1.D_ne)
    (ratio_subtract_eq _ _ ha.2.2.1.D_ne hb.2.2.1.D_ne)
    (ratio_subtract_eq _ _ ha.2.2.2.D_ne hb.2.2.2.D_ne) _

theorem isSome_ite_some {β : Type} (P : Prop) [Decidable P] (x : β) :
    (if P then some x else none).isSome ↔ P := by
  by_cases h : P <;> simp [h]

theorem toRat_zero_one : Ratio.toRat ⟨0, 1⟩ = 0 := by
  unfold Ratio.toRat
  simp

theorem IsDimension.representable_neg {r : Ratio} (h : IsDimension r) :
    Representable (0 - r.toRat) := by
  have h1 := h.representable
  unfold Representable at h1 ⊢
  rw [zero_sub, Rat.num_neg_eq_neg_num, Rat.den_neg_eq_den]
  omega

theorem IsDimension.ofRat_neg {r : Ratio} (h : IsDimension r) :
    Ratio.ofRat (0 - r.toRat) = ⟨-r.N, r.D⟩ := by
  have h1 := h.eq_ofRat
  unfold Ratio.ofRat at h1 ⊢
  rw [zero_sub, Rat.num_neg_eq_neg_num, Rat.den_neg_eq_den]
  conv_rhs => rw [h1]

theorem operator_div_double_lhs_eq {α : Type} [Div α] (k : α) (q : Quantity α)
    (hq : q.WellTyped) :
    operator_div_double_lhs k q =
      some ⟨⟨-q.T.N, q.T.D⟩, ⟨-q.L.N, q.L.D⟩, ⟨-q.M.N, q.M.D⟩, ⟨-q.C.N, q.C.D⟩, k / q.value⟩ := by
  have h := make_bind_eq _ _ _ _ _ _ _ _
    (ratio_subtract_eq ⟨0, 1⟩ q.T one_ne_zero hq.1.D_ne)
    (ratio_subtract_eq ⟨0, 1⟩ q.L one_ne_zero hq.2.1.D_ne)
    (ratio_subtract_eq ⟨0, 1⟩ q.M one_ne_zero hq.2.2.1.D_ne)
    (ratio_subtract_eq ⟨0, 1⟩ q.C one_ne_zero hq.2.2.2.D_ne) (k / q.value)
  rw [toRat_zero_one, if_pos ⟨hq.1.representable_neg, hq.2.1.representable_neg,
    hq.2.2.1.representable_neg, hq.2.2.2.representable_neg⟩, hq.1.ofRat_neg, hq.2.1.ofRat_neg,
    hq.2.2.1.ofRat_neg, hq.2.2.2.ofRat_neg] at h
  exact h

theorem toRat_neg (r : Ratio) : Ratio.toRat ⟨-r.N, r.D⟩ = -r.toRat := by
  unfold Ratio.toRat
  exact (Rat.neg_divInt _ _).symm

theorem IsDimension.neg {r : Ratio} (h : IsDimension r) : IsDimension ⟨-r.N, r.D⟩ := by
  rw [← h.ofRat_neg, isDimension_ofRat_iff]
  exact h.representable_neg

/-! ## C1 : multiplication of two quantities -/

/-- C1 (counterexample): the time exponents `9223372036854775807` and `1` both satisfy
`IsDimension`, but their sum is not representable by `intmax_t`, so `std::ratio_add` is
ill-formed and `a * b` is not a quantity. -/
theorem operator_mul_not_total :
    (⟨⟨9223372036854775807, 1⟩, ⟨0, 1⟩, ⟨0, 1⟩, ⟨0, 1⟩, 2⟩ : Quantity Int).WellTyped ∧
    (IntegralQuantity 1 0 0 0 3 : Quantity Int).WellTyped ∧
    operator_mul (⟨⟨9223372036854775807, 1⟩, ⟨0, 1⟩, ⟨0, 1⟩, ⟨0, 1⟩, 2⟩ : Quantity Int)
      (IntegralQuantity 1 0 0 0 3) = none := by
  decide

/-- C1 (amended): for quantities `a` and `b`, `a * b` is a quantity exactly when the four
exponent sums, in lowest terms, are representable by `intmax_t`; the quantity then has the
componentwise rational sum as its signature, each exponent satisfying `IsDimension` (lowest
terms, positive denominator), and the magnitude `x * y`. -/
theorem operator_mul_signature {α : Type} [Mul α] (a b : Quantity α) (ha : a.WellTyped)
    (hb : b.WellTyped) :
    ((operator_mul a b).isSome ↔
      Representable (a.T.toRat + b.T.toRat) ∧ Representable (a.L.toRat + b.L.toRat) ∧
      Representable (a.M.toRat + b.M.toRat) ∧ Representable (a.C.toRat + b.C.toRat)) ∧
    ∀ q, operator_mul a b = some q →
      q.WellTyped ∧ q.T.toRat = a.T.toRat + b.T.toRat ∧ q.L.toRat = a.L.toRat + b.L.toRat ∧
      q.M.toRat = a.M.toRat + b.M.toRat ∧ q.C.toRat = a.C.toRat + b.C.toRat ∧
      q.value = a.value * b.value := by
  rw [operator_mul_eq a b ha hb]
  exact ⟨isSome_ite_some _ _, fun q h => some_ofRat_spec id h⟩

/-- C1 (witness): the amended statement at a time quantity of magnitude 2 and a quantity of
exponents (1/2, 0, 0, -3) and magnitude 3. -/
theorem operator_mul_signature_witness :
    (IntegralQuantity 1 0 0 0 2 : Quantity Int).WellTyped ∧
    (⟨⟨1, 2⟩, ⟨0, 1⟩, ⟨0, 1⟩, ⟨-3, 1⟩, 3⟩ : Quantity Int).WellTyped ∧
    operator_mul (IntegralQuantity 1 0 0 0 2 : Quantity Int) ⟨⟨1, 2⟩, ⟨0, 1⟩, ⟨0, 1⟩, ⟨-3, 1⟩, 3⟩
      = some ⟨⟨3, 2⟩, ⟨0, 1⟩, ⟨0, 1⟩, ⟨-3, 1⟩, 6⟩ ∧
    (∀ q, operator_mul (IntegralQuantity 1 0 0 0 2 : Quantity Int)
        ⟨⟨1, 2⟩, ⟨0, 1⟩, ⟨0, 1⟩, ⟨-3, 1⟩, 3⟩ = some q →
      q.WellTyped ∧ q.T.toRat = Ratio.toRat ⟨1, 1⟩ + Ratio.toRat ⟨1, 2⟩ ∧ q.value = 2 * 3) :=
  ⟨by decide, by decide, by decide, fun q h =>
    have w := (operator_mul_signature (IntegralQuantity 1 0 0 0 2 : Quantity Int)
      ⟨⟨1, 2⟩, ⟨0, 1⟩, ⟨0, 1⟩, ⟨-3, 1⟩, 3⟩ (by decide) (by decide)).2 q h
    ⟨w.1, w.2.1, w.2.2.2.2.2⟩⟩

theorem length_div_time {α : Type} [Div α] (x y : α) :
    operator_div (IntegralQuantity 0 1 0 0 x) (IntegralQuantity 1 0 0 0 y) =
      some ⟨⟨-1, 1⟩, ⟨1, 1⟩, ⟨0, 1⟩, ⟨0, 1⟩, x / y⟩ := by
  have e1 : ratio_subtract ⟨0, 1⟩ ⟨1, 1⟩ = some ⟨-1, 1⟩ := by decide
  have e2 : ratio_subtract ⟨1, 1⟩ ⟨0, 1⟩ = some ⟨1, 1⟩ := by decide
  have e3 : ratio_subtract ⟨0, 1⟩ ⟨0, 1⟩ = some ⟨0, 1⟩ := by decide
  have d1 : IsDimension ⟨-1, 1⟩ := by decide
  have d2 : IsDimension ⟨1, 1⟩ := by decide
  have d3 : IsDimension ⟨0, 1⟩ := by decide
  simp [operator_div, IntegralQuantity, Quantity.make, e1, e2, e3, d1, d2, d3]

/-! ## C2 : division of two quantities -/

/-- C2 (counterexample): the time exponents `9223372036854775807` and `-1` both satisfy
`IsDimension`, but their difference is not representable by `intmax_t`, so
`std::ratio_subtract` is ill-formed and `a / b` is not a quantity. -/
theorem operator_div_not_total :
    (⟨⟨9223372036854775807, 1⟩, ⟨0, 1⟩, ⟨0, 1⟩, ⟨0, 1⟩, 6⟩ : Quantity Int).WellTyped ∧
    (IntegralQuantity (-1) 0 0 0 3 : Quantity Int).WellTyped ∧
    operator_div (⟨⟨9223372036854775807, 1⟩, ⟨0, 1⟩, ⟨0, 1⟩, ⟨0, 1⟩, 6⟩ : Quantity Int)
      (IntegralQuantity (-1) 0 0 0 3) = none := by
  decide

/-- C2 (amended): for quantities `a` and `b`, `a / b` is a quantity exactly when the four
exponent differences, in lowest terms, are representable by `intmax_t`; the quantity then has
the componentwise rational difference as its signature and the magnitude `x / y`.  A length
quantity divided by a time quantity has time exponent -1, length exponent 1, mass and current
exponent 0. -/
theorem operator_div_signature {α : Type} [Div α] (a b : Quantity α) (ha : a.WellTyped)
    (hb : b.WellTyped) :
    ((operator_div a b).isSome ↔
      Representable (a.T.toRat - b.T.toRat) ∧ Representable (a.L.toRat - b.L.toRat) ∧
      Representable (a.M.toRat - b.M.toRat) ∧ Representable (a.C.toRat - b.C.toRat)) ∧
    (∀ q, operator_div a b = some q →
      q.WellTyped ∧ q.T.toRat = a.T.toRat - b.T.toRat ∧ q.L.toRat = a.L.toRat - b.L.toRat ∧
      q.M.toRat = a.M.toRat - b.M.toRat ∧ q.C.toRat = a.C.toRat - b.C.toRat ∧
      q.value = a.value / b.value) ∧
    ∀ x y : α, operator_div (IntegralQuantity 0 1 0 0 x) (IntegralQuantity 1 0 0 0 y) =
      some ⟨⟨-1, 1⟩, ⟨1, 1⟩, ⟨0, 1⟩, ⟨0, 1⟩, x / y⟩ := by
  rw [operator_div_eq a b ha hb]
  exact ⟨isSome_ite_some _ _, fun q h => some_ofRat_spec id h, length_div_time⟩

/-- C2 (witness): the amended statement at a length quantity of magnitude 6 and a time quantity
of magnitude 3. -/
theorem operator_div_signature_witness :
    (IntegralQuantity 0 1 0 0 6 : Quantity Int).WellTyped ∧
    (IntegralQuantity 1 0 0 0 3 : Quantity Int).WellTyped ∧
    operator_div (IntegralQuantity 0 1 0 0 6 : Quantity Int) (IntegralQuantity 1 0 0 0 3)
      = some ⟨⟨-1, 1⟩, ⟨1, 1⟩, ⟨0, 1⟩, ⟨0, 1⟩, 2⟩ ∧
    (∀ q, operator_div (IntegralQuantity 0 1 0 0 6 : Quantity Int) (IntegralQuantity 1 0 0 0 3)
        = some q →
      q.WellTyped ∧ q.T.toRat = Ratio.toRat ⟨0, 1⟩ - Ratio.toRat ⟨1, 1⟩ ∧ q.value = 6 / 3) :=
  ⟨by decide, by decide, by decide, fun q h =>
    have w := (operator_div_signature (IntegralQuantity 0 1 0 0 6 : Quantity Int)
      (IntegralQuantity 1 0 0 0 3) (by decide) (by decide)).2.1 q h
    ⟨w.1, w.2.1, w.2.2.2.2.2⟩⟩

/-! ## C3 : the scalar forms of `*` and `/` -/

/-- C3: for a quantity `q` of signature `S` and magnitude `x` and a double `k`, `k * q`,
`q * k` and `q / k` have the signature `S` and the magnitudes `k * x`, `x * k` and `x / k`;
`k / q` is a quantity whose exponents are those of `S` with the numerator negated, which are
again in lowest terms and denote the negated rationals, and whose magnitude is `k / x`. -/
theorem scalar_operators_signature {α : Type} [Mul α] [Div α] (q : Quantity α) (k : α)
    (hq : q.WellTyped) :
    operator_mul_double_lhs k q = ⟨q.T, q.L, q.M, q.C, k * q.value⟩ ∧
    operator_mul_double_rhs q k = ⟨q.T, q.L, q.M, q.C, q.value * k⟩ ∧
    operator_div_double_rhs q k = ⟨q.T, q.L, q.M, q.C, q.value / k⟩ ∧
    ∃ r, operator_div_double_lhs k q = some r ∧ r.value = k / q.value ∧ r.WellTyped ∧
      r.T = ⟨-q.T.N, q.T.D⟩ ∧ r.L = ⟨-q.L.N, q.L.D⟩ ∧ r.M = ⟨-q.M.N, q.M.D⟩ ∧
      r.C = ⟨-q.C.N, q.C.D⟩ ∧
      r.T.toRat = -q.T.toRat ∧ r.L.toRat = -q.L.toRat ∧ r.M.toRat = -q.M.toRat ∧
      r.C.toRat = -q.C.toRat :=
  ⟨rfl, rfl, rfl, _, operator_div_double_lhs_eq k q hq, rfl,
    ⟨hq.1.neg, hq.2.1.neg, hq.2.2.1.neg, hq.2.2.2.neg⟩, rfl, rfl, rfl, rfl,
    toRat_neg _, toRat_neg _, toRat_neg _, toRat_neg _⟩

/-- C3 (witness): the statement at the quantity of exponents (-1, 1/2, 0, 0) and magnitude 6
and the scalar 3. -/
theorem scalar_operators_signature_witness :
    (⟨⟨-1, 1⟩, ⟨1, 2⟩, ⟨0, 1⟩, ⟨0, 1⟩, 6⟩ : Quantity Int).WellTyped ∧
    operator_div_double_lhs 3 (⟨⟨-1, 1⟩, ⟨1, 2⟩, ⟨0, 1⟩, ⟨0, 1⟩, 6⟩ : Quantity Int)
      = some ⟨⟨1, 1⟩, ⟨-1, 2⟩, ⟨0, 1⟩, ⟨0, 1⟩, 0⟩ ∧
    operator_mul_double_lhs 3 (⟨⟨-1, 1⟩, ⟨1, 2⟩, ⟨0, 1⟩, ⟨0, 1⟩, 6⟩ : Quantity Int)
      = ⟨⟨-1, 1⟩, ⟨1, 2⟩, ⟨0, 1⟩, ⟨0, 1⟩, 3 * 6⟩ :=
  ⟨by decide, by decide,
    (scalar_operators_signature (⟨⟨-1, 1⟩, ⟨1, 2⟩, ⟨0, 1⟩, ⟨0, 1⟩, 6⟩ : Quantity Int) 3
      (by decide)).1⟩

theorem ratio_eq_some (N D : Int) (hN : INT32_MIN ≤ N ∧ N ≤ INT32_MAX)
    (hD : INT32_MIN ≤ D ∧ D ≤ INT32_MAX) (h0 : D ≠ 0) : ratio N D = some ⟨N, D⟩ := by
  unfold ratio
  rw [if_pos]
  unfold Ratio.WellFormed INTMAX_MAX
  unfold INT32_MIN INT32_MAX at hN hD
  dsimp only
  omega

theorem toRat_int (N : Int) : Ratio.toRat ⟨N, 1⟩ = (N : ℚ) := by
  unfold Ratio.toRat
  exact Rat.divInt_one N

theorem toRat_div (N D : Int) : Ratio.toRat ⟨N, D⟩ = (N : ℚ) / (D : ℚ) := by
  unfold Ratio.toRat
  exact Rat.divInt_eq_div N D

theorem pow_eq {α : Type} [IntCast α] (cm : CMath α) (N : Int) (q : Quantity α)
    (hq : q.WellTyped) (hN : INT32_MIN ≤ N ∧ N ≤ INT32_MAX) :
    pow cm N q =
      if Representable (q.T.toRat * N) ∧ Representable (q.L.toRat * N) ∧
          Representable (q.M.toRat * N) ∧ Representable (q.C.toRat * N) then
        some ⟨Ratio.ofRat (q.T.toRat * N), Ratio.ofRat (q.L.toRat * N),
          Ratio.ofRat (q.M.toRat * N), Ratio.ofRat (q.C.toRat * N), cm.pow q.value (N : α)⟩
      else none := by
  have hp : ratio N 1 = some ⟨N, 1⟩ := ratio_eq_some N 1 hN (by decide) one_ne_zero
  have h := make_bind_eq _ _ _ _ _ _ _ _
    (ratio_multiply_eq q.T ⟨N, 1⟩ hq.1.D_ne one_ne_zero)
    (ratio_multiply_eq q.L ⟨N, 1⟩ hq.2.1.D_ne one_ne_zero)
    (ratio_multiply_eq q.M ⟨N, 1⟩ hq.2.2.1.D_ne one_ne_zero)
    (ratio_multiply_eq q.C ⟨N, 1⟩ hq.2.2.2.D_ne one_ne_zero) (cm.pow q.value (N : α))
  rw [toRat_int N] at h
  rw [← h]
  unfold pow
  simp only [hN, hp]
  rfl

theorem pow_ratio_eq {α : Type} [IntCast α] [Div α] (cm : CMath α) (q : Quantity α)
    (Num Den : Int) (hq : q.WellTyped) (hNum : INT32_MIN ≤ Num ∧ Num ≤ INT32_MAX)
    (hDen : INT32_MIN ≤ Den ∧ Den ≤ INT32_MAX) (h0 : Den ≠ 0) :
    pow_ratio cm q Num Den =
      if Representable (q.T.toRat * ((Num : ℚ) / (Den : ℚ))) ∧
          Representable (q.L.toRat * ((Num : ℚ) / (Den : ℚ))) ∧
          Representable (q.M.toRat * ((Num : ℚ) / (Den : ℚ))) ∧
          Representable (q.C.toRat * ((Num : ℚ) / (Den : ℚ))) then
        some ⟨Ratio.ofRat (q.T.toRat * ((Num : ℚ) / (Den : ℚ))),
          Ratio.ofRat (q.L.toRat * ((Num : ℚ) / (Den : ℚ))),
          Ratio.ofRat (q.M.toRat * ((Num : ℚ) / (Den : ℚ))),
          Ratio.ofRat (q.C.toRat * ((Num : ℚ) / (Den : ℚ))),
          cm.pow q.value ((Num : α) / (Den : α))⟩
      else none := by
  have hp : ratio Num Den = some ⟨Num, Den⟩ := ratio_eq_some Num Den hNum hDen h0
  have h := make_bind_eq _ _ _ _ _ _ _ _
    (ratio_multiply_eq q.T ⟨Num, Den⟩ hq.1.D_ne h0)
    (ratio_multiply_eq q.L ⟨Num, Den⟩ hq.2.1.D_ne h0)
    (ratio_multiply_eq q.M ⟨Num, Den⟩ hq.2.2.1.D_ne h0)
    (ratio_multiply_eq q.C ⟨Num, Den⟩ hq.2.2.2.D_ne h0) (cm.pow q.value ((Num : α) / (Den : α)))
  rw [toRat_div Num Den] at h
  rw [← h]
  unfold pow_ratio
  simp only [hNum, hDen, hp]
  rfl

theorem map_signature_ite {α : Type} (P : Prop) [Decidable P] (T L M C : Ratio) (v : α) :
    (if P then some (⟨T, L, M, C, v⟩ : Quantity α) else none).map Quantity.signature =
      if P then some (T, L, M, C) else none := by
  by_cases h : P <;> simp [h, Quantity.signature]

/-! ## C4 : powers -/

/-- C4 (counterexample): the time exponent `9223372036854775807` satisfies `IsDimension`, but
twice that exponent is not representable by `intmax_t`, so `std::ratio_multiply` is ill-formed
and neither overload of `pow` produces a quantity for the power 2. -/
theorem pow_not_total :
    (⟨⟨9223372036854775807, 1⟩, ⟨0, 1⟩, ⟨0, 1⟩, ⟨0, 1⟩, 3⟩ : Quantity Int).WellTyped ∧
    pow (⟨id, fun a _ _ => a, fun a _ => a, id, id, fun a _ => a⟩ : CMath Int) 2
      ⟨⟨9223372036854775807, 1⟩, ⟨0, 1⟩, ⟨0, 1⟩, ⟨0, 1⟩, 3⟩ = none ∧
    pow_ratio (⟨id, fun a _ _ => a, fun a _ => a, id, id, fun a _ => a⟩ : CMath Int)
      ⟨⟨9223372036854775807, 1⟩, ⟨0, 1⟩, ⟨0, 1⟩, ⟨0, 1⟩, 3⟩ 2 1 = none := by
  decide

/-- C4 (amended): for a quantity `q` of signature `S` and `int32_t` template arguments `N`,
`Num` and `Den` with `Den` not zero, `pow<N>(q)` resp. `pow(q, Num/Den)` is a quantity exactly
when the four exponents of `S` multiplied by `N` resp. `Num/Den`, in lowest terms, are
representable by `intmax_t`; the quantity then has these products as its signature, each
satisfying `IsDimension`, and the magnitude `std::pow(x, N)` resp.
`std::pow(x, double(Num) / double(Den))`.  The integer overload gives the same signature as the
rational overload applied to `N/1`. -/
theorem pow_signature {α : Type} [IntCast α] [Div α] (cm : CMath α) (q : Quantity α)
    (N Num Den : Int) (hq : q.WellTyped) (hN : INT32_MIN ≤ N ∧ N ≤ INT32_MAX)
    (hNum : INT32_MIN ≤ Num ∧ Num ≤ INT32_MAX) (hDen : INT32_MIN ≤ Den ∧ Den ≤ INT32_MAX)
    (h0 : Den ≠ 0) :
    ((pow cm N q).isSome ↔
      Representable (q.T.toRat * N) ∧ Representable (q.L.toRat * N) ∧
      Representable (q.M.toRat * N) ∧ Representable (q.C.toRat * N)) ∧
    (∀ r, pow cm N q = some r →
      r.WellTyped ∧ r.T.toRat = q.T.toRat * N ∧ r.L.toRat = q.L.toRat * N ∧
      r.M.toRat = q.M.toRat * N ∧ r.C.toRat = q.C.toRat * N ∧
      r.value = cm.pow q.value (N : α)) ∧
    ((pow_ratio cm q Num Den).isSome ↔
      Representable (q.T.toRat * ((Num : ℚ) / (Den : ℚ))) ∧
      Representable (q.L.toRat * ((Num : ℚ) / (Den : ℚ))) ∧
      Representable (q.M.toRat * ((Num : ℚ) / (Den : ℚ))) ∧
      Representable (q.C.toRat * ((Num : ℚ) / (Den : ℚ)))) ∧
    (∀ r, pow_ratio cm q Num Den = some r →
      r.WellTyped ∧ r.T.toRat = q.T.toRat * ((Num : ℚ) / (Den : ℚ)) ∧
      r.L.toRat = q.L.toRat * ((Num : ℚ) / (Den : ℚ)) ∧
      r.M.toRat = q.M.toRat * ((Num : ℚ) / (Den : ℚ)) ∧
      r.C.toRat = q.C.toRat * ((Num : ℚ) / (Den : ℚ)) ∧
      r.value = cm.pow q.value ((Num : α) / (Den : α))) ∧
    (pow cm N q).map Quantity.signature = (pow_ratio cm q N 1).map Quantity.signature := by
  refine ⟨?_, ?_, ?_, ?_, ?_⟩
  · rw [pow_eq cm N q hq hN]
    exact isSome_ite_some _ _
  · rw [pow_eq cm N q hq hN]
    exact fun r h => some_ofRat_spec id h
  · rw [pow_ratio_eq cm q Num Den hq hNum hDen h0]
    exact isSome_ite_some _ _
  · rw [pow_ratio_eq cm q Num Den hq hNum hDen h0]
    exact fun r h => some_ofRat_spec id h
  · rw [pow_eq cm N q hq hN, pow_ratio_eq cm q N 1 hq hN (by decide) one_ne_zero,
      map_signature_ite, map_signature_ite]
    simp only [Int.cast_one, div_one]

/-- C4 (witness): the amended statement at the quantity of exponents (1/2, -2, 0, 0), the
integer power -2 and the rational power 2/4. -/
theorem pow_signature_witness :
    (⟨⟨1, 2⟩, ⟨-2, 1⟩, ⟨0, 1⟩, ⟨0, 1⟩, 3⟩ : Quantity Int).WellTyped ∧
    pow (⟨id, fun a _ _ => a, fun a _ => a, id, id, fun a _ => a⟩ : CMath Int) (-2)
      ⟨⟨1, 2⟩, ⟨-2, 1⟩, ⟨0, 1⟩, ⟨0, 1⟩, 3⟩ = some ⟨⟨-1, 1⟩, ⟨4, 1⟩, ⟨0, 1⟩, ⟨0, 1⟩, 3⟩ ∧
    pow_ratio (⟨id, fun a _ _ => a, fun a _ => a, id, id, fun a _ => a⟩ : CMath Int)
      ⟨⟨1, 2⟩, ⟨-2, 1⟩, ⟨0, 1⟩, ⟨0, 1⟩, 3⟩ 2 4 = some ⟨⟨1, 4⟩, ⟨-1, 1⟩, ⟨0, 1⟩, ⟨0, 1⟩, 3⟩ ∧
    (pow (⟨id, fun a _ _ => a, fun a _ => a, id, id, fun a _ => a⟩ : CMath Int) (-2)
      ⟨⟨1, 2⟩, ⟨-2, 1⟩, ⟨0, 1⟩, ⟨0, 1⟩, 3⟩).map Quantity.signature =
    (pow_ratio (⟨id, fun a _ _ => a, fun a _ => a, id, id, fun a _ => a⟩ : CMath Int)
      ⟨⟨1, 2⟩, ⟨-2, 1⟩, ⟨0, 1⟩, ⟨0, 1⟩, 3⟩ (-2) 1).map Quantity.signature :=
  ⟨by decide, by decide, by decide,
    (pow_signature (⟨id, fun a _ _ => a, fun a _ => a, id, id, fun a _ => a⟩ : CMath Int)
      ⟨⟨1, 2⟩, ⟨-2, 1⟩, ⟨0, 1⟩, ⟨0, 1⟩, 3⟩ (-2) 2 4 (by decide) (by decide) (by decide)
      (by decide) (by decide)).2.2.2.2⟩

theorem sqrt_eq {α : Type} (cm : CMath α) (q : Quantity α) (hq : q.WellTyped) :
    sqrt cm q =
      if Representable (q.T.toRat / 2) ∧ Representable (q.L.toRat / 2) ∧
          Representable (q.M.toRat / 2) ∧ Representable (q.C.toRat / 2) then
        some ⟨Ratio.ofRat (q.T.toRat / 2), Ratio.ofRat (q.L.toRat / 2),
          Ratio.ofRat (q.M.toRat / 2), Ratio.ofRat (q.C.toRat / 2), cm.sqrt q.value⟩
      else none := by
  have h := make_bind_eq _ _ _ _ _ _ _ _
    (ratio_divide_eq q.T ⟨2, 1⟩ hq.1.D_ne one_ne_zero two_ne_zero)
    (ratio_divide_eq q.L ⟨2, 1⟩ hq.2.1.D_ne one_ne_zero two_ne_zero)
    (ratio_divide_eq q.M ⟨2, 1⟩ hq.2.2.1.D_ne one_ne_zero two_ne_zero)
    (ratio_divide_eq q.C ⟨2, 1⟩ hq.2.2.2.D_ne one_ne_zero two_ne_zero) (cm.sqrt q.value)
  rw [toRat_int 2, Int.cast_ofNat] at h
  exact h

theorem cbrt_eq {α : Type} (cm : CMath α) (q : Quantity α) (hq : q.WellTyped) :
    cbrt cm q =
      if Representable (q.T.toRat / 3) ∧ Representable (q.L.toRat / 3) ∧
          Representable (q.M.toRat / 3) ∧ Representable (q.C.toRat / 3) then
        some ⟨Ratio.ofRat (q.T.toRat / 3), Ratio.ofRat (q.L.toRat / 3),
          Ratio.ofRat (q.M.toRat / 3), Ratio.ofRat (q.C.toRat / 3), cm.cbrt q.value⟩
      else none := by
  have h := make_bind_eq _ _ _ _ _ _ _ _
    (ratio_divide_eq q.T ⟨3, 1⟩ hq.1.D_ne one_ne_zero three_ne_zero)
    (ratio_divide_eq q.L ⟨3, 1⟩ hq.2.1.D_ne one_ne_zero three_ne_zero)
    (ratio_divide_eq q.M ⟨3, 1⟩ hq.2.2.1.D_ne one_ne_zero three_ne_zero)
    (ratio_divide_eq q.C ⟨3, 1⟩ hq.2.2.2.D_ne one_ne_zero three_ne_zero) (cm.cbrt q.value)
  rw [toRat_int 3, Int.cast_ofNat] at h
  exact h

/-! ## C5 : square root and cube root -/

/-- C5 (counterexample): the time exponent `1/9223372036854775807` satisfies `IsDimension`, but
the denominator of its half and of its third is not representable by `intmax_t`, so
`std::ratio_divide` is ill-formed and neither `sqrt` nor `cbrt` produces a quantity. -/
theorem sqrt_cbrt_not_total :
    (⟨⟨1, 9223372036854775807⟩, ⟨0, 1⟩, ⟨0, 1⟩, ⟨0, 1⟩, 4⟩ : Quantity Int).WellTyped ∧
    sqrt (⟨id, fun a _ _ => a, fun a _ => a, id, id, fun a _ => a⟩ : CMath Int)
      ⟨⟨1, 9223372036854775807⟩, ⟨0, 1⟩, ⟨0, 1⟩, ⟨0, 1⟩, 4⟩ = none ∧
    cbrt (⟨id, fun a _ _ => a, fun a _ => a, id, id, fun a _ => a⟩ : CMath Int)
      ⟨⟨1, 9223372036854775807⟩, ⟨0, 1⟩, ⟨0, 1⟩, ⟨0, 1⟩, 4⟩ = none := by
  decide

/-- C5 (amended): for a quantity `q` of signature `S`, `sqrt(q)` resp. `cbrt(q)` is a quantity
exactly when the four exponents of `S` divided by 2 resp. 3, in lowest terms, are representable
by `intmax_t`; the quantity then has these quotients as its signature, each satisfying
`IsDimension`, and the magnitude `std::sqrt(x)` resp. `std::cbrt(x)`. -/
theorem sqrt_cbrt_signature {α : Type} (cm : CMath α) (q : Quantity α) (hq : q.WellTyped) :
    ((sqrt cm q).isSome ↔
      Representable (q.T.toRat / 2) ∧ Representable (q.L.toRat / 2) ∧
      Representable (q.M.toRat / 2) ∧ Representable (q.C.toRat / 2)) ∧
    (∀ r, sqrt cm q = some r →
      r.WellTyped ∧ r.T.toRat = q.T.toRat / 2 ∧ r.L.toRat = q.L.toRat / 2 ∧
      r.M.toRat = q.M.toRat / 2 ∧ r.C.toRat = q.C.toRat / 2 ∧ r.value = cm.sqrt q.value) ∧
    ((cbrt cm q).isSome ↔
      Representable (q.T.toRat / 3) ∧ Representable (q.L.toRat / 3) ∧
      Representable (q.M.toRat / 3) ∧ Representable (q.C.toRat / 3)) ∧
    (∀ r, cbrt cm q = some r →
      r.WellTyped ∧ r.T.toRat = q.T.toRat / 3 ∧ r.L.toRat = q.L.toRat / 3 ∧
      r.M.toRat = q.M.toRat / 3 ∧ r.C.toRat = q.C.toRat / 3 ∧ r.value = cm.cbrt q.value) := by
  rw [sqrt_eq cm q hq, cbrt_eq cm q hq]
  exact ⟨isSome_ite_some _ _, fun r h => some_ofRat_spec id h, isSome_ite_some _ _,
    fun r h => some_ofRat_spec id h⟩

/-- C5 (witness): the amended statement at the quantity of exponents (-1, 6, 1/2, 0), an area
like quantity whose roots have the exponents (-1/2, 3, 1/4, 0) and (-1/3, 2, 1/6, 0). -/
theorem sqrt_cbrt_signature_witness :
    (⟨⟨-1, 1⟩, ⟨6, 1⟩, ⟨1, 2⟩, ⟨0, 1⟩, 4⟩ : Quantity Int).WellTyped ∧
    sqrt (⟨id, fun a _ _ => a, fun a _ => a, id, id, fun a _ => a⟩ : CMath Int)
      ⟨⟨-1, 1⟩, ⟨6, 1⟩, ⟨1, 2⟩, ⟨0, 1⟩, 4⟩ = some ⟨⟨-1, 2⟩, ⟨3, 1⟩, ⟨1, 4⟩, ⟨0, 1⟩, 4⟩ ∧
    cbrt (⟨id, fun a _ _ => a, fun a _ => a, id, id, fun a _ => a⟩ : CMath Int)
      ⟨⟨-1, 1⟩, ⟨6, 1⟩, ⟨1, 2⟩, ⟨0, 1⟩, 4⟩ = some ⟨⟨-1, 3⟩, ⟨2, 1⟩, ⟨1, 6⟩, ⟨0, 1⟩, 4⟩ ∧
    (∀ r, sqrt (⟨id, fun a _ _ => a, fun a _ => a, id, id, fun a _ => a⟩ : CMath Int)
        ⟨⟨-1, 1⟩, ⟨6, 1⟩, ⟨1, 2⟩, ⟨0, 1⟩, 4⟩ = some r →
      r.WellTyped ∧ r.T.toRat = Ratio.toRat ⟨-1, 1⟩ / 2) :=
  ⟨by decide, by decide, by decide, fun r h =>
    have w := (sqrt_cbrt_signature
      (⟨id, fun a _ _ => a, fun a _ => a, id, id, fun a _ => a⟩ : CMath Int)
      ⟨⟨-1, 1⟩, ⟨6, 1⟩, ⟨1, 2⟩, ⟨0, 1⟩, 4⟩ (by decide)).2.1 r h
    ⟨w.1, w.2.1⟩⟩

theorem isDimension_iff (r : Ratio) : IsDimension r ↔ r.WellFormed ∧ r.LowestTerms := by
  unfold IsDimension Ratio.LowestTerms
  constructor
  · rintro ⟨hw, he⟩
    refine ⟨hw, ?_, ?_⟩
    · have h := @IsDimension.eq_ofRat r ⟨hw, he⟩
      rw [h]
      unfold Ratio.ofRat
      exact Int.natCast_pos.2 r.toRat.den_pos
    · have h := @IsDimension.eq_ofRat r ⟨hw, he⟩
      rw [h]
      unfold Ratio.ofRat
      exact r.toRat.reduced
  · rintro ⟨hw, hD, hg⟩
    refine ⟨hw, ?_⟩
    unfold Ratio.num Ratio.den
    rw [hg, Int.sign_eq_one_of_pos hD, mul_one, Int.sign_mul_natAbs, Nat.cast_one, Int.ediv_one,
      Int.ediv_one, Int.natAbs_of_nonneg hD.le]

theorem Quantity.WellTyped.lowestTerms {α : Type} {q : Quantity α} (h : q.WellTyped) :
    q.LowestTerms :=
  ⟨((isDimension_iff _).1 h.1).2, ((isDimension_iff _).1 h.2.1).2,
    ((isDimension_iff _).1 h.2.2.1).2, ((isDimension_iff _).1 h.2.2.2).2⟩

theorem ratio_reduced_isDimension {X Y : Int} {R : Ratio} (h : ratio_reduced X Y = some R) :
    IsDimension R := by
  by_cases hY : Y = 0
  · unfold ratio_reduced at h
    rw [if_pos hY] at h
    cases h
  · rw [ratio_reduced_eq X Y hY] at h
    unfold ratio_of_rat at h
    by_cases hr : Representable (Rat.divInt X Y)
    · rw [if_pos hr] at h
      cases Option.some.inj h
      exact (isDimension_ofRat_iff _).2 hr
    · rw [if_neg hr] at h
      cases h

theorem make_wellTyped {α : Type} {T L M C : Ratio} {v : α} {q : Quantity α}
    (h : Quantity.make T L M C v = some q) : q.WellTyped := by
  unfold Quantity.make at h
  by_cases hc : IsDimension T ∧ IsDimension L ∧ IsDimension M ∧ IsDimension C
  · rw [if_pos hc] at h
    cases Option.some.inj h
    exact hc
  · rw [if_neg hc] at h
    cases h

theorem make_bind_isSome {α : Type} (oT oL oM oC : Option Ratio) (v : α)
    (hT : ∀ R, oT = some R → IsDimension R) (hL : ∀ R, oL = some R → IsDimension R)
    (hM : ∀ R, oM = some R → IsDimension R) (hC : ∀ R, oC = some R → IsDimension R) :
    (oT.bind fun NewT => oL.bind fun NewL => oM.bind fun NewM => oC.bind fun NewC =>
      Quantity.make NewT NewL NewM NewC v).isSome ↔
    oT.isSome ∧ oL.isSome ∧ oM.isSome ∧ oC.isSome := by
  cases oT with
  | none => simp
  | some t =>
    cases oL with
    | none => simp
    | some l =>
      cases oM with
      | none => simp
      | some m =>
        cases oC with
        | none => simp
        | some c =>
          simp [Quantity.make, hT t rfl, hL l rfl, hM m rfl, hC c rfl]

theorem make_bind_wellTyped {α : Type} {oT oL oM oC : Option Ratio} {v : α} {q : Quantity α}
    (h : (oT.bind fun NewT => oL.bind fun NewL => oM.bind fun NewM => oC.bind fun NewC =>
      Quantity.make NewT NewL NewM NewC v) = some q) : q.WellTyped := by
  cases oT with
  | none => cases h
  | some t =>
    cases oL with
    | none => cases h
    | some l =>
      cases oM with
      | none => cases h
      | some m =>
        cases oC with
        | none => cases h
        | some c => exact make_wellTyped h

theorem pow_wellTyped {α : Type} [IntCast α] {cm : CMath α} {N : Int} {a q : Quantity α}
    (h : pow cm N a = some q) : q.WellTyped := by
  unfold pow at h
  by_cases hN : INT32_MIN ≤ N ∧ N ≤ INT32_MAX
  · simp only [hN] at h
    cases hp : ratio N 1 with
    | none => rw [hp] at h; cases h
    | some p => rw [hp] at h; exact make_bind_wellTyped h
  · simp only [hN] at h
    cases h

theorem pow_ratio_wellTyped {α : Type} [IntCast α] [Div α] {cm : CMath α} {Num Den : Int}
    {a q : Quantity α} (h : pow_ratio cm a Num Den = some q) : q.WellTyped := by
  unfold pow_ratio at h
  by_cases hN : INT32_MIN ≤ Num ∧ Num ≤ INT32_MAX ∧ INT32_MIN ≤ Den ∧ Den ≤ INT32_MAX
  · simp only [hN] at h
    cases hp : ratio Num Den with
    | none => rw [hp] at h; cases h
    | some p => rw [hp] at h; exact make_bind_wellTyped h
  · simp only [hN] at h
    cases h

theorem operator_add_eq_some {α : Type} [Add α] {a b q : Quantity α}
    (h : operator_add a b = some q) :
    q.signature = a.signature ∧ q.signature = b.signature ∧ q.value = a.value + b.value := by
  unfold operator_add at h
  by_cases hs : a.T = b.T ∧ a.L = b.L ∧ a.M = b.M ∧ a.C = b.C
  · rw [if_pos hs] at h
    cases Option.some.inj h
    obtain ⟨h1, h2, h3, h4⟩ := hs
    simp [Quantity.signature, h1, h2, h3, h4]
  · rw [if_neg hs] at h
    cases h

theorem operator_sub_eq_some {α : Type} [Sub α] {a b q : Quantity α}
    (h : operator_sub a b = some q) :
    q.signature = a.signature ∧ q.signature = b.signature ∧ q.value = a.value - b.value := by
  unfold operator_sub at h
  by_cases hs : a.T = b.T ∧ a.L = b.L ∧ a.M = b.M ∧ a.C = b.C
  · rw [if_pos hs] at h
    cases Option.some.inj h
    obtain ⟨h1, h2, h3, h4⟩ := hs
    simp [Quantity.signature, h1, h2, h3, h4]
  · rw [if_neg hs] at h
    cases h

theorem signature_eq_iff {α : Type} (a b : Quantity α) :
    a.signature = b.signature ↔ a.T = b.T ∧ a.L = b.L ∧ a.M = b.M ∧ a.C = b.C := by
  simp [Quantity.signature]

/-! ## C6 : addition, subtraction and negation -/

/-- C6: `a + b` and `a - b` are quantities exactly when `a` and `b` have one identical
signature; the result then has that signature and the magnitude `x + y` resp. `x - y`.  With
different signatures there is no result, as for a length and a time quantity.  Unary negation
keeps the signature and negates the magnitude. -/
theorem add_sub_neg_signature {α : Type} [Add α] [Sub α] [Neg α] (a b : Quantity α) :
    ((operator_add a b).isSome ↔ a.signature = b.signature) ∧
    ((operator_sub a b).isSome ↔ a.signature = b.signature) ∧
    (∀ q, operator_add a b = some q →
      q.signature = a.signature ∧ q.signature = b.signature ∧ q.value = a.value + b.value) ∧
    (∀ q, operator_sub a b = some q →
      q.signature = a.signature ∧ q.signature = b.signature ∧ q.value = a.value - b.value) ∧
    (a.signature ≠ b.signature → operator_add a b = none ∧ operator_sub a b = none) ∧
    ((operator_neg a).signature = a.signature ∧ (operator_neg a).value = -a.value) ∧
    ∀ x y : α, operator_add (IntegralQuantity 0 1 0 0 x) (IntegralQuantity 1 0 0 0 y) = none ∧
      operator_sub (IntegralQuantity 0 1 0 0 x) (IntegralQuantity 1 0 0 0 y) = none := by
  refine ⟨?_, ?_, fun q h => operator_add_eq_some h, fun q h => operator_sub_eq_some h, ?_,
    ⟨rfl, rfl⟩, ?_⟩
  · rw [signature_eq_iff]
    exact isSome_ite_some _ _
  · rw [signature_eq_iff]
    exact isSome_ite_some _ _
  · intro hne
    rw [Ne, signature_eq_iff] at hne
    exact ⟨if_neg hne, if_neg hne⟩
  · intro x y
    have hne : ¬ ((⟨0, 1⟩ : Ratio) = ⟨1, 1⟩ ∧ (⟨1, 1⟩ : Ratio) = ⟨0, 1⟩ ∧
        (⟨0, 1⟩ : Ratio) = ⟨0, 1⟩ ∧ (⟨0, 1⟩ : Ratio) = ⟨0, 1⟩) := by decide
    exact ⟨if_neg hne, if_neg hne⟩

/-! ## C7 : the results satisfy `IsDimension` -/

/-- C7: when the operands satisfy the `IsDimension` constraints, every quantity produced by
`*`, `/`, `double / Quantity`, both overloads of `pow`, `sqrt` and `cbrt` satisfies them again,
each exponent being in lowest terms with a positive denominator.  Every type that
`std::ratio_add`, `std::ratio_subtract`, `std::ratio_multiply` or `std::ratio_divide` yields
satisfies `IsDimension`, so the constraint of `Quantity` never rejects a result: the operation
yields a quantity as soon as its four `std::ratio` computations are well-formed. -/
theorem isDimension_preserved {α : Type} [Mul α] [Div α] [IntCast α] (cm : CMath α)
    (a b : Quantity α) (k : α) (N Num Den : Int) (ha : a.WellTyped) (hb : b.WellTyped) :
    (a.LowestTerms ∧ b.LowestTerms) ∧
    (∀ q, operator_mul a b = some q → q.WellTyped ∧ q.LowestTerms) ∧
    (∀ q, operator_div a b = some q → q.WellTyped ∧ q.LowestTerms) ∧
    (∀ q, operator_div_double_lhs k a = some q → q.WellTyped ∧ q.LowestTerms) ∧
    (∀ q, pow cm N a = some q → q.WellTyped ∧ q.LowestTerms) ∧
    (∀ q, pow_ratio cm a Num Den = some q → q.WellTyped ∧ q.LowestTerms) ∧
    (∀ q, sqrt cm a = some q → q.WellTyped ∧ q.LowestTerms) ∧
    (∀ q, cbrt cm a = some q → q.WellTyped ∧ q.LowestTerms) ∧
    (∀ R1 R2 R, (ratio_add R1 R2 = some R ∨ ratio_subtract R1 R2 = some R ∨
      ratio_multiply R1 R2 = some R ∨ ratio_divide R1 R2 = some R) →
      IsDimension R ∧ R.LowestTerms) ∧
    ((operator_mul a b).isSome ↔ (ratio_add a.T b.T).isSome ∧ (ratio_add a.L b.L).isSome ∧
      (ratio_add a.M b.M).isSome ∧ (ratio_add a.C b.C).isSome) ∧
    ((operator_div a b).isSome ↔ (ratio_subtract a.T b.T).isSome ∧
      (ratio_subtract a.L b.L).isSome ∧ (ratio_subtract a.M b.M).isSome ∧
      (ratio_subtract a.C b.C).isSome) ∧
    ((sqrt cm a).isSome ↔ (ratio_divide a.T ⟨2, 1⟩).isSome ∧ (ratio_divide a.L ⟨2, 1⟩).isSome ∧
      (ratio_divide a.M ⟨2, 1⟩).isSome ∧ (ratio_divide a.C ⟨2, 1⟩).isSome) ∧
    ((cbrt cm a).isSome ↔ (ratio_divide a.T ⟨3, 1⟩).isSome ∧ (ratio_divide a.L ⟨3, 1⟩).isSome ∧
      (ratio_divide a.M ⟨3, 1⟩).isSome ∧ (ratio_divide a.C ⟨3, 1⟩).isSome) := by
  have hr : ∀ R1 R2 R, (ratio_add R1 R2 = some R ∨ ratio_subtract R1 R2 = some R ∨
      ratio_multiply R1 R2 = some R ∨ ratio_divide R1 R2 = some R) → IsDimension R := by
    intro R1 R2 R h
    rcases h with h | h | h | h <;> exact ratio_reduced_isDimension h
  refine ⟨⟨ha.lowestTerms, hb.lowestTerms⟩,
    fun q h => ⟨make_bind_wellTyped h, (make_bind_wellTyped h).lowestTerms⟩,
    fun q h => ⟨make_bind_wellTyped h, (make_bind_wellTyped h).lowestTerms⟩,
    fun q h => ⟨make_bind_wellTyped h, (make_bind_wellTyped h).lowestTerms⟩,
    fun q h => ⟨pow_wellTyped h, (pow_wellTyped h).lowestTerms⟩,
    fun q h => ⟨pow_ratio_wellTyped h, (pow_ratio_wellTyped h).lowestTerms⟩,
    fun q h => ⟨make_bind_wellTyped h, (make_bind_wellTyped h).lowestTerms⟩,
    fun q h => ⟨make_bind_wellTyped h, (make_bind_wellTyped h).lowestTerms⟩,
    fun R1 R2 R h => ⟨hr R1 R2 R h, ((isDimension_iff R).1 (hr R1 R2 R h)).2⟩,
    make_bind_isSome _ _ _ _ _ ?_ ?_ ?_ ?_, make_bind_isSome _ _ _ _ _ ?_ ?_ ?_ ?_,
    make_bind_isSome _ _ _ _ _ ?_ ?_ ?_ ?_, make_bind_isSome _ _ _ _ _ ?_ ?_ ?_ ?_⟩ <;>
    exact fun R h => ratio_reduced_isDimension h

/-- C7 (witness): the statement at the quantities of exponents (1/2, -2, 0, 0) and
(1/3, 1, 0, -1), whose product has the exponents (5/6, -1, 0, -1). -/
theorem isDimension_preserved_witness :
    (⟨⟨1, 2⟩, ⟨-2, 1⟩, ⟨0, 1⟩, ⟨0, 1⟩, 4⟩ : Quantity Int).WellTyped ∧
    (⟨⟨1, 3⟩, ⟨1, 1⟩, ⟨0, 1⟩, ⟨-1, 1⟩, 2⟩ : Quantity Int).WellTyped ∧
    operator_mul (⟨⟨1, 2⟩, ⟨-2, 1⟩, ⟨0, 1⟩, ⟨0, 1⟩, 4⟩ : Quantity Int)
      ⟨⟨1, 3⟩, ⟨1, 1⟩, ⟨0, 1⟩, ⟨-1, 1⟩, 2⟩ = some ⟨⟨5, 6⟩, ⟨-1, 1⟩, ⟨0, 1⟩, ⟨-1, 1⟩, 8⟩ ∧
    (∀ q, operator_mul (⟨⟨1, 2⟩, ⟨-2, 1⟩, ⟨0, 1⟩, ⟨0, 1⟩, 4⟩ : Quantity Int)
      ⟨⟨1, 3⟩, ⟨1, 1⟩, ⟨0, 1⟩, ⟨-1, 1⟩, 2⟩ = some q → q.WellTyped ∧ q.LowestTerms) :=
  ⟨by decide, by decide, by decide,
    (isDimension_preserved (⟨id, fun a _ _ => a, fun a _ => a, id, id, fun a _ => a⟩ : CMath Int)
      ⟨⟨1, 2⟩, ⟨-2, 1⟩, ⟨0, 1⟩, ⟨0, 1⟩, 4⟩ ⟨⟨1, 3⟩, ⟨1, 1⟩, ⟨0, 1⟩, ⟨-1, 1⟩, 2⟩ 1 2 1 2
      (by decide) (by decide)).2.1⟩


theorem format_dimension_eq_spec (r : Ratio) (h : r.D ≠ 0) (symbol : String) :
    format_dimension r symbol = unit_token_spec symbol r.toRat := by
  unfold format_dimension unit_token_spec
  rw [Ratio.num_eq, Ratio.den_eq r h]
  by_cases h0 : r.toRat = 0
  · simp [h0]
  · have hn : r.toRat.num ≠ 0 := Rat.num_ne_zero.2 h0
    rw [if_neg hn, if_neg h0]
    by_cases h1 : r.toRat.num = 1 ∧ r.toRat.den = 1
    · have h1' : r.toRat.num = 1 ∧ (r.toRat.den : Int) = 1 := ⟨h1.1, by simp [h1.2]⟩
      rw [if_pos h1, if_pos h1']
      simp
    · have h1' : ¬ (r.toRat.num = 1 ∧ (r.toRat.den : Int) = 1) := by
        intro hc
        exact h1 ⟨hc.1, by exact_mod_cast hc.2⟩
      rw [if_neg h1, if_neg h1']
      by_cases hd : r.toRat.den = 1
      · simp [hd, String.append_assoc]
      · have hd' : (r.toRat.den : Int) ≠ 1 := by exact_mod_cast hd
        simp [hd, hd', String.append_assoc]

theorem operator_shl_eq {α : Type} (render : α → String) (os : String) (q : Quantity α) :
    operator_shl render os q = os ++ (render q.value ++ (format_dimension q.T "s" ++
      (format_dimension q.L "m" ++ (format_dimension q.M "kg" ++ format_dimension q.C "A")))) := by
  unfold operator_shl
  simp only [String.append_assoc]

theorem formatter_format_eq {α : Type} (render : α → String) (out : String) (q : Quantity α) :
    formatter_format render out q = out ++ (render q.value ++ (format_dimension q.T "s" ++
      (format_dimension q.L "m" ++ (format_dimension q.M "kg" ++ format_dimension q.C "A")))) := by
  unfold formatter_format
  simp only [String.append_assoc]

theorem format_dimension_zero (symbol : String) : format_dimension ⟨0, 1⟩ symbol = "" := by
  unfold format_dimension
  rw [if_pos (by decide)]

/-! ## C8 : the text of a quantity -/

/-- C8: the text that `operator<<` and `std::formatter` append is the rendered magnitude
followed by the unit tokens of the time, length, mass and current exponents, in that order and
with the symbols `s`, `m`, `kg` and `A`, each token as the specification words it.  A pure
length quantity has the unit text `m` and a quantity whose only exponent is time -1 has the unit
text `s^-1`. -/
theorem operator_shl_text {α : Type} (render : α → String) (os : String) (q : Quantity α)
    (hq : q.WellTyped) :
    operator_shl render os q = os ++ (render q.value ++ (unit_token_spec "s" q.T.toRat ++
      (unit_token_spec "m" q.L.toRat ++ (unit_token_spec "kg" q.M.toRat ++
        unit_token_spec "A" q.C.toRat)))) ∧
    formatter_format render os q = os ++ (render q.value ++ (unit_token_spec "s" q.T.toRat ++
      (unit_token_spec "m" q.L.toRat ++ (unit_token_spec "kg" q.M.toRat ++
        unit_token_spec "A" q.C.toRat)))) ∧
    (∀ v : α, operator_shl render os (IntegralQuantity 0 1 0 0 v) = os ++ (render v ++ "m") ∧
      formatter_format render os (IntegralQuantity 0 1 0 0 v) = os ++ (render v ++ "m")) ∧
    (∀ v : α, operator_shl render os (IntegralQuantity (-1) 0 0 0 v) = os ++ (render v ++ "s^-1") ∧
      formatter_format render os (IntegralQuantity (-1) 0 0 0 v) = os ++ (render v ++ "s^-1")) := by
  have e1 : format_dimension ⟨1, 1⟩ "m" = "m" := by decide
  have e2 : format_dimension ⟨-1, 1⟩ "s" = "s^-1" := by decide
  refine ⟨?_, ?_, fun v => ⟨?_, ?_⟩, fun v => ⟨?_, ?_⟩⟩
  · rw [operator_shl_eq, format_dimension_eq_spec _ hq.1.D_ne,
      format_dimension_eq_spec _ hq.2.1.D_ne, format_dimension_eq_spec _ hq.2.2.1.D_ne,
      format_dimension_eq_spec _ hq.2.2.2.D_ne]
  · rw [formatter_format_eq, format_dimension_eq_spec _ hq.1.D_ne,
      format_dimension_eq_spec _ hq.2.1.D_ne, format_dimension_eq_spec _ hq.2.2.1.D_ne,
      format_dimension_eq_spec _ hq.2.2.2.D_ne]
  · rw [operator_shl_eq]
    simp [IntegralQuantity, format_dimension_zero, e1]
  · rw [formatter_format_eq]
    simp [IntegralQuantity, format_dimension_zero, e1]
  · rw [operator_shl_eq]
    simp [IntegralQuantity, format_dimension_zero, e2]
  · rw [formatter_format_eq]
    simp [IntegralQuantity, format_dimension_zero, e2]

/-- C8 (witness): a length quantity of magnitude 5 is written `5m`, a quantity of time
exponent -1 and magnitude 2 is written `2s^-1`, and the quantity of exponents
(-3/2, 1, 2, 0) and magnitude 7 is written `7s^-3/2mkg^2`. -/
theorem operator_shl_text_witness :
    (⟨⟨-3, 2⟩, ⟨1, 1⟩, ⟨2, 1⟩, ⟨0, 1⟩, 7⟩ : Quantity Int).WellTyped ∧
    operator_shl to_string "" (IntegralQuantity 0 1 0 0 (5 : Int)) = "5m" ∧
    operator_shl to_string "" (IntegralQuantity (-1) 0 0 0 (2 : Int)) = "2s^-1" ∧
    operator_shl to_string "" (⟨⟨-3, 2⟩, ⟨1, 1⟩, ⟨2, 1⟩, ⟨0, 1⟩, 7⟩ : Quantity Int)
      = "7s^-3/2mkg^2" ∧
    operator_shl to_string "" (⟨⟨-3, 2⟩, ⟨1, 1⟩, ⟨2, 1⟩, ⟨0, 1⟩, 7⟩ : Quantity Int) =
      "" ++ (to_string 7 ++ (unit_token_spec "s" (Ratio.toRat ⟨-3, 2⟩) ++
        (unit_token_spec "m" (Ratio.toRat ⟨1, 1⟩) ++ (unit_token_spec "kg" (Ratio.toRat ⟨2, 1⟩) ++
          unit_token_spec "A" (Ratio.toRat ⟨0, 1⟩))))) :=
  ⟨by decide, by decide, by decide, by decide,
    (operator_shl_text to_string "" (⟨⟨-3, 2⟩, ⟨1, 1⟩, ⟨2, 1⟩, ⟨0, 1⟩, 7⟩ : Quantity Int)
      (by decide)).1⟩

/-! ## C9 : the text of a quantity of exponents (1, -2, 0, 0) -/

/-- C9 (counterexample): the quantity of time exponent 1, length exponent -2 and magnitude 5 is
written `5sm^-2`: the length token follows the time token directly, and the text is not the
magnitude followed by `s m^-2`. -/
theorem operator_shl_no_space :
    operator_shl to_string "" (IntegralQuantity 1 (-2) 0 0 (5 : Int)) = "5sm^-2" ∧
    operator_shl to_string "" (IntegralQuantity 1 (-2) 0 0 (5 : Int)) ≠ to_string 5 ++ "s m^-2" ∧
    formatter_format to_string "" (IntegralQuantity 1 (-2) 0 0 (5 : Int)) ≠
      to_string 5 ++ "s m^-2" := by
  decide

/-- C9 (amended): a quantity with time exponent 1, length exponent -2 and mass and current
exponent 0 is written as its magnitude followed by the unit text `sm^-2`, the time token and
the length token with nothing between them. -/
theorem operator_shl_time_length {α : Type} (render : α → String) (os : String) (v : α) :
    operator_shl render os (IntegralQuantity 1 (-2) 0 0 v) = os ++ (render v ++ "sm^-2") ∧
    formatter_format render os (IntegralQuantity 1 (-2) 0 0 v) = os ++ (render v ++ "sm^-2") := by
  have e1 : format_dimension ⟨1, 1⟩ "s" = "s" := by decide
  have e2 : format_dimension ⟨-2, 1⟩ "m" = "m^-2" := by decide
  have e3 : "s" ++ "m^-2" = "sm^-2" := by decide
  constructor
  · rw [operator_shl_eq]
    simp [IntegralQuantity, format_dimension_zero, e1, e2, e3]
  · rw [formatter_format_eq]
    simp [IntegralQuantity, format_dimension_zero, e1, e2, e3]

/-! ## C10 : sine, cosine and tangent of an angle -/

/-- C10 (the code at the failing inputs): `sin`, `cos` and `tan` of an angle all return the
dimensionless quantity of `std::tan` of the magnitude.  With the real functions, `cos` of the
angle 0 is 0 and not the cosine 1, and `sin` of the angle 1 is the tangent of 1, which is not
the sine of 1. -/
theorem sin_cos_return_tan :
    (∀ (α : Type) (std : Trig α) (x : α),
      sin std (Angle x) = some (Number (std.tan x)) ∧
      cos std (Angle x) = some (Number (std.tan x)) ∧
      tan std (Angle x) = some (Number (std.tan x))) ∧
    cos ⟨Real.sin, Real.cos, Real.tan⟩ (Angle 0) = some (Number 0) ∧ Real.cos 0 = 1 ∧
    sin ⟨Real.sin, Real.cos, Real.tan⟩ (Angle 1) = some (Number (Real.tan 1)) ∧
    Real.tan 1 ≠ Real.sin 1 := by
  have hd : IsDimensionless ⟨0, 1⟩ ⟨0, 1⟩ ⟨0, 1⟩ ⟨0, 1⟩ := by decide
  have hg : ∀ (α : Type) (std : Trig α) (x : α),
      sin std (Angle x) = some (Number (std.tan x)) ∧
      cos std (Angle x) = some (Number (std.tan x)) ∧
      tan std (Angle x) = some (Number (std.tan x)) :=
    fun α std x => ⟨if_pos hd, if_pos hd, if_pos hd⟩
  refine ⟨hg, ?_, Real.cos_zero, (hg ℝ ⟨Real.sin, Real.cos, Real.tan⟩ 1).1, ?_⟩
  · have h := (hg ℝ ⟨Real.sin, Real.cos, Real.tan⟩ 0).2.1
    simp only [Real.tan_zero] at h
    exact h
  · intro h
    have hs : 0 < Real.sin 1 :=
      Real.sin_pos_of_pos_of_lt_pi one_pos (by linarith [Real.pi_gt_three])
    have hc : 0 < Real.cos 1 := Real.cos_one_pos
    have hle : Real.cos 1 ≤ 2 / 3 := Real.cos_one_le
    rw [Real.tan_eq_sin_div_cos, div_eq_iff hc.ne'] at h
    have : Real.cos 1 = 1 := by
      have h2 : Real.sin 1 * (Real.cos 1 - 1) = 0 := by linarith
      rcases mul_eq_zero.1 h2 with h3 | h3
      · exact absurd h3 hs.ne'
      · linarith
    linarith


theorem same_signature_iff {α : Type} (a b : Quantity α) :
    (a.T = b.T ∧ a.L = b.L ∧ a.M = b.M ∧ a.C = b.C) ↔ a.signature = b.signature :=
  (signature_eq_iff a b).symm

theorem representable_zero : Representable 0 := by
  unfold Representable INTMAX_MAX
  simp

theorem ofRat_zero : Ratio.ofRat 0 = ⟨0, 1⟩ := by
  unfold Ratio.ofRat
  simp

theorem operator_div_self {α : Type} [Div α] (q : Quantity α) (hq : q.WellTyped) :
    operator_div q q = some ⟨⟨0, 1⟩, ⟨0, 1⟩, ⟨0, 1⟩, ⟨0, 1⟩, q.value / q.value⟩ := by
  rw [operator_div_eq q q hq hq]
  simp only [sub_self, ofRat_zero]
  exact if_pos ⟨representable_zero, representable_zero, representable_zero, representable_zero⟩

theorem operator_mul_reciprocal_eq {α : Type} [Mul α] [Div α] (k : α) (a b : Quantity α)
    (ha : a.WellTyped) (hb : b.WellTyped) :
    (operator_div_double_lhs k b).bind (operator_mul a) =
      if Representable (a.T.toRat - b.T.toRat) ∧ Representable (a.L.toRat - b.L.toRat) ∧
          Representable (a.M.toRat - b.M.toRat) ∧ Representable (a.C.toRat - b.C.toRat) then
        some ⟨Ratio.ofRat (a.T.toRat - b.T.toRat), Ratio.ofRat (a.L.toRat - b.L.toRat),
          Ratio.ofRat (a.M.toRat - b.M.toRat), Ratio.ofRat (a.C.toRat - b.C.toRat),
          a.value * (k / b.value)⟩
      else none := by
  have hw : (⟨⟨-b.T.N, b.T.D⟩, ⟨-b.L.N, b.L.D⟩, ⟨-b.M.N, b.M.D⟩, ⟨-b.C.N, b.C.D⟩,
      k / b.value⟩ : Quantity α).WellTyped := ⟨hb.1.neg, hb.2.1.neg, hb.2.2.1.neg, hb.2.2.2.neg⟩
  rw [operator_div_double_lhs_eq k b hb, Option.some_bind, operator_mul_eq a _ ha hw]
  simp only [toRat_neg, ← sub_eq_add_neg]

/-! ## C19 : division and multiplication by the reciprocal -/

/-- C19: for quantities `a` and `b`, `a / b` and `a * (1.0 / b)` have the same signature, and
one is a quantity exactly when the other is; for every quantity `q`, `q / q` and
`q * (1.0 / q)` are quantities whose signature satisfies `IsDimensionless`, each exponent
being `0/1`. -/
theorem div_eq_mul_reciprocal {α : Type} [Mul α] [Div α] [One α] (a b q : Quantity α)
    (ha : a.WellTyped) (hb : b.WellTyped) (hq : q.WellTyped) :
    (operator_div a b).map Quantity.signature =
      ((operator_div_double_lhs 1 b).bind (operator_mul a)).map Quantity.signature ∧
    (∃ r, operator_div q q = some r ∧ IsDimensionless r.T r.L r.M r.C ∧
      r.signature = (⟨0, 1⟩, ⟨0, 1⟩, ⟨0, 1⟩, ⟨0, 1⟩) ∧ r.value = q.value / q.value) ∧
    (∃ r, (operator_div_double_lhs 1 q).bind (operator_mul q) = some r ∧
      IsDimensionless r.T r.L r.M r.C ∧
      r.signature = (⟨0, 1⟩, ⟨0, 1⟩, ⟨0, 1⟩, ⟨0, 1⟩) ∧ r.value = q.value * (1 / q.value)) := by
  refine ⟨?_, ⟨_, operator_div_self q hq, ⟨rfl, rfl, rfl, rfl⟩, rfl, rfl⟩,
    ⟨⟨⟨0, 1⟩, ⟨0, 1⟩, ⟨0, 1⟩, ⟨0, 1⟩, q.value * (1 / q.value)⟩, ?_, ⟨rfl, rfl, rfl, rfl⟩,
      rfl, rfl⟩⟩
  · rw [operator_div_eq a b ha hb, operator_mul_reciprocal_eq 1 a b ha hb, map_signature_ite,
      map_signature_ite]
  · rw [operator_mul_reciprocal_eq 1 q q hq hq]
    simp only [sub_self, ofRat_zero]
    exact if_pos ⟨representable_zero, representable_zero, representable_zero,
      representable_zero⟩

/-- C19 (witness): a quantity of exponents (1/2, 1, 0, 0) and a quantity of exponents
(1/3, 0, 0, -1), whose quotient has the exponents (1/6, 1, 0, 1). -/
theorem div_eq_mul_reciprocal_witness :
    (⟨⟨1, 2⟩, ⟨1, 1⟩, ⟨0, 1⟩, ⟨0, 1⟩, 6⟩ : Quantity Int).WellTyped ∧
    (⟨⟨1, 3⟩, ⟨0, 1⟩, ⟨0, 1⟩, ⟨-1, 1⟩, 2⟩ : Quantity Int).WellTyped ∧
    operator_div (⟨⟨1, 2⟩, ⟨1, 1⟩, ⟨0, 1⟩, ⟨0, 1⟩, 6⟩ : Quantity Int)
      ⟨⟨1, 3⟩, ⟨0, 1⟩, ⟨0, 1⟩, ⟨-1, 1⟩, 2⟩ = some ⟨⟨1, 6⟩, ⟨1, 1⟩, ⟨0, 1⟩, ⟨1, 1⟩, 3⟩ ∧
    (operator_div (⟨⟨1, 2⟩, ⟨1, 1⟩, ⟨0, 1⟩, ⟨0, 1⟩, 6⟩ : Quantity Int)
      ⟨⟨1, 3⟩, ⟨0, 1⟩, ⟨0, 1⟩, ⟨-1, 1⟩, 2⟩).map Quantity.signature =
    ((operator_div_double_lhs 1 (⟨⟨1, 3⟩, ⟨0, 1⟩, ⟨0, 1⟩, ⟨-1, 1⟩, 2⟩ : Quantity Int)).bind
      (operator_mul ⟨⟨1, 2⟩, ⟨1, 1⟩, ⟨0, 1⟩, ⟨0, 1⟩, 6⟩)).map Quantity.signature :=
  ⟨by decide, by decide, by decide,
    (div_eq_mul_reciprocal (⟨⟨1, 2⟩, ⟨1, 1⟩, ⟨0, 1⟩, ⟨0, 1⟩, 6⟩ : Quantity Int)
      ⟨⟨1, 3⟩, ⟨0, 1⟩, ⟨0, 1⟩, ⟨-1, 1⟩, 2⟩ ⟨⟨1, 2⟩, ⟨1, 1⟩, ⟨0, 1⟩, ⟨0, 1⟩, 6⟩
      (by decide) (by decide) (by decide)).1⟩

theorem digitChar_spec (k : Nat) (h : k < 10) :
    (Nat.digitChar k).isDigit = true ∧ (Nat.digitChar k).toNat - 48 = k := by
  interval_cases k <;> decide

theorem toDigitsCore_succ (fuel n : Nat) (ds : List Char) :
    Nat.toDigitsCore 10 (fuel + 1) n ds =
      if n / 10 = 0 then Nat.digitChar (n % 10) :: ds
      else Nat.toDigitsCore 10 fuel (n / 10) (Nat.digitChar (n % 10) :: ds) := by
  simp [Nat.toDigitsCore]

theorem decimal_value_toDigitsCore (fuel : Nat) :
    ∀ (n : Nat) (ds : List Char), n < fuel →
      decimal_value (Nat.toDigitsCore 10 fuel n ds) = n * 10 ^ ds.length + decimal_value ds := by
  induction fuel with
  | zero => intro n ds h; omega
  | succ fuel ih =>
    intro n ds h
    rw [toDigitsCore_succ]
    have hd := (digitChar_spec (n % 10) (Nat.mod_lt _ (by decide))).2
    by_cases h0 : n / 10 = 0
    · rw [if_pos h0]
      have hn : n % 10 = n := Nat.mod_eq_of_lt (by omega)
      simp only [decimal_value, hd]
      rw [hn]
    · rw [if_neg h0, ih (n / 10) _ (by omega)]
      simp only [decimal_value, hd, List.length_cons, pow_succ]
      have hn : n = 10 * (n / 10) + n % 10 := (Nat.div_add_mod n 10).symm
      generalize 10 ^ ds.length = p
      generalize decimal_value ds = v
      conv_rhs => rw [hn]
      ring

theorem isDigit_toDigitsCore (fuel : Nat) :
    ∀ (n : Nat) (ds : List Char), (∀ c ∈ ds, c.isDigit = true) →
      ∀ c ∈ Nat.toDigitsCore 10 fuel n ds, c.isDigit = true := by
  induction fuel with
  | zero => intro n ds h; exact h
  | succ fuel ih =>
    intro n ds h
    rw [toDigitsCore_succ]
    have hd := (digitChar_spec (n % 10) (Nat.mod_lt _ (by decide))).1
    have h2 : ∀ c ∈ Nat.digitChar (n % 10) :: ds, c.isDigit = true := by
      intro c hc
      rcases List.mem_cons.1 hc with rfl | hc
      · exact hd
      · exact h c hc
    by_cases h0 : n / 10 = 0
    · rw [if_pos h0]; exact h2
    · rw [if_neg h0]; exact ih _ _ h2

theorem toDigits_injective {n m : Nat} (h : Nat.toDigits 10 n = Nat.toDigits 10 m) : n = m := by
  have hn := decimal_value_toDigitsCore (n + 1) n [] (Nat.lt_succ_self n)
  have hm := decimal_value_toDigitsCore (m + 1) m [] (Nat.lt_succ_self m)
  unfold Nat.toDigits at h
  rw [h, hm] at hn
  simpa [decimal_value] using hn.symm

theorem isDigit_toDigits (n : Nat) : ∀ c ∈ Nat.toDigits 10 n, c.isDigit = true :=
  isDigit_toDigitsCore _ _ _ (fun c hc => absurd hc (List.not_mem_nil c))

theorem to_string_data (n : Int) :
    (to_string n).data =
      if n < 0 then '-' :: Nat.toDigits 10 n.natAbs else Nat.toDigits 10 n.natAbs := by
  unfold to_string
  split_ifs
  · rw [String.data_append]
    rfl
  · rfl

theorem to_string_chars (n : Int) :
    ∀ c ∈ (to_string n).data, c.isDigit = true ∨ c = '-' := by
  intro c hc
  rw [to_string_data] at hc
  split_ifs at hc
  · rcases List.mem_cons.1 hc with rfl | hc
    · exact Or.inr rfl
    · exact Or.inl (isDigit_toDigits _ c hc)
  · exact Or.inl (isDigit_toDigits _ c hc)

theorem to_string_injective {n m : Int} (h : (to_string n).data = (to_string m).data) :
    n = m := by
  have hminus : ('-' : Char).isDigit = false := by decide
  rw [to_string_data, to_string_data] at h
  by_cases hn : n < 0 <;> by_cases hm : m < 0
  · rw [if_pos hn, if_pos hm] at h
    have := toDigits_injective (List.cons.inj h).2
    omega
  · rw [if_pos hn, if_neg hm] at h
    have hd := isDigit_toDigits m.natAbs '-' (by rw [← h]; exact List.mem_cons_self _ _)
    rw [hminus] at hd
    cases hd
  · rw [if_neg hn, if_pos hm] at h
    have hd := isDigit_toDigits n.natAbs '-' (by rw [h]; exact List.mem_cons_self _ _)
    rw [hminus] at hd
    cases hd
  · rw [if_neg hn, if_neg hm] at h
    have := toDigits_injective h
    omega

/-- Two texts that each consist of characters of one kind, followed by a rest that does not
start with a character of that kind, are equal only part by part. -/
theorem append_eq_append_of_sep {p : Char → Prop} :
    ∀ (l l' r r' : List Char), (∀ c ∈ l, p c) → (∀ c ∈ l', p c) →
      (∀ c, r.head? = some c → ¬ p c) → (∀ c, r'.head? = some c → ¬ p c) →
      l ++ r = l' ++ r' → l = l' ∧ r = r' := by
  intro l
  induction l with
  | nil =>
    intro l' r r' _ hl' hr _ h
    cases l' with
    | nil => exact ⟨rfl, h⟩
    | cons c l' =>
      have hc : r.head? = some c := by rw [List.nil_append] at h; rw [h]; rfl
      exact absurd (hl' c (List.mem_cons_self _ _)) (hr c hc)
  | cons a l ih =>
    intro l' r r' hl hl' hr hr' h
    cases l' with
    | nil =>
      have hc : r'.head? = some a := by rw [List.nil_append] at h; rw [← h]; rfl
      exact absurd (hl a (List.mem_cons_self _ _)) (hr' a hc)
    | cons c l' =>
      have h2 := List.cons.inj h
      obtain ⟨e1, e2⟩ := ih l' r r' (fun x hx => hl x (List.mem_cons_of_mem _ hx))
        (fun x hx => hl' x (List.mem_cons_of_mem _ hx)) hr hr' h2.2
      exact ⟨by rw [h2.1, e1], e2⟩

theorem exponent_chars_isExponentChar (r : Ratio) :
    ∀ c ∈ exponent_chars r, IsExponentChar c := by
  intro c hc
  unfold exponent_chars at hc
  unfold IsExponentChar
  split_ifs at hc with h1 h2
  · cases hc
  · rcases List.mem_cons.1 hc with rfl | hc
    · exact Or.inr (Or.inr (Or.inl rfl))
    · rcases List.mem_append.1 hc with hc | hc
      · rcases to_string_chars _ c hc with h | h
        · exact Or.inl h
        · exact Or.inr (Or.inl h)
      · rcases List.mem_cons.1 hc with rfl | hc
        · exact Or.inr (Or.inr (Or.inr rfl))
        · rcases to_string_chars _ c hc with h | h
          · exact Or.inl h
          · exact Or.inr (Or.inl h)
  · rcases List.mem_cons.1 hc with rfl | hc
    · exact Or.inr (Or.inr (Or.inl rfl))
    · rw [List.append_nil] at hc
      rcases to_string_chars _ c hc with h | h
      · exact Or.inl h
      · exact Or.inr (Or.inl h)

theorem denominator_chars_head (d : Int) (c : Char)
    (h : (if d ≠ 1 then '/' :: (to_string d).data else []).head? = some c) :
    ¬ (c.isDigit = true ∨ c = '-') := by
  split_ifs at h
  · cases Option.some.inj h
    decide
  · cases h

theorem exponent_chars_injective {r r' : Ratio} (h : exponent_chars r = exponent_chars r') :
    r.num = r'.num ∧ r.den = r'.den := by
  unfold exponent_chars at h
  by_cases h1 : r.num = 1 ∧ r.den = 1 <;> by_cases h1' : r'.num = 1 ∧ r'.den = 1
  · exact ⟨h1.1.trans h1'.1.symm, h1.2.trans h1'.2.symm⟩
  · rw [if_pos h1, if_neg h1'] at h
    cases h
  · rw [if_neg h1, if_pos h1'] at h
    cases h
  · rw [if_neg h1, if_neg h1'] at h
    obtain ⟨e1, e2⟩ := append_eq_append_of_sep _ _ _ _ (to_string_chars r.num)
      (to_string_chars r'.num) (denominator_chars_head r.den) (denominator_chars_head r'.den)
      (List.cons.inj h).2
    refine ⟨to_string_injective e1, ?_⟩
    by_cases hd : r.den = 1 <;> by_cases hd' : r'.den = 1
    · exact hd.trans hd'.symm
    · rw [if_neg (not_not.2 hd), if_pos hd'] at e2
      cases e2
    · rw [if_pos hd, if_neg (not_not.2 hd')] at e2
      cases e2
    · rw [if_pos hd, if_pos hd'] at e2
      exact to_string_injective (List.cons.inj e2).2

theorem format_dimension_data (r : Ratio) (symbol : String) :
    (format_dimension r symbol).data =
      if r.num = 0 then [] else symbol.data ++ exponent_chars r := by
  unfold format_dimension exponent_chars
  by_cases h0 : r.num = 0
  · rw [if_pos h0, if_pos h0]
  · rw [if_neg h0, if_neg h0]
    by_cases h1 : r.num = 1 ∧ r.den = 1
    · simp [h1]
    · by_cases hd : r.den = 1
      · have hn : r.num ≠ 1 := fun hc => h1 ⟨hc, hd⟩
        simp [hn, hd, String.data_append]
      · simp [hd, String.data_append]

theorem IsDimension.eq_zero_of_num {r : Ratio} (h : IsDimension r) (h0 : r.num = 0) :
    r = ⟨0, 1⟩ := by
  rw [Ratio.num_eq] at h0
  rw [h.eq_ofRat, Rat.zero_of_num_zero h0, ofRat_zero]

/-- A unit token followed by a rest that starts neither with an exponent character nor with
the first character of the symbol determines the exponent and the rest. -/
theorem token_injective (symbol : String) (s0 : Char) (st : List Char)
    (hsym : symbol.data = s0 :: st) {r r' : Ratio} (hr : IsDimension r) (hr' : IsDimension r')
    (rest rest' : List Char)
    (hrest : ∀ c, rest.head? = some c → ¬ IsExponentChar c ∧ c ≠ s0)
    (hrest' : ∀ c, rest'.head? = some c → ¬ IsExponentChar c ∧ c ≠ s0)
    (h : (format_dimension r symbol).data ++ rest = (format_dimension r' symbol).data ++ rest') :
    r = r' ∧ rest = rest' := by
  rw [format_dimension_data, format_dimension_data, hsym] at h
  by_cases h0 : r.num = 0 <;> by_cases h0' : r'.num = 0
  · rw [if_pos h0, if_pos h0'] at h
    exact ⟨(hr.eq_zero_of_num h0).trans (hr'.eq_zero_of_num h0').symm, h⟩
  · rw [if_pos h0, if_neg h0'] at h
    have hc : rest.head? = some s0 := by rw [List.nil_append] at h; rw [h]; rfl
    exact absurd rfl (hrest s0 hc).2
  · rw [if_neg h0, if_pos h0'] at h
    have hc : rest'.head? = some s0 := by rw [List.nil_append] at h; rw [← h]; rfl
    exact absurd rfl (hrest' s0 hc).2
  · rw [if_neg h0, if_neg h0', List.append_assoc, List.append_assoc] at h
    obtain ⟨e1, e2⟩ := append_eq_append_of_sep _ _ _ _ (exponent_chars_isExponentChar r)
      (exponent_chars_isExponentChar r') (fun c hc => (hrest c hc).1)
      (fun c hc => (hrest' c hc).1) (List.append_cancel_left h)
    obtain ⟨en, ed⟩ := exponent_chars_injective e1
    refine ⟨?_, e2⟩
    rw [hr.2, hr'.2, en, ed]

theorem token_head (symbol : String) (s0 : Char) (st : List Char)
    (hsym : symbol.data = s0 :: st) (r : Ratio) (rest : List Char) (c : Char)
    (h : ((format_dimension r symbol).data ++ rest).head? = some c) :
    c = s0 ∨ rest.head? = some c := by
  rw [format_dimension_data, hsym] at h
  split_ifs at h
  · exact Or.inr h
  · exact Or.inl (Option.some.inj h).symm

/-! ## C20 : the unit text determines the signature -/

/-- C20: for two signatures whose exponents satisfy `IsDimension`, if the unit texts, the
concatenation of `format_dimension` with the symbols `s`, `m`, `kg` and `A`, are the same
string, then the two signatures are equal. -/
theorem unit_text_injective (T L M C T' L' M' C' : Ratio) (hT : IsDimension T)
    (hL : IsDimension L) (hM : IsDimension M) (hC : IsDimension C) (hT' : IsDimension T')
    (hL' : IsDimension L') (hM' : IsDimension M') (hC' : IsDimension C')
    (h : format_dimension T "s" ++ format_dimension L "m" ++ format_dimension M "kg" ++
        format_dimension C "A" =
      format_dimension T' "s" ++ format_dimension L' "m" ++ format_dimension M' "kg" ++
        format_dimension C' "A") :
    T = T' ∧ L = L' ∧ M = M' ∧ C = C' := by
  have hd := congrArg String.data h
  simp only [String.data_append, List.append_assoc] at hd
  have hA : ∀ (R : Ratio) (c : Char),
      ((format_dimension R "A").data ++ []).head? = some c → c = 'A' := by
    intro R c hc
    rcases token_head "A" 'A' [] rfl R [] c hc with h1 | h1
    · exact h1
    · cases h1
  have hK : ∀ (R R2 : Ratio) (c : Char),
      ((format_dimension R "kg").data ++ (format_dimension R2 "A").data).head? = some c →
      c = 'k' ∨ c = 'A' := by
    intro R R2 c hc
    rcases token_head "kg" 'k' ['g'] rfl R _ c hc with h1 | h1
    · exact Or.inl h1
    · exact Or.inr (hA R2 c (by rw [List.append_nil]; exact h1))
  have hMh : ∀ (R R2 R3 : Ratio) (c : Char),
      ((format_dimension R "m").data ++ ((format_dimension R2 "kg").data ++
        (format_dimension R3 "A").data)).head? = some c → c = 'm' ∨ c = 'k' ∨ c = 'A' := by
    intro R R2 R3 c hc
    rcases token_head "m" 'm' [] rfl R _ c hc with h1 | h1
    · exact Or.inl h1
    · exact Or.inr (hK R2 R3 c h1)
  obtain ⟨eT, h1⟩ := token_injective "s" 's' [] rfl hT hT' _ _
    (fun c hc => by rcases hMh L M C c hc with rfl | rfl | rfl <;> decide)
    (fun c hc => by rcases hMh L' M' C' c hc with rfl | rfl | rfl <;> decide) hd
  obtain ⟨eL, h2⟩ := token_injective "m" 'm' [] rfl hL hL' _ _
    (fun c hc => by rcases hK M C c hc with rfl | rfl <;> decide)
    (fun c hc => by rcases hK M' C' c hc with rfl | rfl <;> decide) h1
  obtain ⟨eM, h3⟩ := token_injective "kg" 'k' ['g'] rfl hM hM' _ _
    (fun c hc => by
      have := hA C c (by rw [List.append_nil]; exact hc)
      subst this
      decide)
    (fun c hc => by
      have := hA C' c (by rw [List.append_nil]; exact hc)
      subst this
      decide) h2
  obtain ⟨eC, _⟩ := token_injective "A" 'A' [] rfl hC hC' [] []
    (fun c hc => by cases hc) (fun c hc => by cases hc)
    (by rw [List.append_nil, List.append_nil]; exact h3)
  exact ⟨eT, eL, eM, eC⟩

/-- C20 (witness): the signature (-3/2, 1, 12, 0), whose unit text is `s^-3/2mkg^12`. -/
theorem unit_text_injective_witness :
    IsDimension ⟨-3, 2⟩ ∧ IsDimension ⟨1, 1⟩ ∧ IsDimension ⟨12, 1⟩ ∧ IsDimension ⟨0, 1⟩ ∧
    format_dimension ⟨-3, 2⟩ "s" ++ format_dimension ⟨1, 1⟩ "m" ++ format_dimension ⟨12, 1⟩ "kg" ++
      format_dimension ⟨0, 1⟩ "A" = "s^-3/2mkg^12" ∧
    ((⟨-3, 2⟩ : Ratio) = ⟨-3, 2⟩ ∧ (⟨1, 1⟩ : Ratio) = ⟨1, 1⟩ ∧ (⟨12, 1⟩ : Ratio) = ⟨12, 1⟩ ∧
      (⟨0, 1⟩ : Ratio) = ⟨0, 1⟩) :=
  ⟨by decide, by decide, by decide, by decide, by decide,
    unit_text_injective ⟨-3, 2⟩ ⟨1, 1⟩ ⟨12, 1⟩ ⟨0, 1⟩ ⟨-3, 2⟩ ⟨1, 1⟩ ⟨12, 1⟩ ⟨0, 1⟩
      (by decide) (by decide) (by decide) (by decide) (by decide) (by decide) (by decide)
      (by decide) rfl⟩

/-! ## Rounding to `double` -/

theorem bit_length_aux_zero (fuel : Nat) : bit_length_aux fuel 0 = 0 := by
  cases fuel <;> simp [bit_length_aux]

theorem bit_length_aux_spec (fuel : Nat) :
    ∀ n, n ≤ fuel → n ≠ 0 →
      2 ^ (bit_length_aux fuel n - 1) ≤ n ∧ n < 2 ^ bit_length_aux fuel n ∧
        1 ≤ bit_length_aux fuel n := by
  induction fuel with
  | zero =>
    intro n h h0
    omega
  | succ fuel ih =>
    intro n h h0
    have e : bit_length_aux (fuel + 1) n = bit_length_aux fuel (n / 2) + 1 := by
      simp [bit_length_aux, h0]
    rw [e]
    by_cases h2 : n / 2 = 0
    · rw [h2, bit_length_aux_zero]
      have : n = 1 := by omega
      subst this
      simp
    · obtain ⟨h3, h4, h5⟩ := ih (n / 2) (by omega) h2
      refine ⟨?_, ?_, by omega⟩
      · have e2 : bit_length_aux fuel (n / 2) + 1 - 1 = (bit_length_aux fuel (n / 2) - 1) + 1 := by
          omega
        rw [e2, pow_succ]
        omega
      · rw [pow_succ]
        omega

theorem bit_length_spec (n : Nat) (h0 : n ≠ 0) :
    2 ^ (bit_length n - 1) ≤ n ∧ n < 2 ^ bit_length n ∧ 1 ≤ bit_length n :=
  bit_length_aux_spec n n le_rfl h0

theorem bit_length_unique (n L : Nat) (h1 : 2 ^ L ≤ n) (h2 : n < 2 ^ (L + 1)) :
    bit_length n = L + 1 := by
  have h0 : n ≠ 0 := by
    have : 0 < 2 ^ L := Nat.two_pow_pos L
    omega
  obtain ⟨h3, h4, h5⟩ := bit_length_spec n h0
  have a : L < bit_length n := (Nat.pow_lt_pow_iff_right (by decide : 1 < 2)).1 (lt_of_le_of_lt h1 h4)
  have b : bit_length n - 1 < L + 1 :=
    (Nat.pow_lt_pow_iff_right (by decide : 1 < 2)).1 (lt_of_le_of_lt h3 h2)
  omega

theorem bit_length_mul_pow (m k : Nat) (h0 : m ≠ 0) :
    bit_length (m * 2 ^ k) = bit_length m + k := by
  obtain ⟨h3, h4, h5⟩ := bit_length_spec m h0
  have e : bit_length m + k = (bit_length m - 1 + k) + 1 := by omega
  rw [e]
  apply bit_length_unique
  · rw [pow_add]
    exact Nat.mul_le_mul_right _ h3
  · rw [← e, pow_add]
    exact Nat.mul_lt_mul_of_pos_right h4 (Nat.two_pow_pos k)

theorem bit_length_le (m L : Nat) (h : m < 2 ^ L) : bit_length m ≤ L := by
  by_cases h0 : m = 0
  · subst h0
    show bit_length_aux 0 0 ≤ L
    simp [bit_length_aux]
  · obtain ⟨h3, h4, h5⟩ := bit_length_spec m h0
    have b : bit_length m - 1 < L :=
      (Nat.pow_lt_pow_iff_right (by decide : 1 < 2)).1 (lt_of_le_of_lt h3 h)
    omega

theorem round_half_even_mul (a d : Nat) (hd : 0 < d) : round_half_even (a * d) d = a := by
  unfold round_half_even
  rw [Nat.mul_mod_left, Nat.mul_div_cancel _ hd]
  simp [hd]

theorem round_half_even_le (n d c : Nat) (hd : 0 < d) (h : n ≤ c * d) :
    round_half_even n d ≤ c := by
  have h1 : n / d ≤ c := by
    calc n / d ≤ c * d / d := Nat.div_le_div_right h
      _ = c := Nat.mul_div_cancel _ hd
  unfold round_half_even
  by_cases h2 : n / d = c
  · have h3 : n % d = 0 := by
      have := Nat.div_add_mod n d
      rw [h2] at this
      have e : d * c = c * d := Nat.mul_comm _ _
      omega
    rw [h3]
    simp [hd, h2]
  · have h3 : n / d + 1 ≤ c := by omega
    split_ifs <;> omega

theorem of_magnitude_bits_eq (s : Bool) (e : Fin 2047) (f : Fin 4503599627370496) :
    Double.of_magnitude_bits s (e.val * 4503599627370496 + f.val) = Double.finite s e f := by
  have hf := f.isLt
  have he := e.isLt
  have h1 : (e.val * 4503599627370496 + f.val) / 4503599627370496 = e.val := by omega
  have h2 : (e.val * 4503599627370496 + f.val) % 4503599627370496 = f.val := by omega
  unfold Double.of_magnitude_bits
  rw [dif_pos (by rw [h1]; exact he)]
  congr 1
  · exact Fin.ext h1
  · exact Fin.ext h2

theorem of_magnitude_bits_finite (s : Bool) (n : Nat) (h : n < 2047 * 4503599627370496) :
    ∃ e f, Double.of_magnitude_bits s n = Double.finite s e f := by
  have h1 : n / 4503599627370496 < 2047 := by omega
  unfold Double.of_magnitude_bits
  rw [dif_pos h1]
  exact ⟨_, _, rfl⟩

theorem significand_finite (s : Bool) (e : Fin 2047) (f : Fin 4503599627370496) :
    (Double.finite s e f).significand = if e.val = 0 then f.val else 4503599627370496 + f.val :=
  rfl

theorem quantum_finite (s : Bool) (e : Fin 2047) (f : Fin 4503599627370496) :
    (Double.finite s e f).quantum = if e.val = 0 then -1074 else (e.val : Int) - 1075 :=
  rfl

theorem significand_lt (s : Bool) (e : Fin 2047) (f : Fin 4503599627370496) :
    (Double.finite s e f).significand < 9007199254740992 := by
  have hf := f.isLt
  rw [significand_finite]
  split_ifs <;> omega

theorem quantum_bits (s : Bool) (e : Fin 2047) (f : Fin 4503599627370496) :
    ((Double.finite s e f).quantum + 1074).toNat * 4503599627370496 +
      (Double.finite s e f).significand = e.val * 4503599627370496 + f.val := by
  rw [quantum_finite, significand_finite]
  split_ifs with h
  · rw [h]
    simp
  · have : ((e.val : Int) - 1075 + 1074).toNat = e.val - 1 := by omega
    rw [this]
    have h1 : e.val = (e.val - 1) + 1 := by omega
    generalize e.val - 1 = j at h1
    rw [h1]
    ring

theorem bit_length_significand (s : Bool) (e : Fin 2047) (f : Fin 4503599627370496) :
    max ((Double.finite s e f).quantum + (bit_length (Double.finite s e f).significand : Int)
      - 53) (-1074) = (Double.finite s e f).quantum := by
  have hf := f.isLt
  rw [quantum_finite, significand_finite]
  split_ifs with h
  · have := bit_length_le f.val 52 (by norm_num)
    omega
  · have := bit_length_unique (4503599627370496 + f.val) 52 (by norm_num) (by norm_num; omega)
    rw [this]
    omega

theorem round_exact (s : Bool) (e : Fin 2047) (f : Fin 4503599627370496) (k : Nat)
    (h0 : (Double.finite s e f).significand ≠ 0) :
    Double.round s ((Double.finite s e f).significand * 2 ^ k)
      ((Double.finite s e f).quantum - k) = Double.finite s e f := by
  have hk : 0 < 2 ^ k := Nat.two_pow_pos k
  have hm : (Double.finite s e f).significand * 2 ^ k ≠ 0 := Nat.mul_ne_zero h0 (by omega)
  have hq : max ((Double.finite s e f).quantum - (k : Int) +
      (bit_length ((Double.finite s e f).significand * 2 ^ k) : Int) - 53) (-1074) =
      (Double.finite s e f).quantum := by
    rw [bit_length_mul_pow _ _ h0]
    have h := bit_length_significand s e f
    push_cast
    omega
  unfold Double.round
  rw [if_neg hm]
  simp only [hq]
  have hmant : (if (Double.finite s e f).quantum ≤ (Double.finite s e f).quantum - (k : Int) then
      (Double.finite s e f).significand * 2 ^ k *
        2 ^ ((Double.finite s e f).quantum - (k : Int) - (Double.finite s e f).quantum).toNat
      else round_half_even ((Double.finite s e f).significand * 2 ^ k)
        (2 ^ ((Double.finite s e f).quantum -
          ((Double.finite s e f).quantum - (k : Int))).toNat)) =
      (Double.finite s e f).significand := by
    have e1 : ((Double.finite s e f).quantum -
        ((Double.finite s e f).quantum - (k : Int))).toNat = k := by omega
    rw [e1, round_half_even_mul _ _ hk]
    split_ifs with h
    · have hk0 : k = 0 := by omega
      subst hk0
      simp
    · rfl
  rw [hmant, quantum_bits, of_magnitude_bits_eq]

theorem round_zero (s : Bool) (q : Int) : Double.round s 0 q = Double.finite s 0 0 := by
  unfold Double.round
  rw [if_pos rfl]

theorem significand_eq_zero (s : Bool) (e : Fin 2047) (f : Fin 4503599627370496)
    (h : (Double.finite s e f).significand = 0) : e = 0 ∧ f = 0 := by
  rw [significand_finite] at h
  split_ifs at h with h1
  · exact ⟨Fin.ext h1, Fin.ext h⟩
  · omega

theorem one_mul_finite (s : Bool) (e : Fin 2047) (f : Fin 4503599627370496) :
    Double.one * Double.finite s e f = Double.finite s e f := by
  show Double.round (Bool.xor false s)
    ((Double.finite false 1023 0).significand * (Double.finite s e f).significand)
    ((Double.finite false 1023 0).quantum + (Double.finite s e f).quantum) = _
  have h1 : (Double.finite false 1023 0).significand = 2 ^ 52 := by decide
  have h2 : (Double.finite false 1023 0).quantum = -((52 : Nat) : Int) := by decide
  rw [h1, h2, Bool.false_xor]
  by_cases h0 : (Double.finite s e f).significand = 0
  · obtain ⟨he, hf⟩ := significand_eq_zero s e f h0
    rw [h0, Nat.mul_zero, round_zero, he, hf]
  · rw [Nat.mul_comm, Int.add_comm, ← Int.sub_eq_add_neg, round_exact s e f 52 h0]

theorem zero_mul_finite (t s : Bool) (e : Fin 2047) (f : Fin 4503599627370496) :
    Double.finite t 0 0 * Double.finite s e f = Double.finite (Bool.xor t s) 0 0 := by
  show Double.round (Bool.xor t s)
    ((Double.finite t 0 0).significand * (Double.finite s e f).significand) _ = _
  have h1 : (Double.finite t 0 0).significand = 0 := by
    rw [significand_finite]
    simp
  rw [h1, Nat.zero_mul, round_zero]

theorem round_finite (s : Bool) (m j N : Nat) (hN : N = 2045)
    (h : m * 2 ^ j ≤ 9007199254740991 * 2 ^ N) :
    ∃ e f, Double.round s m ((j : Int) - 1074) = Double.finite s e f := by
  by_cases hm : m = 0
  · subst hm
    exact ⟨0, 0, round_zero s _⟩
  obtain ⟨h1, h2, h3⟩ := bit_length_spec m hm
  have hj : 0 < 2 ^ j := Nat.two_pow_pos j
  have hLj : bit_length m + j ≤ 2098 := by
    have c : 9007199254740991 < 2 ^ 53 := by norm_num
    have a : 2 ^ (bit_length m - 1 + j) < 2 ^ (53 + N) := by
      calc 2 ^ (bit_length m - 1 + j) = 2 ^ (bit_length m - 1) * 2 ^ j := pow_add _ _ _
        _ ≤ m * 2 ^ j := Nat.mul_le_mul_right _ h1
        _ ≤ 9007199254740991 * 2 ^ N := h
        _ < 2 ^ 53 * 2 ^ N := Nat.mul_lt_mul_of_pos_right c (Nat.two_pow_pos _)
        _ = 2 ^ (53 + N) := (pow_add _ _ _).symm
    have b := (Nat.pow_lt_pow_iff_right (by decide : 1 < 2)).1 a
    omega
  unfold Double.round
  rw [if_neg hm]
  apply of_magnitude_bits_finite
  generalize hL : bit_length m = L at *
  by_cases hc : L ≤ 53
  · have hq : max ((j : Int) - 1074 + (L : Int) - 53) (-1074) ≤ (j : Int) - 1074 := by omega
    simp only [hq, if_true]
    by_cases hd : j + L ≤ 53
    · have e1 : (max ((j : Int) - 1074 + (L : Int) - 53) (-1074) + 1074).toNat = 0 := by omega
      have e2 : ((j : Int) - 1074 - max ((j : Int) - 1074 + (L : Int) - 53) (-1074)).toNat = j := by
        omega
      rw [e1, e2]
      have : m * 2 ^ j < 2 ^ 53 := by
        calc m * 2 ^ j < 2 ^ L * 2 ^ j := Nat.mul_lt_mul_of_pos_right h2 hj
          _ = 2 ^ (L + j) := (pow_add _ _ _).symm
          _ ≤ 2 ^ 53 := Nat.pow_le_pow_right (by decide) (by omega)
      norm_num at this
      omega
    · have e1 : (max ((j : Int) - 1074 + (L : Int) - 53) (-1074) + 1074).toNat = j + L - 53 := by
        omega
      have e2 : ((j : Int) - 1074 - max ((j : Int) - 1074 + (L : Int) - 53) (-1074)).toNat =
          53 - L := by omega
      rw [e1, e2]
      have : m * 2 ^ (53 - L) < 2 ^ 53 := by
        calc m * 2 ^ (53 - L) < 2 ^ L * 2 ^ (53 - L) :=
              Nat.mul_lt_mul_of_pos_right h2 (Nat.two_pow_pos _)
          _ = 2 ^ (L + (53 - L)) := (pow_add _ _ _).symm
          _ = 2 ^ 53 := by rw [Nat.add_sub_cancel' hc]
      norm_num at this
      omega
  · have hq : ¬ max ((j : Int) - 1074 + (L : Int) - 53) (-1074) ≤ (j : Int) - 1074 := by omega
    simp only [hq, if_false]
    have e1 : (max ((j : Int) - 1074 + (L : Int) - 53) (-1074) + 1074).toNat = j + L - 53 := by
      omega
    have e2 : (max ((j : Int) - 1074 + (L : Int) - 53) (-1074) - ((j : Int) - 1074)).toNat =
        L - 53 := by omega
    rw [e1, e2]
    have hd : 0 < 2 ^ (L - 53) := Nat.two_pow_pos _
    have hle : round_half_even m (2 ^ (L - 53)) ≤ 2 ^ 53 := by
      apply round_half_even_le _ _ _ hd
      rw [← pow_add, Nat.add_sub_cancel' (by omega : 53 ≤ L)]
      exact le_of_lt h2
    norm_num at hle
    by_cases hd2 : j + L ≤ 2097
    · omega
    · have hjL : j + L = 2098 := by omega
      have hle2 : round_half_even m (2 ^ (L - 53)) ≤ 9007199254740991 := by
        apply round_half_even_le _ _ _ hd
        have e3 : N = (L - 53) + j := by omega
        rw [e3, pow_add, ← Nat.mul_assoc] at h
        exact Nat.le_of_mul_le_mul_right h hj
      omega

/-! ## Sums and differences of finite doubles -/

theorem add_finite (s t : Bool) (e e2 : Fin 2047) (f f2 : Fin 4503599627370496) (ka kb : Nat)
    (q : Int) (hq : q = min (Double.finite s e f).quantum (Double.finite t e2 f2).quantum)
    (hka : ka = ((Double.finite s e f).quantum - q).toNat)
    (hkb : kb = ((Double.finite t e2 f2).quantum - q).toNat) :
    Double.finite s e f + Double.finite t e2 f2 =
      if (if s then -(((Double.finite s e f).significand * 2 ^ ka : Nat) : Int)
            else (((Double.finite s e f).significand * 2 ^ ka : Nat) : Int)) +
          (if t then -(((Double.finite t e2 f2).significand * 2 ^ kb : Nat) : Int)
            else (((Double.finite t e2 f2).significand * 2 ^ kb : Nat) : Int)) = 0 then
        Double.finite (s && t) 0 0
      else Double.round
        (decide ((if s then -(((Double.finite s e f).significand * 2 ^ ka : Nat) : Int)
            else (((Double.finite s e f).significand * 2 ^ ka : Nat) : Int)) +
          (if t then -(((Double.finite t e2 f2).significand * 2 ^ kb : Nat) : Int)
            else (((Double.finite t e2 f2).significand * 2 ^ kb : Nat) : Int)) < 0))
        ((if s then -(((Double.finite s e f).significand * 2 ^ ka : Nat) : Int)
            else (((Double.finite s e f).significand * 2 ^ ka : Nat) : Int)) +
          (if t then -(((Double.finite t e2 f2).significand * 2 ^ kb : Nat) : Int)
            else (((Double.finite t e2 f2).significand * 2 ^ kb : Nat) : Int))).natAbs q := by
  subst hq hka hkb
  show Double.add _ _ = _
  unfold Double.add
  simp only [Nat.cast_mul, Nat.cast_pow, Nat.cast_ofNat]

theorem quantum_ge (s : Bool) (e : Fin 2047) (f : Fin 4503599627370496) :
    -1074 ≤ (Double.finite s e f).quantum ∧ (Double.finite s e f).quantum ≤ 971 := by
  have he := e.isLt
  rw [quantum_finite]
  split_ifs <;> omega

theorem zero_add_finite (t s : Bool) (e : Fin 2047) (f : Fin 4503599627370496) :
    Double.finite t 0 0 + Double.finite s e f =
      if (Double.finite s e f).significand = 0 then Double.finite (t && s) 0 0
      else Double.finite s e f := by
  have hQ := quantum_ge s e f
  have hz : (Double.finite t 0 0).quantum = -1074 := rfl
  have hs : (Double.finite t 0 0).significand = 0 := rfl
  rw [add_finite t s 0 e 0 f 0 ((Double.finite s e f).quantum + 1074).toNat (-1074)
    (by rw [hz]; omega) (by rw [hz]; rfl) (by omega)]
  rw [hs]
  generalize hk : ((Double.finite s e f).quantum + 1074).toNat = k
  have hk2 : (-1074 : Int) = (Double.finite s e f).quantum - (k : Int) := by omega
  by_cases h0 : (Double.finite s e f).significand = 0
  · rw [h0, if_pos rfl]
    simp
  · rw [if_neg h0]
    have hpos : 0 < (Double.finite s e f).significand * 2 ^ k :=
      Nat.mul_pos (Nat.pos_of_ne_zero h0) (Nat.two_pow_pos k)
    generalize hm : (Double.finite s e f).significand * 2 ^ k = m at hpos
    have e1 : ((if t then -((0 * 2 ^ 0 : Nat) : Int) else ((0 * 2 ^ 0 : Nat) : Int)) +
        (if s then -(m : Int) else (m : Int))) ≠ 0 := by
      cases t <;> cases s <;> simp <;> omega
    have e2 : decide ((if t then -((0 * 2 ^ 0 : Nat) : Int) else ((0 * 2 ^ 0 : Nat) : Int)) +
        (if s then -(m : Int) else (m : Int)) < 0) = s := by
      cases t <;> cases s <;> simp <;> omega
    have e3 : ((if t then -((0 * 2 ^ 0 : Nat) : Int) else ((0 * 2 ^ 0 : Nat) : Int)) +
        (if s then -(m : Int) else (m : Int))).natAbs = m := by
      cases t <;> cases s <;> simp
    rw [if_neg e1, e2, e3, ← hm, hk2, round_exact s e f k h0]

theorem add_zero_finite (s t : Bool) (e : Fin 2047) (f : Fin 4503599627370496) :
    Double.finite s e f + Double.finite t 0 0 =
      if (Double.finite s e f).significand = 0 then Double.finite (s && t) 0 0
      else Double.finite s e f := by
  have hQ := quantum_ge s e f
  have hz : (Double.finite t 0 0).quantum = -1074 := rfl
  have hs : (Double.finite t 0 0).significand = 0 := rfl
  rw [add_finite s t e 0 f 0 ((Double.finite s e f).quantum + 1074).toNat 0 (-1074)
    (by rw [hz]; omega) (by omega) (by rw [hz]; rfl)]
  rw [hs]
  generalize hk : ((Double.finite s e f).quantum + 1074).toNat = k
  have hk2 : (-1074 : Int) = (Double.finite s e f).quantum - (k : Int) := by omega
  by_cases h0 : (Double.finite s e f).significand = 0
  · rw [h0, if_pos rfl]
    simp
  · rw [if_neg h0]
    have hpos : 0 < (Double.finite s e f).significand * 2 ^ k :=
      Nat.mul_pos (Nat.pos_of_ne_zero h0) (Nat.two_pow_pos k)
    generalize hm : (Double.finite s e f).significand * 2 ^ k = m at hpos
    have e1 : ((if s then -(m : Int) else (m : Int)) +
        (if t then -((0 * 2 ^ 0 : Nat) : Int) else ((0 * 2 ^ 0 : Nat) : Int))) ≠ 0 := by
      cases t <;> cases s <;> simp <;> omega
    have e2 : decide ((if s then -(m : Int) else (m : Int)) +
        (if t then -((0 * 2 ^ 0 : Nat) : Int) else ((0 * 2 ^ 0 : Nat) : Int)) < 0) = s := by
      cases t <;> cases s <;> simp <;> omega
    have e3 : ((if s then -(m : Int) else (m : Int)) +
        (if t then -((0 * 2 ^ 0 : Nat) : Int) else ((0 * 2 ^ 0 : Nat) : Int))).natAbs = m := by
      cases t <;> cases s <;> simp
    rw [if_neg e1, e2, e3, ← hm, hk2, round_exact s e f k h0]

theorem significand_mul_pow_le (s : Bool) (e : Fin 2047) (f : Fin 4503599627370496)
    (k j N : Nat) (hN : N = 2045)
    (hkj : ((k + j : Nat) : Int) = (Double.finite s e f).quantum + 1074) :
    (Double.finite s e f).significand * 2 ^ k * 2 ^ j ≤ 9007199254740991 * 2 ^ N := by
  have h1 := significand_lt s e f
  have h2 := quantum_ge s e f
  rw [Nat.mul_assoc, ← pow_add]
  exact Nat.mul_le_mul (by omega) (Nat.pow_le_pow_right (by decide) (by omega))

theorem sub_finite_of_same_sign (s : Bool) (e e2 : Fin 2047) (f f2 : Fin 4503599627370496) :
    ∃ s2 e3 f3, Double.finite s e f - Double.finite s e2 f2 = Double.finite s2 e3 f3 := by
  show ∃ s2 e3 f3, Double.finite s e f + Double.finite (!s) e2 f2 = Double.finite s2 e3 f3
  have hQ := quantum_ge s e f
  have hQ2 := quantum_ge (!s) e2 f2
  generalize hq : min (Double.finite s e f).quantum (Double.finite (!s) e2 f2).quantum = q
  generalize hka : ((Double.finite s e f).quantum - q).toNat = ka
  generalize hkb : ((Double.finite (!s) e2 f2).quantum - q).toNat = kb
  rw [add_finite s (!s) e e2 f f2 ka kb q hq.symm hka.symm hkb.symm]
  generalize hj : (q + 1074).toNat = j
  have hA := significand_mul_pow_le s e f ka j 2045 rfl (by omega)
  have hB := significand_mul_pow_le (!s) e2 f2 kb j 2045 rfl (by omega)
  generalize (Double.finite s e f).significand * 2 ^ ka = A at hA
  generalize (Double.finite (!s) e2 f2).significand * 2 ^ kb = B at hB
  generalize hz : ((if s = true then -(A : Int) else (A : Int)) +
    (if (!s) = true then -(B : Int) else (B : Int))) = z
  have hle : z.natAbs ≤ A ∨ z.natAbs ≤ B := by
    subst hz
    cases s <;> simp <;> omega
  by_cases h0 : z = 0
  · rw [if_pos h0]
    exact ⟨_, _, _, rfl⟩
  · rw [if_neg h0]
    have hqj : q = (j : Int) - 1074 := by omega
    have hb : z.natAbs * 2 ^ j ≤ 9007199254740991 * 2 ^ 2045 := by
      rcases hle with h | h
      · exact le_trans (Nat.mul_le_mul_right _ h) hA
      · exact le_trans (Nat.mul_le_mul_right _ h) hB
    rw [hqj]
    obtain ⟨e3, f3, h3⟩ := round_finite (decide (z < 0)) _ j 2045 rfl hb
    exact ⟨_, e3, f3, h3⟩

/-! ## Comparison of doubles -/

theorem relation_nan_right (x : Double) :
    Double.relation x Double.nan = partial_ordering.unordered := by
  cases x <;> rfl

theorem relation_nan_left (y : Double) :
    Double.relation Double.nan y = partial_ordering.unordered := by
  cases y <;> rfl

theorem relation_eq_ite (x y : Double) (hx : x ≠ Double.nan) (hy : y ≠ Double.nan) :
    Double.relation x y =
      if x.key < y.key then partial_ordering.less
      else if y.key < x.key then partial_ordering.greater
      else partial_ordering.equivalent := by
  cases x <;> cases y <;> first | rfl | exact absurd rfl hx | exact absurd rfl hy

theorem relation_equivalent_iff (x y : Double) :
    Double.relation x y = partial_ordering.equivalent ↔
      x ≠ Double.nan ∧ y ≠ Double.nan ∧ x.key = y.key := by
  by_cases hx : x = Double.nan
  · subst hx
    rw [relation_nan_left]
    simp
  by_cases hy : y = Double.nan
  · subst hy
    rw [relation_nan_right]
    simp
  rw [relation_eq_ite x y hx hy]
  split_ifs with h1 h2
  · simp only [reduceCtorEq, false_iff]
    intro h
    omega
  · simp only [reduceCtorEq, false_iff]
    intro h
    omega
  · simp only [true_iff]
    exact ⟨hx, hy, by omega⟩

theorem key_injective (x y : Double) (hx : x ≠ Double.nan) (hy : y ≠ Double.nan)
    (h : x.key = y.key) (h0 : x.key ≠ 0) : x = y := by
  cases x with
  | nan => exact absurd rfl hx
  | finite s e f =>
    cases y with
    | nan => exact absurd rfl hy
    | finite t e2 f2 =>
      have hf := f.isLt
      have hf2 := f2.isLt
      have he := e.isLt
      have he2 := e2.isLt
      unfold Double.key Double.sign Double.magnitude_bits at h h0
      cases s <;> cases t <;> simp only [Bool.false_eq_true, if_false, if_true] at h h0 <;>
        first
        | (exfalso; omega)
        | (have h1 : e.val = e2.val := by omega
           have h2 : f.val = f2.val := by omega
           rw [Fin.ext h1, Fin.ext h2])
    | inf t =>
      have hf := f.isLt
      have he := e.isLt
      unfold Double.key Double.sign Double.magnitude_bits at h h0
      cases s <;> cases t <;> simp only [Bool.false_eq_true, if_false, if_true] at h h0 <;>
        (exfalso; omega)
  | inf s =>
    cases y with
    | nan => exact absurd rfl hy
    | finite t e2 f2 =>
      have hf2 := f2.isLt
      have he2 := e2.isLt
      unfold Double.key Double.sign Double.magnitude_bits at h h0
      cases s <;> cases t <;> simp only [Bool.false_eq_true, if_false, if_true] at h h0 <;>
        (exfalso; omega)
    | inf t =>
      unfold Double.key Double.sign Double.magnitude_bits at h
      cases s <;> cases t <;> simp only [Bool.false_eq_true, if_false, if_true] at h <;>
        first
        | (exfalso; omega)
        | rfl

theorem key_zero : Double.zero.key = 0 := by decide

theorem std_hash_double_eq (hash_bytes : Nat → Nat) (x : Double) :
    std_hash_double hash_bytes x =
      if x ≠ Double.nan ∧ x.key = 0 then 0 else hash_bytes x.bits := by
  unfold std_hash_double double_ne double_eq
  have hz : Double.zero ≠ Double.nan := by decide
  by_cases h : Double.relation x Double.zero = partial_ordering.equivalent
  · have h2 := (relation_equivalent_iff x Double.zero).1 h
    rw [key_zero] at h2
    have h3 : x ≠ Double.nan ∧ x.key = 0 := And.intro h2.1 h2.2.2
    rw [if_pos h3]
    simp [h]
  · have h2 : ¬ (x ≠ Double.nan ∧ x.key = 0) := fun h3 =>
      h ((relation_equivalent_iff x Double.zero).2 ⟨h3.1, hz, by rw [key_zero]; exact h3.2⟩)
    rw [if_neg h2]
    simp [h]

theorem finite_ne_nan (x : Double) (h : x.isFinite = true) : x ≠ Double.nan := by
  intro e
  subst e
  exact absurd h (by decide)

theorem double_le_eq (x y : Double) (hx : x ≠ Double.nan) (hy : y ≠ Double.nan) :
    double_le Double.relation x y = decide (x.key ≤ y.key) := by
  unfold double_le
  rw [relation_eq_ite x y hx hy]
  split_ifs <;> simp <;> omega

theorem double_ge_eq (x y : Double) (hx : x ≠ Double.nan) (hy : y ≠ Double.nan) :
    double_ge Double.relation x y = decide (y.key ≤ x.key) := by
  unfold double_ge
  rw [relation_eq_ite x y hx hy]
  split_ifs <;> simp <;> omega

theorem double_lt_eq (x y : Double) (hx : x ≠ Double.nan) (hy : y ≠ Double.nan) :
    double_lt Double.relation x y = decide (x.key < y.key) := by
  unfold double_lt
  rw [relation_eq_ite x y hx hy]
  split_ifs <;> simp <;> omega

theorem double_gt_eq (x y : Double) (hx : x ≠ Double.nan) (hy : y ≠ Double.nan) :
    double_gt Double.relation x y = decide (y.key < x.key) := by
  unfold double_gt
  rw [relation_eq_ite x y hx hy]
  split_ifs <;> simp <;> omega

theorem key_finite (s : Bool) (e : Fin 2047) (f : Fin 4503599627370496) :
    (Double.finite s e f).key =
      if s then -((e.val * 4503599627370496 + f.val : Nat) : Int)
      else ((e.val * 4503599627370496 + f.val : Nat) : Int) := rfl

theorem significand_eq_zero_iff (s : Bool) (e : Fin 2047) (f : Fin 4503599627370496) :
    (Double.finite s e f).significand = 0 ↔ (Double.finite s e f).key = 0 := by
  rw [key_finite, significand_finite]
  cases s <;> simp <;> split_ifs <;> omega

theorem relation_zero_zero (s t : Bool) :
    Double.relation (Double.finite s 0 0) (Double.finite t 0 0) =
      partial_ordering.equivalent := by
  cases s <;> cases t <;> decide

theorem relation_self (x : Double) (h : x ≠ Double.nan) :
    Double.relation x x = partial_ordering.equivalent :=
  (relation_equivalent_iff x x).2 ⟨h, h, rfl⟩

theorem std_lerp_zero (s t : Bool) (e e2 : Fin 2047) (f f2 : Fin 4503599627370496) :
    std_lerp (Double.finite s e f) (Double.finite t e2 f2) Double.zero =
      if (Double.finite s e f).significand = 0 then Double.finite (t && s) 0 0
      else Double.finite s e f := by
  have ha : Double.finite s e f ≠ Double.nan := by simp
  have hb : Double.finite t e2 f2 ≠ Double.nan := by simp
  have hz : Double.zero ≠ Double.nan := by decide
  have h10 : Double.one - Double.zero = Double.one := by decide!
  unfold std_lerp
  by_cases hc : ((double_le Double.relation (Double.finite s e f) Double.zero &&
      double_ge Double.relation (Double.finite t e2 f2) Double.zero) ||
      (double_ge Double.relation (Double.finite s e f) Double.zero &&
      double_le Double.relation (Double.finite t e2 f2) Double.zero)) = true
  · rw [if_pos hc, h10, one_mul_finite]
    show Double.finite false 0 0 * Double.finite t e2 f2 + _ = _
    rw [zero_mul_finite, zero_add_finite, Bool.false_xor]
  · rw [if_neg hc]
    rw [double_le_eq _ _ ha hz, double_ge_eq _ _ hb hz, double_ge_eq _ _ ha hz,
      double_le_eq _ _ hb hz, key_zero] at hc
    have hst : s = t ∧ (Double.finite s e f).key ≠ 0 := by
      rw [key_finite, key_finite] at hc
      rw [key_finite]
      cases s <;> cases t <;> simp at hc ⊢ <;> omega
    obtain ⟨hs, hk⟩ := hst
    subst hs
    have h0 : (Double.finite s e f).significand ≠ 0 :=
      fun h => hk ((significand_eq_zero_iff s e f).1 h)
    obtain ⟨s2, e3, f3, h3⟩ := sub_finite_of_same_sign s e2 e f2 f
    have hx : Double.finite s e f + Double.zero * (Double.finite s e2 f2 - Double.finite s e f) =
        Double.finite s e f := by
      rw [h3]
      show _ + Double.finite false 0 0 * _ = _
      rw [zero_mul_finite, add_zero_finite, if_neg h0]
    have h01 : double_eq Double.relation Double.zero Double.one = false := by decide
    have hg : double_gt Double.relation Double.zero Double.one = false := by decide
    simp only [hx, h01, hg, if_neg h0]
    rw [double_gt_eq _ _ hb ha, double_lt_eq _ _ hb ha]
    by_cases h1 : (Double.finite s e f).key < (Double.finite s e2 f2).key
    · simp [h1]
    · by_cases h2 : (Double.finite s e2 f2).key < (Double.finite s e f).key
      · simp [h1, h2]
      · have h4 := key_injective _ _ ha hb (by omega) hk
        simp [h1, h2, h4]

theorem std_lerp_one (s t : Bool) (e e2 : Fin 2047) (f f2 : Fin 4503599627370496) :
    std_lerp (Double.finite s e f) (Double.finite t e2 f2) Double.one =
      if (Double.finite t e2 f2).significand = 0 then Double.finite (t && s) 0 0
      else Double.finite t e2 f2 := by
  have ha : Double.finite s e f ≠ Double.nan := by simp
  have hb : Double.finite t e2 f2 ≠ Double.nan := by simp
  have hz : Double.zero ≠ Double.nan := by decide
  have h11 : Double.one - Double.one = Double.finite false 0 0 := by decide!
  unfold std_lerp
  by_cases hc : ((double_le Double.relation (Double.finite s e f) Double.zero &&
      double_ge Double.relation (Double.finite t e2 f2) Double.zero) ||
      (double_ge Double.relation (Double.finite s e f) Double.zero &&
      double_le Double.relation (Double.finite t e2 f2) Double.zero)) = true
  · rw [if_pos hc, h11, one_mul_finite, zero_mul_finite, add_zero_finite, Bool.false_xor]
  · rw [if_neg hc]
    rw [double_le_eq _ _ ha hz, double_ge_eq _ _ hb hz, double_ge_eq _ _ ha hz,
      double_le_eq _ _ hb hz, key_zero] at hc
    have hk : (Double.finite t e2 f2).key ≠ 0 := by
      rw [key_finite, key_finite] at hc
      rw [key_finite]
      cases s <;> cases t <;> simp at hc ⊢ <;> omega
    have h0 : (Double.finite t e2 f2).significand ≠ 0 :=
      fun h => hk ((significand_eq_zero_iff t e2 f2).1 h)
    have h1 : double_eq Double.relation Double.one Double.one = true := by decide
    rw [if_pos h1, if_neg h0]

/-! ## Products with 2 and quotients of doubles -/

theorem significand_normal (s : Bool) (e : Fin 2047) (f : Fin 4503599627370496)
    (h : e.val ≠ 0) : (Double.finite s e f).significand = 4503599627370496 + f.val := by
  rw [significand_finite, if_neg h]

theorem quantum_normal (s : Bool) (e : Fin 2047) (f : Fin 4503599627370496)
    (h : e.val ≠ 0) : (Double.finite s e f).quantum = (e.val : Int) - 1075 := by
  rw [quantum_finite, if_neg h]

theorem finite_congr (s : Bool) (e e2 : Fin 2047) (f f2 : Fin 4503599627370496)
    (he : e.val = e2.val) (hf : f.val = f2.val) : Double.finite s e f = Double.finite s e2 f2 := by
  rw [Fin.ext he, Fin.ext hf]

theorem div_finite (s t : Bool) (e e2 : Fin 2047) (f f2 : Fin 4503599627370496)
    (h : (Double.finite t e2 f2).significand ≠ 0) :
    Double.finite s e f / Double.finite t e2 f2 =
      Double.round (Bool.xor s t)
        (2 * ((Double.finite s e f).significand * 2 ^ 108 / (Double.finite t e2 f2).significand) +
          (if (Double.finite s e f).significand * 2 ^ 108 % (Double.finite t e2 f2).significand = 0
            then 0 else 1))
        ((Double.finite s e f).quantum - (Double.finite t e2 f2).quantum - 109) := by
  show Double.div _ _ = _
  unfold Double.div
  simp only [if_neg h]

theorem two_mul_normal (s : Bool) (e : Fin 2047) (f : Fin 4503599627370496)
    (h1 : 1 ≤ e.val) (h2 : e.val + 1 < 2047) :
    Double.two * Double.finite s e f = Double.finite s ⟨e.val + 1, h2⟩ f := by
  show Double.round (Bool.xor false s)
    ((Double.finite false 1024 0).significand * (Double.finite s e f).significand)
    ((Double.finite false 1024 0).quantum + (Double.finite s e f).quantum) = _
  have e1 : (Double.finite false 1024 0).significand = 2 ^ 52 := by decide
  have e2 : (Double.finite false 1024 0).quantum = -51 := by decide
  have e3 : (Double.finite s e f).significand =
      (Double.finite s ⟨e.val + 1, h2⟩ f).significand := by
    rw [significand_normal s e f (by omega),
      significand_normal s ⟨e.val + 1, h2⟩ f (Nat.succ_ne_zero _)]
  have e4 : (-51 : Int) + (Double.finite s e f).quantum =
      (Double.finite s ⟨e.val + 1, h2⟩ f).quantum - ((52 : Nat) : Int) := by
    rw [quantum_normal s e f (by omega),
      quantum_normal s ⟨e.val + 1, h2⟩ f (Nat.succ_ne_zero _)]
    push_cast
    omega
  have h0 : (Double.finite s ⟨e.val + 1, h2⟩ f).significand ≠ 0 := by
    rw [significand_normal s ⟨e.val + 1, h2⟩ f (Nat.succ_ne_zero _)]
    omega
  rw [e1, e2, e4, e3, Bool.false_xor, Nat.mul_comm, round_exact _ _ _ 52 h0]

theorem of_magnitude_bits_lt (s : Bool) (n : Nat) (h1 : n / 4503599627370496 < 2047) :
    Double.of_magnitude_bits s n =
      Double.finite s ⟨n / 4503599627370496, h1⟩
        ⟨n % 4503599627370496, Nat.mod_lt _ (by decide)⟩ := by
  unfold Double.of_magnitude_bits
  rw [dif_pos h1]

theorem of_magnitude_bits_ge (s : Bool) (n : Nat) (h1 : ¬ n / 4503599627370496 < 2047) :
    Double.of_magnitude_bits s n = Double.inf s := by
  unfold Double.of_magnitude_bits
  rw [dif_neg h1]

theorem of_magnitude_bits_inv (s sc : Bool) (n : Nat) (e : Fin 2047)
    (f : Fin 4503599627370496) (h : Double.of_magnitude_bits s n = Double.finite sc e f) :
    sc = s ∧ n / 4503599627370496 = e.val ∧ n % 4503599627370496 = f.val := by
  by_cases h1 : n / 4503599627370496 < 2047
  · rw [of_magnitude_bits_lt s n h1] at h
    injection h with h2 h3 h4
    exact ⟨h2.symm, congrArg Fin.val h3, congrArg Fin.val h4⟩
  · rw [of_magnitude_bits_ge s n h1] at h
    exact Double.noConfusion h

theorem round_sign (s sc : Bool) (m : Nat) (q : Int) (e : Fin 2047)
    (f : Fin 4503599627370496) (h : Double.round s m q = Double.finite sc e f) : sc = s := by
  by_cases hm : m = 0
  · subst hm
    rw [round_zero] at h
    injection h with h2 _ _
    exact h2.symm
  · have h2 : ∃ n, Double.round s m q = Double.of_magnitude_bits s n := by
      unfold Double.round
      rw [if_neg hm]
      exact ⟨_, rfl⟩
    obtain ⟨n, h3⟩ := h2
    rw [h3] at h
    exact (of_magnitude_bits_inv s sc n e f h).1

theorem of_magnitude_bits_add (s : Bool) (n : Nat) (e : Fin 2047)
    (f : Fin 4503599627370496) (h : Double.of_magnitude_bits s n = Double.finite s e f)
    (h2 : e.val + 1 < 2047) :
    Double.of_magnitude_bits s (n + 4503599627370496) = Double.finite s ⟨e.val + 1, h2⟩ f := by
  obtain ⟨_, h3, h4⟩ := of_magnitude_bits_inv s s n e f h
  have h5 : (n + 4503599627370496) / 4503599627370496 = e.val + 1 := by omega
  have h6 : (n + 4503599627370496) % 4503599627370496 = f.val := by omega
  rw [of_magnitude_bits_lt s _ (by rw [h5]; exact h2)]
  exact finite_congr _ _ _ _ _ h5 h6

theorem round_shift (s : Bool) (m : Nat) (q : Int) (e : Fin 2047) (f : Fin 4503599627370496)
    (h : Double.round s m q = Double.finite s e f) (h1 : 2 ≤ e.val) (h2 : e.val + 1 < 2047) :
    Double.round s m (q + 1) = Double.finite s ⟨e.val + 1, h2⟩ f := by
  have hm : m ≠ 0 := by
    intro h0
    subst h0
    rw [round_zero] at h
    injection h with _ h3 _
    have := congrArg Fin.val h3
    simp at this
    omega
  obtain ⟨hl1, hl2, hl3⟩ := bit_length_spec m hm
  unfold Double.round at h ⊢
  rw [if_neg hm] at h ⊢
  generalize hL : bit_length m = L at *
  have hq : -1074 ≤ q + (L : Int) - 53 := by
    by_contra hlt
    have hqe : max (q + (L : Int) - 53) (-1074) = -1074 := by omega
    simp only [hqe] at h
    obtain ⟨_, h3, h4⟩ := of_magnitude_bits_inv _ _ _ _ _ h
    have hmant : (if (-1074 : Int) ≤ q then m * 2 ^ (q - -1074).toNat
        else round_half_even m (2 ^ (-1074 - q).toNat)) ≤ 4503599627370496 := by
      split_ifs with hc
      · have e1 : L + (q - -1074).toNat ≤ 52 := by omega
        have : m * 2 ^ (q - -1074).toNat < 2 ^ 52 := by
          calc m * 2 ^ (q - -1074).toNat < 2 ^ L * 2 ^ (q - -1074).toNat :=
                Nat.mul_lt_mul_of_pos_right hl2 (Nat.two_pow_pos _)
            _ = 2 ^ (L + (q - -1074).toNat) := (pow_add _ _ _).symm
            _ ≤ 2 ^ 52 := Nat.pow_le_pow_right (by decide) e1
        have hB : 2 ^ 52 = 4503599627370496 := by norm_num
        rw [hB] at this
        exact le_of_lt this
      · have e1 : L ≤ 52 + (-1074 - q).toNat := by omega
        have : round_half_even m (2 ^ (-1074 - q).toNat) ≤ 2 ^ 52 := by
          apply round_half_even_le _ _ _ (Nat.two_pow_pos _)
          rw [← pow_add]
          exact le_of_lt (lt_of_lt_of_le hl2 (Nat.pow_le_pow_right (by decide) e1))
        have hB : 2 ^ 52 = 4503599627370496 := by norm_num
        rw [hB] at this
        exact this
    have e0 : ((-1074 : Int) + 1074).toNat = 0 := by omega
    rw [e0] at h3
    generalize (if (-1074 : Int) ≤ q then m * 2 ^ (q - -1074).toNat
        else round_half_even m (2 ^ (-1074 - q).toNat)) = mant at hmant h3
    omega
  have hqe : max (q + (L : Int) - 53) (-1074) = q + (L : Int) - 53 := by omega
  have hqe2 : max (q + 1 + (L : Int) - 53) (-1074) = q + (L : Int) - 53 + 1 := by omega
  simp only [hqe] at h
  simp only [hqe2]
  have c1 : (q + (L : Int) - 53 + 1 ≤ q + 1) ↔ (q + (L : Int) - 53 ≤ q) := by omega
  have c2 : (q + 1 - (q + (L : Int) - 53 + 1)).toNat = (q - (q + (L : Int) - 53)).toNat := by
    omega
  have c3 : (q + (L : Int) - 53 + 1 - (q + 1)).toNat = (q + (L : Int) - 53 - q).toNat := by
    omega
  have c4 : (q + (L : Int) - 53 + 1 + 1074).toNat = (q + (L : Int) - 53 + 1074).toNat + 1 := by
    omega
  simp only [c1, c2, c3, c4]
  have := of_magnitude_bits_add s _ e f h h2
  rw [← this]
  exact congrArg (Double.of_magnitude_bits s) (by ring)

theorem div_two_mul (s t : Bool) (e e2 : Fin 2047) (f f2 : Fin 4503599627370496) (c : Double)
    (he1 : 1 ≤ e.val) (he2 : e.val ≤ 2045)
    (hc : Double.finite s e f / Double.finite t e2 f2 = c)
    (hc1 : 2 ≤ c.exponent) (hc2 : c.exponent ≤ 2045) :
    (Double.two * Double.finite s e f) / Double.finite t e2 f2 = Double.two * c := by
  have hx : (Double.finite s e f).significand ≠ 0 := by
    rw [significand_normal s e f (by omega)]
    omega
  by_cases hu : (Double.finite t e2 f2).significand = 0
  · exfalso
    have : Double.finite s e f / Double.finite t e2 f2 = Double.inf (Bool.xor s t) := by
      show Double.div _ _ = _
      unfold Double.div
      simp only [if_pos hu, if_neg hx]
    rw [this] at hc
    subst hc
    simp [Double.exponent] at hc2
  · rw [div_finite s t e e2 f f2 hu] at hc
    rw [two_mul_normal s e f he1 (by omega), div_finite _ _ _ _ _ _ hu]
    have e3 : (Double.finite s ⟨e.val + 1, by omega⟩ f).significand =
        (Double.finite s e f).significand := by
      rw [significand_normal s e f (by omega),
        significand_normal s ⟨e.val + 1, by omega⟩ f (Nat.succ_ne_zero _)]
    have e4 : (Double.finite s ⟨e.val + 1, by omega⟩ f).quantum - (Double.finite t e2 f2).quantum
        - 109 = (Double.finite s e f).quantum - (Double.finite t e2 f2).quantum - 109 + 1 := by
      rw [quantum_normal s e f (by omega),
        quantum_normal s ⟨e.val + 1, by omega⟩ f (Nat.succ_ne_zero _)]
      push_cast
      omega
    rw [e3, e4]
    cases c with
    | nan => simp [Double.exponent] at hc2
    | inf sc => simp [Double.exponent] at hc2
    | finite sc ec fc =>
      have hsc : sc = Bool.xor s t := round_sign _ _ _ _ _ _ hc
      subst hsc
      simp only [Double.exponent] at hc1 hc2
      rw [round_shift _ _ _ ec fc hc hc1 (by omega), two_mul_normal _ ec fc (by omega) (by omega)]

/-! ## The value of a double and the error of a rounding -/

theorem double_toRat_finite (s : Bool) (e : Fin 2047) (f : Fin 4503599627370496) :
    (Double.finite s e f).toRat =
      (if s then -1 else 1) * ((Double.finite s e f).significand : ℚ) *
        (2 : ℚ) ^ (Double.finite s e f).quantum := rfl

theorem double_toRat_finite_val (s : Bool) (e : Fin 2047) (f : Fin 4503599627370496) (ev fv : Nat)
    (he : e.val = ev) (hf : f.val = fv) :
    (Double.finite s e f).toRat =
      (if s then -1 else 1) * (((if ev = 0 then fv else 4503599627370496 + fv : Nat)) : ℚ) *
        (2 : ℚ) ^ (if ev = 0 then (-1074 : Int) else (ev : Int) - 1075) := by
  subst he hf
  rw [double_toRat_finite, significand_finite, quantum_finite]

theorem toRat_of_magnitude_bits (s : Bool) (E mant : Nat)
    (h1 : E = 0 ∨ 4503599627370496 ≤ mant) (h2 : mant ≤ 9007199254740992)
    (h3 : (E * 4503599627370496 + mant) / 4503599627370496 < 2047) :
    (Double.of_magnitude_bits s (E * 4503599627370496 + mant)).toRat =
      (if s then -1 else 1) * (mant : ℚ) * (2 : ℚ) ^ ((E : Int) - 1074) := by
  rw [of_magnitude_bits_lt s _ h3]
  by_cases c1 : mant < 4503599627370496
  · have hE : E = 0 := by omega
    subst hE
    rw [double_toRat_finite_val s _ _ 0 mant (by show _ / _ = _; omega) (by show _ % _ = _; omega)]
    simp
  · by_cases c2 : mant < 9007199254740992
    · rw [double_toRat_finite_val s _ _ (E + 1) (mant - 4503599627370496)
        (by show _ / _ = _; omega) (by show _ % _ = _; omega)]
      have ne : E + 1 ≠ 0 := by omega
      have e3 : 4503599627370496 + (mant - 4503599627370496) = mant := by omega
      have e4 : (((E + 1 : Nat) : Int) - 1075) = (E : Int) - 1074 := by
        push_cast
        ring
      rw [if_neg ne, if_neg ne, e3, e4]
    · have hm : mant = 9007199254740992 := by omega
      subst hm
      rw [double_toRat_finite_val s _ _ (E + 2) 0
        (by show _ / _ = _; omega) (by show _ % _ = _; omega)]
      have ne : E + 2 ≠ 0 := by omega
      have e3 : (((E + 2 : Nat) : Int) - 1075) = ((E : Int) - 1074) + 1 := by
        push_cast
        ring
      rw [if_neg ne, if_neg ne, e3, zpow_add_one₀ (by norm_num : (2 : ℚ) ≠ 0)]
      push_cast
      ring

theorem round_half_even_ge (n d c : Nat) (hd : 0 < d) (h : c * d ≤ n) :
    c ≤ round_half_even n d := by
  have h1 : c ≤ n / d := (Nat.le_div_iff_mul_le hd).2 h
  unfold round_half_even
  split_ifs <;> omega

theorem round_half_even_error (n d : Nat) (hd : 0 < d) :
    |((round_half_even n d : Nat) : ℚ) * d - n| ≤ (d : ℚ) / 2 := by
  have h1 := Nat.div_add_mod n d
  have h2 := Nat.mod_lt n hd
  generalize n / d = a at h1
  generalize n % d = r at h1 h2
  have h3 : (n : ℚ) = d * a + r := by exact_mod_cast h1.symm
  have h4 : (r : ℚ) < d := by exact_mod_cast h2
  have h5 : (0 : ℚ) ≤ r := Nat.cast_nonneg r
  unfold round_half_even
  rw [h3]
  have hr : (d * a + r) % d = r := by
    rw [Nat.mul_add_mod]
    exact Nat.mod_eq_of_lt h2
  have ha : (d * a + r) / d = a := by
    rw [Nat.mul_add_div hd, Nat.div_eq_of_lt h2, Nat.add_zero]
  rw [← h1, hr, ha]
  split_ifs with c1 c2 c3
  · have c1q : (2 : ℚ) * r < d := by exact_mod_cast c1
    rw [abs_le]
    constructor <;> nlinarith
  · have c2q : (d : ℚ) < 2 * r := by exact_mod_cast c2
    rw [abs_le]
    push_cast
    constructor <;> nlinarith
  · have c1q : (d : ℚ) = 2 * r := by
      have : d = 2 * r := by omega
      exact_mod_cast this
    rw [abs_le]
    constructor <;> nlinarith
  · have c1q : (d : ℚ) = 2 * r := by
      have : d = 2 * r := by omega
      exact_mod_cast this
    rw [abs_le]
    push_cast
    constructor <;> nlinarith

theorem round_spec (s : Bool) (m : Nat) (q : Int) (hm : m ≠ 0) :
    Double.round s m q =
      Double.of_magnitude_bits s
        ((max (q + (bit_length m : Int) - 53) (-1074) + 1074).toNat * 4503599627370496 +
          (if max (q + (bit_length m : Int) - 53) (-1074) ≤ q then
            m * 2 ^ (q - max (q + (bit_length m : Int) - 53) (-1074)).toNat
          else round_half_even m
            (2 ^ (max (q + (bit_length m : Int) - 53) (-1074) - q).toNat))) := by
  unfold Double.round
  rw [if_neg hm]

theorem round_mantissa_le (m : Nat) (q qe : Int) (hm : m ≠ 0)
    (hqe : qe = max (q + (bit_length m : Int) - 53) (-1074)) :
    (if qe ≤ q then m * 2 ^ (q - qe).toNat else round_half_even m (2 ^ (qe - q).toNat)) ≤
      9007199254740992 := by
  obtain ⟨h1, h2, h3⟩ := bit_length_spec m hm
  generalize bit_length m = L at *
  have hB : 2 ^ 53 = 9007199254740992 := by norm_num
  rw [← hB]
  split_ifs with hc
  · have e1 : L + (q - qe).toNat ≤ 53 := by omega
    calc m * 2 ^ (q - qe).toNat ≤ 2 ^ L * 2 ^ (q - qe).toNat :=
          Nat.mul_le_mul_right _ (le_of_lt h2)
      _ = 2 ^ (L + (q - qe).toNat) := (pow_add _ _ _).symm
      _ ≤ 2 ^ 53 := Nat.pow_le_pow_right (by decide) e1
  · have e1 : L ≤ 53 + (qe - q).toNat := by omega
    apply round_half_even_le _ _ _ (Nat.two_pow_pos _)
    rw [← pow_add]
    exact le_of_lt (lt_of_lt_of_le h2 (Nat.pow_le_pow_right (by decide) e1))

theorem round_mantissa_ge (m : Nat) (q qe : Int) (hm : m ≠ 0)
    (hqe : qe = max (q + (bit_length m : Int) - 53) (-1074)) (hn : -1074 < qe) :
    4503599627370496 ≤
      (if qe ≤ q then m * 2 ^ (q - qe).toNat else round_half_even m (2 ^ (qe - q).toNat)) := by
  obtain ⟨h1, h2, h3⟩ := bit_length_spec m hm
  generalize bit_length m = L at *
  have hB : 2 ^ 52 = 4503599627370496 := by norm_num
  rw [← hB]
  split_ifs with hc
  · have e1 : 52 = (L - 1) + (q - qe).toNat := by omega
    calc 2 ^ 52 = 2 ^ ((L - 1) + (q - qe).toNat) := by rw [← e1]
      _ = 2 ^ (L - 1) * 2 ^ (q - qe).toNat := pow_add _ _ _
      _ ≤ m * 2 ^ (q - qe).toNat := Nat.mul_le_mul_right _ h1
  · have e1 : L - 1 = 52 + (qe - q).toNat := by omega
    apply round_half_even_ge _ _ _ (Nat.two_pow_pos _)
    rw [← pow_add, ← e1]
    exact h1

theorem of_magnitude_bits_finite_lt (s sc : Bool) (n : Nat) (e : Fin 2047)
    (f : Fin 4503599627370496) (h : Double.of_magnitude_bits s n = Double.finite sc e f) :
    n / 4503599627370496 < 2047 := by
  by_contra h1
  rw [of_magnitude_bits_ge s n h1] at h
  exact Double.noConfusion h

theorem round_toRat (s sc : Bool) (m : Nat) (q qe : Int) (e : Fin 2047)
    (f : Fin 4503599627370496) (hm : m ≠ 0) (h : Double.round s m q = Double.finite sc e f)
    (hqe : qe = max (q + (bit_length m : Int) - 53) (-1074)) :
    (Double.round s m q).toRat =
      (if s then -1 else 1) *
        (((if qe ≤ q then m * 2 ^ (q - qe).toNat
          else round_half_even m (2 ^ (qe - q).toNat) : Nat)) : ℚ) * (2 : ℚ) ^ qe := by
  have hle := round_mantissa_le m q qe hm hqe
  have hge := round_mantissa_ge m q qe hm hqe
  rw [round_spec s m q hm, ← hqe] at h ⊢
  have hfin := of_magnitude_bits_finite_lt _ _ _ _ _ h
  generalize (if qe ≤ q then m * 2 ^ (q - qe).toNat
    else round_half_even m (2 ^ (qe - q).toNat)) = mant at *
  have h1 : (qe + 1074).toNat = 0 ∨ 4503599627370496 ≤ mant := by
    by_cases hn : -1074 < qe
    · exact Or.inr (hge hn)
    · exact Or.inl (by omega)
  rw [toRat_of_magnitude_bits s _ mant h1 hle hfin]
  have e1 : (((qe + 1074).toNat : Nat) : Int) - 1074 = qe := by omega
  rw [e1]

theorem sign_factor_abs (s : Bool) (a : ℚ) : |(if s then -1 else 1) * a| = |a| := by
  cases s <;> simp

theorem round_error (s sc : Bool) (m : Nat) (q : Int) (e : Fin 2047)
    (f : Fin 4503599627370496) (hm : m ≠ 0) (h : Double.round s m q = Double.finite sc e f)
    (hu : -1074 ≤ q ∨ -1074 ≤ q + (bit_length m : Int) - 53) :
    |(Double.round s m q).toRat - (if s then -1 else 1) * ((m : ℚ) * (2 : ℚ) ^ q)| ≤
      (2 : ℚ) ^ (-53 : Int) * ((m : ℚ) * (2 : ℚ) ^ q) := by
  obtain ⟨h1, h2, h3⟩ := bit_length_spec m hm
  have h2q : (0 : ℚ) < (2 : ℚ) ^ q := zpow_pos (by norm_num) q
  have hmq : (0 : ℚ) < (m : ℚ) := by exact_mod_cast Nat.pos_of_ne_zero hm
  rw [round_toRat s sc m q _ e f hm h rfl, mul_assoc, ← mul_sub, sign_factor_abs]
  generalize hqe : max (q + (bit_length m : Int) - 53) (-1074) = qe
  generalize hL : bit_length m = L at *
  split_ifs with hc
  · have e1 : qe + ((q - qe).toNat : Int) = q := by omega
    have e2 : (2 : ℚ) ^ q = (2 : ℚ) ^ qe * (2 : ℚ) ^ (q - qe).toNat := by
      rw [← zpow_natCast, ← zpow_add₀ (by norm_num : (2 : ℚ) ≠ 0), e1]
    have e3 : ((m * 2 ^ (q - qe).toNat : Nat) : ℚ) * (2 : ℚ) ^ qe - (m : ℚ) * (2 : ℚ) ^ q = 0 := by
      rw [e2]
      push_cast
      ring
    rw [e3, abs_zero]
    positivity
  · have hk : qe = q + (L : Int) - 53 := by omega
    have e1 : q + ((qe - q).toNat : Int) = qe := by omega
    have e2 : (2 : ℚ) ^ qe = (2 : ℚ) ^ q * (2 : ℚ) ^ (qe - q).toNat := by
      rw [← zpow_natCast, ← zpow_add₀ (by norm_num : (2 : ℚ) ≠ 0), e1]
    have e4 : L - 1 = 52 + (qe - q).toNat := by omega
    generalize (qe - q).toNat = k at *
    have herr := round_half_even_error m (2 ^ k) (Nat.two_pow_pos k)
    have hD : ((2 ^ k : Nat) : ℚ) = (2 : ℚ) ^ k := by push_cast; rfl
    have hb : ((2 ^ k : Nat) : ℚ) / 2 * 2 ^ 53 ≤ (m : ℚ) := by
      have : 2 ^ (52 + k) ≤ m := by rw [← e4]; exact h1
      have hq : (2 : ℚ) ^ (52 + k) ≤ (m : ℚ) := by exact_mod_cast this
      rw [pow_add] at hq
      have e7 : ((2 ^ k : Nat) : ℚ) / 2 * 2 ^ 53 = (2 : ℚ) ^ 52 * 2 ^ k := by
        rw [hD]
        ring
      rw [e7]
      exact hq
    have e5 : ((round_half_even m (2 ^ k) : Nat) : ℚ) * (2 : ℚ) ^ qe - (m : ℚ) * (2 : ℚ) ^ q =
        (((round_half_even m (2 ^ k) : Nat) : ℚ) * ((2 ^ k : Nat) : ℚ) - m) * (2 : ℚ) ^ q := by
      rw [e2, hD]
      ring
    rw [e5, abs_mul, abs_of_pos h2q]
    have e6 : (2 : ℚ) ^ (-53 : Int) * ((m : ℚ) * (2 : ℚ) ^ q) =
        ((m : ℚ) / 2 ^ 53) * (2 : ℚ) ^ q := by
      rw [zpow_neg, zpow_ofNat]
      ring
    rw [e6]
    apply mul_le_mul_of_nonneg_right _ (le_of_lt h2q)
    refine le_trans herr ?_
    rw [le_div_iff₀ (by positivity)]
    exact hb

theorem double_toRat_scaled (s : Bool) (e : Fin 2047) (f : Fin 4503599627370496) (q : Int) (k : Nat)
    (h : (Double.finite s e f).quantum = q + k) :
    (Double.finite s e f).toRat =
      (((if s then -(((Double.finite s e f).significand * 2 ^ k : Nat) : Int)
        else (((Double.finite s e f).significand * 2 ^ k : Nat) : Int)) : Int) : ℚ) *
        (2 : ℚ) ^ q := by
  rw [double_toRat_finite, h, zpow_add₀ (by norm_num : (2 : ℚ) ≠ 0), zpow_natCast]
  cases s <;> simp <;> ring

theorem double_toRat_zero (s : Bool) : (Double.finite s 0 0).toRat = 0 := by
  rw [double_toRat_finite, significand_finite]
  simp

theorem int_sign_natAbs (z : Int) :
    (if decide (z < 0) = true then (-1 : ℚ) else 1) * ((z.natAbs : ℚ)) = (z : ℚ) := by
  by_cases h : z < 0
  · have e : ((z.natAbs : Int) : ℚ) = -(z : ℚ) := by
      rw [← Int.cast_neg]
      exact congrArg Int.cast (by omega)
    rw [Int.cast_natCast] at e
    simp [h, e]
  · have e : ((z.natAbs : Int) : ℚ) = (z : ℚ) := congrArg Int.cast (by omega)
    rw [Int.cast_natCast] at e
    simp [h, e]

theorem add_error (s t sc : Bool) (e e2 ec : Fin 2047) (f f2 fc : Fin 4503599627370496)
    (h : Double.finite s e f + Double.finite t e2 f2 = Double.finite sc ec fc) :
    |(Double.finite s e f + Double.finite t e2 f2).toRat -
        ((Double.finite s e f).toRat + (Double.finite t e2 f2).toRat)| ≤
      (2 : ℚ) ^ (-53 : Int) * |(Double.finite s e f).toRat + (Double.finite t e2 f2).toRat| := by
  have hQ := quantum_ge s e f
  have hQ2 := quantum_ge t e2 f2
  generalize hq : min (Double.finite s e f).quantum (Double.finite t e2 f2).quantum = q at *
  generalize hka : ((Double.finite s e f).quantum - q).toNat = ka
  generalize hkb : ((Double.finite t e2 f2).quantum - q).toNat = kb
  have hx := double_toRat_scaled s e f q ka (by omega)
  have hy := double_toRat_scaled t e2 f2 q kb (by omega)
  rw [add_finite s t e e2 f f2 ka kb q hq.symm hka.symm hkb.symm] at h ⊢
  rw [hx, hy, ← add_mul, ← Int.cast_add]
  generalize ((if s = true then -(((Double.finite s e f).significand * 2 ^ ka : Nat) : Int)
      else (((Double.finite s e f).significand * 2 ^ ka : Nat) : Int)) +
    (if t = true then -(((Double.finite t e2 f2).significand * 2 ^ kb : Nat) : Int)
      else (((Double.finite t e2 f2).significand * 2 ^ kb : Nat) : Int))) = z at *
  have h2q : (0 : ℚ) < (2 : ℚ) ^ q := zpow_pos (by norm_num) q
  by_cases hz : z = 0
  · rw [if_pos hz, double_toRat_zero, hz]
    simp
  · rw [if_neg hz] at h ⊢
    have hm : z.natAbs ≠ 0 := by omega
    have herr := round_error (decide (z < 0)) sc z.natAbs q ec fc hm h (Or.inl (by omega))
    rw [← mul_assoc, int_sign_natAbs] at herr
    refine le_trans herr (le_of_eq ?_)
    rw [abs_mul, abs_of_pos h2q]
    congr 2
    rw [← Int.cast_abs, Int.abs_eq_natAbs, Int.cast_natCast]

theorem double_toRat_neg (t : Bool) (e : Fin 2047) (f : Fin 4503599627370496) :
    (Double.finite (!t) e f).toRat = -(Double.finite t e f).toRat := by
  rw [double_toRat_finite, double_toRat_finite]
  have e1 : (Double.finite (!t) e f).significand = (Double.finite t e f).significand := rfl
  have e2 : (Double.finite (!t) e f).quantum = (Double.finite t e f).quantum := rfl
  rw [e1, e2]
  cases t <;> simp

theorem sub_error (s t sc : Bool) (e e2 ec : Fin 2047) (f f2 fc : Fin 4503599627370496)
    (h : Double.finite s e f - Double.finite t e2 f2 = Double.finite sc ec fc) :
    |(Double.finite s e f - Double.finite t e2 f2).toRat -
        ((Double.finite s e f).toRat - (Double.finite t e2 f2).toRat)| ≤
      (2 : ℚ) ^ (-53 : Int) * |(Double.finite s e f).toRat - (Double.finite t e2 f2).toRat| := by
  have e1 : Double.finite s e f - Double.finite t e2 f2 =
      Double.finite s e f + Double.finite (!t) e2 f2 := rfl
  rw [e1] at h ⊢
  have := add_error s (!t) sc e e2 ec f f2 fc h
  rw [double_toRat_neg, ← sub_eq_add_neg] at this
  exact this

theorem round_normal_range (s sc : Bool) (m : Nat) (q : Int) (e : Fin 2047)
    (f : Fin 4503599627370496) (h : Double.round s m q = Double.finite sc e f)
    (h1 : 2 ≤ e.val) : m ≠ 0 ∧ -1074 ≤ q + (bit_length m : Int) - 53 := by
  have hm : m ≠ 0 := by
    intro h0
    subst h0
    rw [round_zero] at h
    injection h with _ h3 _
    have := congrArg Fin.val h3
    simp at this
    omega
  refine ⟨hm, ?_⟩
  obtain ⟨hl1, hl2, hl3⟩ := bit_length_spec m hm
  by_contra hlt
  rw [round_spec s m q hm] at h
  have hqe : max (q + (bit_length m : Int) - 53) (-1074) = -1074 := by omega
  generalize hL : bit_length m = L at *
  simp only [hqe] at h
  obtain ⟨_, h3, h4⟩ := of_magnitude_bits_inv _ _ _ _ _ h
  have hmant : (if (-1074 : Int) ≤ q then m * 2 ^ (q - -1074).toNat
      else round_half_even m (2 ^ (-1074 - q).toNat)) ≤ 4503599627370496 := by
    have hB : 2 ^ 52 = 4503599627370496 := by norm_num
    rw [← hB]
    split_ifs with hc
    · have e1 : L + (q - -1074).toNat ≤ 52 := by omega
      calc m * 2 ^ (q - -1074).toNat ≤ 2 ^ L * 2 ^ (q - -1074).toNat :=
            Nat.mul_le_mul_right _ (le_of_lt hl2)
        _ = 2 ^ (L + (q - -1074).toNat) := (pow_add _ _ _).symm
        _ ≤ 2 ^ 52 := Nat.pow_le_pow_right (by decide) e1
    · have e1 : L ≤ 52 + (-1074 - q).toNat := by omega
      apply round_half_even_le _ _ _ (Nat.two_pow_pos _)
      rw [← pow_add]
      exact le_of_lt (lt_of_lt_of_le hl2 (Nat.pow_le_pow_right (by decide) e1))
  have e0 : ((-1074 : Int) + 1074).toNat = 0 := by omega
  rw [e0] at h3
  generalize (if (-1074 : Int) ≤ q then m * 2 ^ (q - -1074).toNat
      else round_half_even m (2 ^ (-1074 - q).toNat)) = mant at hmant h3
  omega

theorem mul_finite (s t : Bool) (e e2 : Fin 2047) (f f2 : Fin 4503599627370496) :
    Double.finite s e f * Double.finite t e2 f2 =
      Double.round (Bool.xor s t)
        ((Double.finite s e f).significand * (Double.finite t e2 f2).significand)
        ((Double.finite s e f).quantum + (Double.finite t e2 f2).quantum) := rfl

theorem sign_factor_xor (s t : Bool) :
    (if Bool.xor s t = true then (-1 : ℚ) else 1) =
      (if s then -1 else 1) * (if t then -1 else 1) := by
  cases s <;> cases t <;> simp

theorem mul_error (s t sc : Bool) (e e2 ec : Fin 2047) (f f2 fc : Fin 4503599627370496)
    (h : Double.finite s e f * Double.finite t e2 f2 = Double.finite sc ec fc)
    (h1 : 2 ≤ ec.val) :
    |(Double.finite s e f * Double.finite t e2 f2).toRat -
        (Double.finite s e f).toRat * (Double.finite t e2 f2).toRat| ≤
      (2 : ℚ) ^ (-53 : Int) * |(Double.finite s e f).toRat * (Double.finite t e2 f2).toRat| := by
  rw [mul_finite] at h ⊢
  obtain ⟨hm, hr⟩ := round_normal_range _ _ _ _ _ _ h h1
  have herr := round_error _ _ _ _ _ _ hm h (Or.inr hr)
  have e1 : (Double.finite s e f).toRat * (Double.finite t e2 f2).toRat =
      (if Bool.xor s t = true then (-1 : ℚ) else 1) *
        ((((Double.finite s e f).significand * (Double.finite t e2 f2).significand : Nat) : ℚ) *
          (2 : ℚ) ^ ((Double.finite s e f).quantum + (Double.finite t e2 f2).quantum)) := by
    rw [double_toRat_finite, double_toRat_finite, sign_factor_xor,
      zpow_add₀ (by norm_num : (2 : ℚ) ≠ 0)]
    push_cast
    ring
  rw [e1, sign_factor_abs]
  refine le_trans herr (le_of_eq ?_)
  rw [abs_of_nonneg (by positivity)]

theorem round_half_even_error_odd (m k : Nat) (hk : 2 ≤ k) (hodd : m % 2 = 1) :
    |((round_half_even m (2 ^ k) : Nat) : ℚ) * ((2 ^ k : Nat) : ℚ) - m| ≤
      ((2 ^ k : Nat) : ℚ) / 2 - 1 := by
  have hD : 2 ^ k = 4 * 2 ^ (k - 2) := by
    have : k = 2 + (k - 2) := by omega
    rw [this, pow_add]
    simp
  have hc : 0 < 2 ^ (k - 2) := Nat.two_pow_pos _
  generalize 2 ^ (k - 2) = c at hD hc
  generalize 2 ^ k = D at hD
  subst hD
  have hd : 0 < 4 * c := by omega
  have h1 := Nat.div_add_mod m (4 * c)
  have h2 := Nat.mod_lt m hd
  generalize hav : m / (4 * c) = a at h1
  generalize hrv : m % (4 * c) = r at h1 h2
  have hr : r % 2 = 1 := by
    have e : 4 * c * a = 2 * (2 * c * a) := by ring
    rw [e] at h1
    omega
  have h3 : (m : ℚ) = 4 * c * a + r := by exact_mod_cast h1.symm
  unfold round_half_even
  rw [hav, hrv]
  split_ifs with c1 c2 c3
  · have c1q : (r : ℚ) + 1 ≤ 2 * c := by
      have : r + 1 ≤ 2 * c := by omega
      exact_mod_cast this
    have h5 : (0 : ℚ) ≤ r := Nat.cast_nonneg r
    rw [abs_le, h3]
    push_cast
    constructor <;> nlinarith
  · have c2q : (2 : ℚ) * c + 1 ≤ r := by
      have : 2 * c + 1 ≤ r := by omega
      exact_mod_cast this
    have h4 : (r : ℚ) < 4 * c := by exact_mod_cast h2
    rw [abs_le, h3]
    push_cast
    constructor <;> nlinarith
  · omega
  · omega

theorem round_error_sticky (s sc : Bool) (n d : Nat) (q : Int) (e : Fin 2047)
    (f : Fin 4503599627370496) (hd : 0 < d) (hn : 2 ^ 55 * d ≤ n)
    (h : Double.round s (2 * (n / d) + (if n % d = 0 then 0 else 1)) q = Double.finite sc e f)
    (he : 2 ≤ e.val) :
    |(Double.round s (2 * (n / d) + (if n % d = 0 then 0 else 1)) q).toRat -
        (if s then -1 else 1) * ((2 * (n : ℚ) / d) * (2 : ℚ) ^ q)| ≤
      (2 : ℚ) ^ (-53 : Int) * ((2 * (n : ℚ) / d) * (2 : ℚ) ^ q) := by
  obtain ⟨hm, hr⟩ := round_normal_range _ _ _ _ _ _ h he
  have hdq : (0 : ℚ) < (d : ℚ) := by exact_mod_cast hd
  have h2q : (0 : ℚ) < (2 : ℚ) ^ q := zpow_pos (by norm_num) q
  have ha : 2 ^ 55 ≤ n / d := (Nat.le_div_iff_mul_le hd).2 hn
  have hdm := Nat.div_add_mod n d
  have hmod := Nat.mod_lt n hd
  generalize hav : n / d = a at *
  generalize hrv : n % d = r at *
  have hnq : (n : ℚ) = d * a + r := by exact_mod_cast hdm.symm
  have ht : 2 * (n : ℚ) / d = 2 * a + 2 * r / d := by
    rw [hnq]
    field_simp
    ring
  generalize hmv : 2 * a + (if r = 0 then 0 else 1) = m at *
  obtain ⟨h1, h2, h3⟩ := bit_length_spec m hm
  rw [round_toRat s sc m q _ e f hm h rfl, mul_assoc, ← mul_sub, sign_factor_abs]
  generalize hL : bit_length m = L at *
  have hL57 : 57 ≤ L := by
    have h56 : 2 ^ 56 ≤ m := by
      have : 2 ^ 56 = 2 * 2 ^ 55 := by norm_num
      rw [this, ← hmv]
      omega
    have := (Nat.pow_lt_pow_iff_right (by decide : 1 < 2)).1 (lt_of_le_of_lt h56 h2)
    omega
  have hqe : max (q + (L : Int) - 53) (-1074) = q + (L : Int) - 53 := by omega
  rw [hqe]
  have hc : ¬ (q + (L : Int) - 53 ≤ q) := by omega
  rw [if_neg hc]
  have ek : (q + (L : Int) - 53 - q).toNat = L - 53 := by omega
  rw [ek]
  have e2 : (2 : ℚ) ^ (q + (L : Int) - 53) = (2 : ℚ) ^ q * ((2 ^ (L - 53) : Nat) : ℚ) := by
    have : q + (L : Int) - 53 = q + ((L - 53 : Nat) : Int) := by omega
    rw [this, zpow_add₀ (by norm_num : (2 : ℚ) ≠ 0), zpow_natCast]
    push_cast
    rfl
  have e4 : L - 1 = (L - 53 - 1) + 53 := by omega
  have e5 : L - 1 = (L - 2) + 1 := by omega
  have hk2 : 2 ≤ L - 53 := by omega
  have hD2 : 2 ^ (L - 53) = 2 * 2 ^ (L - 53 - 1) := by
    have : L - 53 = (L - 53 - 1) + 1 := by omega
    rw [this, pow_succ]
    simp
    ring
  have hlow : ((2 ^ (L - 53) : Nat) : ℚ) / 2 * 2 ^ 53 ≤ (2 * a : ℚ) := by
    have hP : 2 ^ (L - 1) ≤ 2 * a := by
      rw [e5, pow_succ] at h1 ⊢
      rw [← hmv] at h1
      split_ifs at h1 <;> omega
    have hPq : ((2 ^ (L - 1) : Nat) : ℚ) ≤ ((2 * a : Nat) : ℚ) := by exact_mod_cast hP
    rw [e4, pow_add] at hPq
    rw [hD2]
    push_cast at hPq ⊢
    linarith
  have hr0 : (0 : ℚ) ≤ r := Nat.cast_nonneg r
  have hrd : (r : ℚ) < d := by exact_mod_cast hmod
  have hfrac0 : (0 : ℚ) ≤ 2 * r / d := by positivity
  have hfrac2 : 2 * (r : ℚ) / d < 2 := by
    rw [div_lt_iff₀ hdq]
    linarith
  have hcore : |((round_half_even m (2 ^ (L - 53)) : Nat) : ℚ) * ((2 ^ (L - 53) : Nat) : ℚ) -
      (2 * a + 2 * r / d)| ≤ ((2 ^ (L - 53) : Nat) : ℚ) / 2 := by
    by_cases hr : r = 0
    · have hm2 : m = 2 * a := by rw [← hmv, if_pos hr]; rfl
      have := round_half_even_error m (2 ^ (L - 53)) (Nat.two_pow_pos _)
      rw [hr]
      rw [hm2] at this ⊢
      push_cast at this ⊢
      simpa using this
    · have hm2 : m = 2 * a + 1 := by rw [← hmv, if_neg hr]
      have hodd : m % 2 = 1 := by omega
      have := round_half_even_error_odd m (L - 53) hk2 hodd
      rw [abs_le] at this ⊢
      have hrpos : (0 : ℚ) < 2 * r / d := by
        have : (0 : ℚ) < r := by exact_mod_cast Nat.pos_of_ne_zero hr
        positivity
      have hmq : (m : ℚ) = 2 * a + 1 := by exact_mod_cast hm2
      rw [hmq] at this
      constructor <;> linarith [this.1, this.2]
  rw [ht]
  have e6 : ((round_half_even m (2 ^ (L - 53)) : Nat) : ℚ) * (2 : ℚ) ^ (q + (L : Int) - 53) -
      (2 * a + 2 * r / d) * (2 : ℚ) ^ q =
      (((round_half_even m (2 ^ (L - 53)) : Nat) : ℚ) * ((2 ^ (L - 53) : Nat) : ℚ) -
        (2 * a + 2 * r / d)) * (2 : ℚ) ^ q := by
    rw [e2]
    ring
  rw [e6, abs_mul, abs_of_pos h2q]
  have e7 : (2 : ℚ) ^ (-53 : Int) * ((2 * a + 2 * r / d) * (2 : ℚ) ^ q) =
      ((2 * a + 2 * r / d) / 2 ^ 53) * (2 : ℚ) ^ q := by
    rw [zpow_neg, zpow_ofNat]
    ring
  rw [e7]
  apply mul_le_mul_of_nonneg_right _ (le_of_lt h2q)
  refine le_trans hcore ?_
  rw [le_div_iff₀ (by positivity)]
  linarith

theorem div_error (s t sc : Bool) (e e2 ec : Fin 2047) (f f2 fc : Fin 4503599627370496)
    (hk : (Double.finite t e2 f2).significand ≠ 0)
    (h : Double.finite s e f / Double.finite t e2 f2 = Double.finite sc ec fc)
    (h1 : 2 ≤ ec.val) :
    |(Double.finite s e f / Double.finite t e2 f2).toRat -
        (Double.finite s e f).toRat / (Double.finite t e2 f2).toRat| ≤
      (2 : ℚ) ^ (-53 : Int) * |(Double.finite s e f).toRat / (Double.finite t e2 f2).toRat| := by
  rw [div_finite s t e e2 f f2 hk] at h ⊢
  have hd := Nat.pos_of_ne_zero hk
  have hdlt := significand_lt t e2 f2
  have hx : (Double.finite s e f).significand ≠ 0 := by
    intro h0
    have hm := (round_normal_range _ _ _ _ _ _ h h1).1
    rw [h0] at hm
    simp at hm
  have hn : 2 ^ 55 * (Double.finite t e2 f2).significand ≤
      (Double.finite s e f).significand * 2 ^ 108 := by
    have eA : (2 : Nat) ^ 108 = 2 ^ 55 * 2 ^ 53 := by rw [← pow_add]
    have eB : (2 : Nat) ^ 53 = 9007199254740992 := by norm_num
    calc 2 ^ 55 * (Double.finite t e2 f2).significand ≤ 2 ^ 55 * 2 ^ 53 :=
          Nat.mul_le_mul_left _ (by rw [eB]; exact le_of_lt hdlt)
      _ = 1 * 2 ^ 108 := by rw [eA, Nat.one_mul]
      _ ≤ (Double.finite s e f).significand * 2 ^ 108 :=
          Nat.mul_le_mul_right _ (Nat.pos_of_ne_zero hx)
  have herr := round_error_sticky (Bool.xor s t) sc _ _ _ ec fc hd hn h h1
  have hdq : ((Double.finite t e2 f2).significand : ℚ) ≠ 0 := by exact_mod_cast hk
  have e1 : (Double.finite s e f).toRat / (Double.finite t e2 f2).toRat =
      (if Bool.xor s t = true then (-1 : ℚ) else 1) *
        ((2 * (((Double.finite s e f).significand * 2 ^ 108 : Nat) : ℚ) /
          ((Double.finite t e2 f2).significand : ℚ)) *
          (2 : ℚ) ^ ((Double.finite s e f).quantum - (Double.finite t e2 f2).quantum - 109)) := by
    rw [double_toRat_finite, double_toRat_finite, sign_factor_xor,
      zpow_sub₀ (by norm_num : (2 : ℚ) ≠ 0), zpow_sub₀ (by norm_num : (2 : ℚ) ≠ 0)]
    have h2a : (2 : ℚ) ^ (Double.finite s e f).quantum ≠ 0 := zpow_ne_zero _ (by norm_num)
    have h2b : (2 : ℚ) ^ (Double.finite t e2 f2).quantum ≠ 0 := zpow_ne_zero _ (by norm_num)
    have h109 : (2 : ℚ) ^ (109 : Int) = 2 * 2 ^ 108 := by
      rw [zpow_ofNat]
      norm_num
    rw [h109]
    push_cast
    cases s <;> cases t <;> simp <;> field_simp <;> ring
  rw [e1, sign_factor_abs]
  refine le_trans herr (le_of_eq ?_)
  rw [abs_of_nonneg (by positivity)]

theorem add_sub_bound (X Y S R u : ℚ) (hu0 : 0 ≤ u) (hu1 : u ≤ 1)
    (h1 : |S - (X + Y)| ≤ u * |X + Y|) (h2 : |R - (S - Y)| ≤ u * |S - Y|) :
    |R - X| ≤ 3 * u * (|X| + |Y|) := by
  have a1 : |X + Y| ≤ |X| + |Y| := abs_add X Y
  have a2 : |S - Y| ≤ |S - (X + Y)| + |X| := by
    have := abs_add (S - (X + Y)) X
    rwa [show S - (X + Y) + X = S - Y by ring] at this
  have a3 : |R - X| ≤ |R - (S - Y)| + |S - (X + Y)| := by
    have := abs_add (R - (S - Y)) (S - (X + Y))
    rwa [show R - (S - Y) + (S - (X + Y)) = R - X by ring] at this
  have b1 : u * |X + Y| ≤ u * (|X| + |Y|) := mul_le_mul_of_nonneg_left a1 hu0
  have b2 : u * |S - Y| ≤ u * (|S - (X + Y)| + |X|) := mul_le_mul_of_nonneg_left a2 hu0
  have b3 : u * |S - (X + Y)| ≤ 1 * |S - (X + Y)| :=
    mul_le_mul_of_nonneg_right hu1 (abs_nonneg _)
  have hX := abs_nonneg X
  have hY := abs_nonneg Y
  nlinarith

theorem mul_div_bound (X K P R u : ℚ) (hu0 : 0 ≤ u) (hu1 : u ≤ 1) (hK : K ≠ 0)
    (h1 : |P - X * K| ≤ u * |X * K|) (h2 : |R - P / K| ≤ u * |P / K|) :
    |R - X| ≤ 3 * u * |X| := by
  have hKpos : 0 < |K| := abs_pos.2 hK
  have a1 : |P / K - X| ≤ u * |X| := by
    have e : P / K - X = (P - X * K) / K := by
      field_simp
      ring
    rw [e, abs_div, div_le_iff₀ hKpos]
    rw [abs_mul] at h1
    linarith
  have a2 : |P / K| ≤ |P / K - X| + |X| := by
    have := abs_add (P / K - X) X
    rwa [show P / K - X + X = P / K by ring] at this
  have a3 : |R - X| ≤ |R - P / K| + |P / K - X| := by
    have := abs_add (R - P / K) (P / K - X)
    rwa [show R - P / K + (P / K - X) = R - X by ring] at this
  have b2 : u * |P / K| ≤ u * (|P / K - X| + |X|) := mul_le_mul_of_nonneg_left a2 hu0
  have b3 : u * |P / K - X| ≤ 1 * |P / K - X| := mul_le_mul_of_nonneg_right hu1 (abs_nonneg _)
  have hX := abs_nonneg X
  nlinarith

theorem unit_roundoff_bounds : (0 : ℚ) ≤ (2 : ℚ) ^ (-53 : Int) ∧ (2 : ℚ) ^ (-53 : Int) ≤ 1 := by
  constructor
  · positivity
  · rw [zpow_neg, zpow_ofNat]
    norm_num

theorem isFinite_iff (x : Double) :
    x.isFinite = true ↔ ∃ s e f, x = Double.finite s e f := by
  cases x with
  | finite s e f => exact ⟨fun _ => ⟨s, e, f, rfl⟩, fun _ => rfl⟩
  | inf s => exact ⟨fun h => absurd h Bool.false_ne_true, fun ⟨_, _, _, h⟩ => Double.noConfusion h⟩
  | nan => exact ⟨fun h => absurd h Bool.false_ne_true, fun ⟨_, _, _, h⟩ => Double.noConfusion h⟩

theorem mul_isFinite (x k : Double) (h : (x * k).isFinite = true) :
    x.isFinite = true ∧ k.isFinite = true := by
  cases x with
  | nan =>
    have : Double.nan * k = Double.nan := by cases k <;> rfl
    rw [this] at h
    exact absurd h Bool.false_ne_true
  | inf s =>
    cases k with
    | nan => exact absurd h Bool.false_ne_true
    | inf t => exact absurd h Bool.false_ne_true
    | finite t e2 f2 =>
      have : Double.inf s * Double.finite t e2 f2 =
          if (Double.finite t e2 f2).significand = 0 then Double.nan
          else Double.inf (Bool.xor s t) := rfl
      rw [this] at h
      split_ifs at h <;> exact absurd h Bool.false_ne_true
  | finite s e f =>
    cases k with
    | nan => exact absurd h Bool.false_ne_true
    | inf t =>
      have : Double.finite s e f * Double.inf t =
          if (Double.finite s e f).significand = 0 then Double.nan
          else Double.inf (Bool.xor s t) := rfl
      rw [this] at h
      split_ifs at h <;> exact absurd h Bool.false_ne_true
    | finite t e2 f2 => exact ⟨rfl, rfl⟩

theorem add_isFinite (x y : Double) (h : (x + y).isFinite = true) :
    x.isFinite = true ∧ y.isFinite = true := by
  cases x with
  | nan =>
    have : Double.nan + y = Double.nan := by cases y <;> rfl
    rw [this] at h
    exact absurd h Bool.false_ne_true
  | inf s =>
    cases y with
    | nan => exact absurd h Bool.false_ne_true
    | inf t =>
      have : Double.inf s + Double.inf t = if s = t then Double.inf s else Double.nan := rfl
      rw [this] at h
      split_ifs at h <;> exact absurd h Bool.false_ne_true
    | finite t e2 f2 => exact absurd h Bool.false_ne_true
  | finite s e f =>
    cases y with
    | nan => exact absurd h Bool.false_ne_true
    | inf t => exact absurd h Bool.false_ne_true
    | finite t e2 f2 => exact ⟨rfl, rfl⟩

theorem add_sub_error (x y : Double)
    (hs : (x + y).isFinite = true) (hr : (x + y - y).isFinite = true) :
    |(x + y - y).toRat - x.toRat| ≤ 3 * (2 : ℚ) ^ (-53 : Int) * (|x.toRat| + |y.toRat|) := by
  obtain ⟨hx, hy⟩ := add_isFinite x y hs
  obtain ⟨s, e, f, rfl⟩ := (isFinite_iff x).1 hx
  obtain ⟨t, e2, f2, rfl⟩ := (isFinite_iff y).1 hy
  obtain ⟨s3, e3, f3, h3⟩ := (isFinite_iff _).1 hs
  obtain ⟨s4, e4, f4, h4⟩ := (isFinite_iff _).1 hr
  have h1 := add_error s t s3 e e2 e3 f f2 f3 h3
  rw [h3] at h1 h4 ⊢
  have h2 := sub_error s3 t s4 e3 e2 e4 f3 f2 f4 h4
  exact add_sub_bound _ _ _ _ _ unit_roundoff_bounds.1 unit_roundoff_bounds.2 h1 h2

theorem exponent_finite (x : Double) (h : x.exponent ≤ 2046) :
    ∃ s e f, x = Double.finite s e f := by
  cases x with
  | finite s e f => exact ⟨s, e, f, rfl⟩
  | inf s => exact absurd h (by show ¬ (2047 : Nat) ≤ 2046; decide)
  | nan => exact absurd h (by show ¬ (2047 : Nat) ≤ 2046; decide)

theorem mul_div_error (x k : Double)
    (hp1 : 2 ≤ (x * k).exponent) (hp2 : (x * k).exponent ≤ 2046)
    (hr1 : 2 ≤ (x * k / k).exponent) (hr2 : (x * k / k).exponent ≤ 2046) :
    |(x * k / k).toRat - x.toRat| ≤ 3 * (2 : ℚ) ^ (-53 : Int) * |x.toRat| := by
  obtain ⟨hx, hk⟩ := mul_isFinite x k ((isFinite_iff _).2 (exponent_finite _ hp2))
  obtain ⟨s, e, f, rfl⟩ := (isFinite_iff x).1 hx
  obtain ⟨t, e2, f2, rfl⟩ := (isFinite_iff k).1 hk
  obtain ⟨s3, e3, f3, h3⟩ := exponent_finite _ hp2
  obtain ⟨s4, e4, f4, h4⟩ := exponent_finite _ hr2
  have hk0 : (Double.finite t e2 f2).significand ≠ 0 := by
    intro h0
    have hm := (round_normal_range _ _ _ _ _ _ (by rw [← mul_finite]; exact h3)
      (by rw [h3] at hp1; exact hp1)).1
    rw [h0] at hm
    simp at hm
  have h1 := mul_error s t s3 e e2 e3 f f2 f3 h3 (by rw [h3] at hp1; exact hp1)
  rw [h3] at h1 h4 hr1 ⊢
  have h2 := div_error s3 t s4 e3 e2 e4 f3 f2 f4 hk0 h4 (by rw [h4] at hr1; exact hr1)
  have hK : (Double.finite t e2 f2).toRat ≠ 0 := by
    rw [double_toRat_finite]
    have h2q : (2 : ℚ) ^ (Double.finite t e2 f2).quantum ≠ 0 := zpow_ne_zero _ (by norm_num)
    have hsq : ((Double.finite t e2 f2).significand : ℚ) ≠ 0 := by exact_mod_cast hk0
    cases t <;> simp [hsq, h2q]
  exact mul_div_bound _ _ _ _ _ unit_roundoff_bounds.1 unit_roundoff_bounds.2 hK h1 h2

/-! ## C11 : `Convert` -/

/-- C11 (counterexample): on `double`, with `q` the length of magnitude `denorm_min` and `unit`
the length of magnitude 2, `(2.0 * q).Convert(unit)` is `denorm_min` while `q.Convert(unit)` is
`+0` (the quotient underflows) and twice it is `+0`; with `q` and `unit` of magnitude 0 both
sides are NaN, which compares unequal to itself. -/
theorem convert_not_linear :
    (operator_mul_double_lhs Double.two (IntegralQuantity 0 1 0 0 Double.denorm_min)).Convert
      (IntegralQuantity 0 1 0 0 Double.two) = some Double.denorm_min ∧
    ((IntegralQuantity 0 1 0 0 Double.denorm_min).Convert
      (IntegralQuantity 0 1 0 0 Double.two)).map (fun c => Double.two * c) = some Double.zero ∧
    double_eq Double.relation Double.denorm_min Double.zero = false ∧
    (operator_mul_double_lhs Double.two (IntegralQuantity 0 1 0 0 Double.zero)).Convert
      (IntegralQuantity 0 1 0 0 Double.zero) = some Double.nan ∧
    ((IntegralQuantity 0 1 0 0 Double.zero).Convert
      (IntegralQuantity 0 1 0 0 Double.zero)).map (fun c => Double.two * c) = some Double.nan ∧
    double_eq Double.relation Double.nan Double.nan = false := by
  decide!

/-- C11 (amended): for `q` and `unit` of one signature and every magnitude type,
`q.Convert(unit)` is the magnitude of `q` divided by the magnitude of `unit`, and
`(k * q).Convert(unit)` is `k * x / u`; `Convert` has no result for two different signatures.
On `double`, when `x` is a normal double below `2^1023` in absolute value and the quotient
`x / u` is a double of biased exponent from 2 to 2045 (at least `2^-1021` and below `2^1023` in
absolute value, so that neither it nor its double underflows or overflows),
`(2.0 * q).Convert(unit)` is `2.0 * q.Convert(unit)`, the same double.  Over exact arithmetic
`(2.0 * q).Convert(unit)` is twice `q.Convert(unit)`. -/
theorem convert_linear :
    (∀ (α : Type) [Mul α] [Div α] (q unit : Quantity α) (k : α),
      q.signature = unit.signature →
      q.Convert unit = some (q.value / unit.value) ∧
      (operator_mul_double_lhs k q).Convert unit = some (k * q.value / unit.value)) ∧
    (∀ (α : Type) [Div α] (q other : Quantity α),
      q.signature ≠ other.signature → q.Convert other = none) ∧
    (∀ (q unit : Quantity Double) (c : Double), q.signature = unit.signature →
      q.Convert unit = some c →
      1 ≤ q.value.exponent → q.value.exponent ≤ 2045 → 2 ≤ c.exponent → c.exponent ≤ 2045 →
      (operator_mul_double_lhs Double.two q).Convert unit = some (Double.two * c) ∧
      double_eq Double.relation (Double.two * q.value / unit.value) (Double.two * c) = true) ∧
    (∀ (α : Type) [DivisionRing α] (q unit : Quantity α),
      q.signature = unit.signature →
      ∃ c, q.Convert unit = some c ∧ (operator_mul_double_lhs 2 q).Convert unit = some (2 * c)) := by
  refine ⟨?_, ?_, ?_, ?_⟩
  · intro α _ _ q unit k h
    have hs := (same_signature_iff q unit).2 h
    exact ⟨if_pos hs, if_pos hs⟩
  · intro α _ q other hne
    exact if_neg fun hc => hne ((same_signature_iff q other).1 hc)
  · intro q unit c h hc hx1 hx2 hc1 hc2
    have hs := (same_signature_iff q unit).2 h
    have hc3 : q.value / unit.value = c := by
      unfold Quantity.Convert at hc
      rw [if_pos hs] at hc
      exact Option.some.inj hc
    have hm : Double.two * q.value / unit.value = Double.two * c := by
      obtain ⟨qT, qL, qM, qC, x⟩ := q
      obtain ⟨uT, uL, uM, uC, u⟩ := unit
      simp only at hx1 hx2 hc3 ⊢
      cases x with
      | nan => exact absurd hx2 (by decide)
      | inf s => exact absurd hx2 (by show ¬ (2047 : Nat) ≤ 2045; decide)
      | finite s e f =>
        cases u with
        | nan =>
          have : Double.finite s e f / Double.nan = Double.nan := rfl
          rw [this] at hc3
          subst hc3
          exact absurd hc2 (by decide)
        | inf t =>
          have : Double.finite s e f / Double.inf t = Double.finite (Bool.xor s t) 0 0 := rfl
          rw [this] at hc3
          subst hc3
          exact absurd hc1 (by show ¬ (2 : Nat) ≤ ((0 : Fin 2047) : Nat); decide)
        | finite t e2 f2 => exact div_two_mul s t e e2 f f2 c hx1 hx2 hc3 hc1 hc2
    refine ⟨?_, ?_⟩
    · unfold Quantity.Convert operator_mul_double_lhs
      rw [if_pos hs]
      exact congrArg some hm
    · rw [hm]
      have hn : Double.two * c ≠ Double.nan := by
        cases c with
        | nan => exact absurd hc2 (by decide)
        | inf sc => exact absurd hc2 (by show ¬ (2047 : Nat) ≤ 2045; decide)
        | finite sc ec fc =>
          have h1 : 2 ≤ ec.val := hc1
          have h2 : ec.val ≤ 2045 := hc2
          rw [two_mul_normal sc ec fc (by omega) (by omega)]
          simp
      unfold double_eq
      rw [relation_self _ hn]
      rfl
  · intro α _ q unit h
    have hs := (same_signature_iff q unit).2 h
    refine ⟨_, if_pos hs, ?_⟩
    unfold Quantity.Convert operator_mul_double_lhs
    rw [if_pos hs, mul_div_assoc]

/-- C11 (witness): on `double`, the length of magnitude 1 converted to the length of
magnitude 2, where the quotient is 0.5, and over the rational numbers the lengths of
magnitudes 6 and 3. -/
theorem convert_linear_witness :
    (IntegralQuantity 0 1 0 0 Double.one).signature =
      (IntegralQuantity 0 1 0 0 Double.two).signature ∧
    (IntegralQuantity 0 1 0 0 Double.one).Convert (IntegralQuantity 0 1 0 0 Double.two) =
      some (Double.finite false 1022 0) ∧
    ((operator_mul_double_lhs Double.two (IntegralQuantity 0 1 0 0 Double.one)).Convert
        (IntegralQuantity 0 1 0 0 Double.two) = some (Double.two * Double.finite false 1022 0) ∧
      double_eq Double.relation
        (Double.two * (IntegralQuantity 0 1 0 0 Double.one).value /
          (IntegralQuantity 0 1 0 0 Double.two).value)
        (Double.two * Double.finite false 1022 0) = true) ∧
    Double.two * Double.finite false 1022 0 = Double.one ∧
    ∃ c, (IntegralQuantity 0 1 0 0 (6 : ℚ)).Convert (IntegralQuantity 0 1 0 0 (3 : ℚ)) = some c ∧
      (operator_mul_double_lhs 2 (IntegralQuantity 0 1 0 0 (6 : ℚ))).Convert
        (IntegralQuantity 0 1 0 0 (3 : ℚ)) = some (2 * c) :=
  ⟨rfl, by decide!,
    convert_linear.2.2.1 (IntegralQuantity 0 1 0 0 Double.one)
      (IntegralQuantity 0 1 0 0 Double.two) (Double.finite false 1022 0) rfl (by decide!)
      (by decide) (by decide) (by decide) (by decide),
    by decide!, convert_linear.2.2.2 ℚ _ _ rfl⟩

/-! ## C12 : `(a + b) - b` -/

/-- C12 (counterexample): on `double`, for two lengths of magnitude `max()` the sum overflows
and `(a + b) - b` has the magnitude `+infinity`, infinitely far from the magnitude of `a`; for
the magnitudes `2^900` and `2^1000` the sum is `b`, so `(a + b) - b` has the magnitude `+0` and
differs from `a` by the whole of `a`; for the magnitudes `max()` and `-3 * 2^970` the sum is
finite and the difference overflows to `+infinity`. -/
theorem add_sub_not_cancel :
    ((operator_add (IntegralQuantity 0 1 0 0 Double.max) (IntegralQuantity 0 1 0 0 Double.max)).bind
      fun s => operator_sub s (IntegralQuantity 0 1 0 0 Double.max)) =
      some (IntegralQuantity 0 1 0 0 Double.infinity) ∧
    Double.infinity - Double.max = Double.infinity ∧
    ((operator_add (IntegralQuantity 0 1 0 0 (Double.finite false 1923 0))
        (IntegralQuantity 0 1 0 0 (Double.finite false 2023 0))).bind
      fun s => operator_sub s (IntegralQuantity 0 1 0 0 (Double.finite false 2023 0))) =
      some (IntegralQuantity 0 1 0 0 Double.zero) ∧
    Double.finite false 1923 0 - Double.zero = Double.finite false 1923 0 ∧
    double_eq Double.relation Double.zero (Double.finite false 1923 0) = false ∧
    Double.max + Double.finite true 1994 2251799813685248 =
      Double.finite false 2046 4503599627370494 ∧
    ((operator_add (IntegralQuantity 0 1 0 0 Double.max)
        (IntegralQuantity 0 1 0 0 (Double.finite true 1994 2251799813685248))).bind
      fun s => operator_sub s (IntegralQuantity 0 1 0 0 (Double.finite true 1994 2251799813685248))) =
      some (IntegralQuantity 0 1 0 0 Double.infinity) := by
  decide!

/-- C12 (amended): for `a` and `b` of one signature and every magnitude type, `(a + b) - b` is
a quantity of the signature of `a` and of the magnitude `x + y - y`.  On `double`, whenever the
sum `x + y` and the difference `(x + y) - y` are finite, the magnitude `r` of `(a + b) - b`
satisfies `|r - x| ≤ 3 * 2^-53 * (|x| + |y|)`, the values taken as rational numbers.  Over exact
arithmetic `(a + b) - b` is `a`. -/
theorem add_sub_cancel_quantity :
    (∀ (α : Type) [Add α] [Sub α] (a b : Quantity α), a.signature = b.signature →
      ((operator_add a b).bind fun s => operator_sub s b) =
        some ⟨a.T, a.L, a.M, a.C, a.value + b.value - b.value⟩) ∧
    (∀ (a b : Quantity Double), a.signature = b.signature →
      (a.value + b.value).isFinite = true → (a.value + b.value - b.value).isFinite = true →
      ∃ r, ((operator_add a b).bind fun s => operator_sub s b) = some r ∧
        r.signature = a.signature ∧
        |r.value.toRat - a.value.toRat| ≤
          3 * (2 : ℚ) ^ (-53 : Int) * (|a.value.toRat| + |b.value.toRat|)) ∧
    (∀ (α : Type) [AddGroup α] (a b : Quantity α), a.signature = b.signature →
      ((operator_add a b).bind fun s => operator_sub s b) = some a) := by
  have hg : ∀ (α : Type) [Add α] [Sub α] (a b : Quantity α), a.signature = b.signature →
      ((operator_add a b).bind fun s => operator_sub s b) =
        some ⟨a.T, a.L, a.M, a.C, a.value + b.value - b.value⟩ := by
    intro α _ _ a b h
    have hs := (same_signature_iff a b).2 h
    have h1 : operator_add a b = some ⟨a.T, a.L, a.M, a.C, a.value + b.value⟩ := if_pos hs
    rw [h1, Option.some_bind]
    exact if_pos hs
  refine ⟨hg, ?_, ?_⟩
  · intro a b h hs hr
    exact ⟨_, hg Double a b h, rfl, add_sub_error a.value b.value hs hr⟩
  · intro α _ a b h
    rw [hg α a b h, add_sub_cancel_right]

/-- C12 (witness): on `double`, the lengths of magnitudes 1 and 2, whose sum is 3, and over the
integers the lengths of magnitudes 5 and 7. -/
theorem add_sub_cancel_quantity_witness :
    (IntegralQuantity 0 1 0 0 Double.one).signature =
      (IntegralQuantity 0 1 0 0 Double.two).signature ∧
    (Double.one + Double.two).isFinite = true ∧
    (Double.one + Double.two - Double.two).isFinite = true ∧
    (∃ r, ((operator_add (IntegralQuantity 0 1 0 0 Double.one)
          (IntegralQuantity 0 1 0 0 Double.two)).bind
        fun s => operator_sub s (IntegralQuantity 0 1 0 0 Double.two)) = some r ∧
      r.signature = (IntegralQuantity 0 1 0 0 Double.one).signature ∧
      |r.value.toRat - (IntegralQuantity 0 1 0 0 Double.one).value.toRat| ≤
        3 * (2 : ℚ) ^ (-53 : Int) * (|(IntegralQuantity 0 1 0 0 Double.one).value.toRat| +
          |(IntegralQuantity 0 1 0 0 Double.two).value.toRat|)) ∧
    ((operator_add (IntegralQuantity 0 1 0 0 (5 : Int)) (IntegralQuantity 0 1 0 0 (7 : Int))).bind
      fun s => operator_sub s (IntegralQuantity 0 1 0 0 (7 : Int))) =
      some (IntegralQuantity 0 1 0 0 (5 : Int)) :=
  ⟨rfl, by decide!, by decide!,
    add_sub_cancel_quantity.2.1 (IntegralQuantity 0 1 0 0 Double.one)
      (IntegralQuantity 0 1 0 0 Double.two) rfl (by decide!) (by decide!),
    add_sub_cancel_quantity.2.2 Int _ _ rfl⟩

/-! ## C13 : `(a * k) / k` -/

/-- C13 (counterexample): on `double`, for the length of magnitude `max()` and the positive
`k = 2` the product overflows and `(a * k) / k` has the magnitude `+infinity`; for the positive
`k = +infinity` and the magnitude 1 it is NaN; for the magnitude `denorm_min` and `k = 0.5` the
product underflows and `(a * k) / k` has the magnitude `+0`. -/
theorem mul_div_not_cancel :
    operator_div_double_rhs (operator_mul_double_rhs (IntegralQuantity 0 1 0 0 Double.max)
      Double.two) Double.two = IntegralQuantity 0 1 0 0 Double.infinity ∧
    double_lt Double.relation Double.zero Double.two = true ∧
    Double.infinity - Double.max = Double.infinity ∧
    operator_div_double_rhs (operator_mul_double_rhs (IntegralQuantity 0 1 0 0 Double.one)
      Double.infinity) Double.infinity = IntegralQuantity 0 1 0 0 Double.nan ∧
    double_lt Double.relation Double.zero Double.infinity = true ∧
    operator_div_double_rhs (operator_mul_double_rhs (IntegralQuantity 0 1 0 0 Double.denorm_min)
      (Double.finite false 1022 0)) (Double.finite false 1022 0) =
      IntegralQuantity 0 1 0 0 Double.zero ∧
    double_lt Double.relation Double.zero (Double.finite false 1022 0) = true ∧
    double_eq Double.relation Double.zero Double.denorm_min = false := by
  decide!

/-- C13 (amended): for a quantity `a` and every magnitude type, `(a * k) / k` has the signature
of `a` and the magnitude `x * k / k`.  On `double`, whenever the product `x * k` and the
quotient `(x * k) / k` are doubles of biased exponent from 2 to 2046 (finite, and at least
`2^-1021` in absolute value, so that neither overflows or underflows), the magnitude `r` of
`(a * k) / k` satisfies `|r - x| ≤ 3 * 2^-53 * |x|`, the values taken as rational numbers.  Over
exact arithmetic and for a positive `k`, `(a * k) / k` is `a`. -/
theorem mul_div_cancel_quantity :
    (∀ (α : Type) [Mul α] [Div α] (a : Quantity α) (k : α),
      operator_div_double_rhs (operator_mul_double_rhs a k) k =
        ⟨a.T, a.L, a.M, a.C, a.value * k / k⟩) ∧
    (∀ (a : Quantity Double) (k : Double),
      2 ≤ (a.value * k).exponent → (a.value * k).exponent ≤ 2046 →
      2 ≤ (a.value * k / k).exponent → (a.value * k / k).exponent ≤ 2046 →
      (operator_div_double_rhs (operator_mul_double_rhs a k) k).signature = a.signature ∧
      |(operator_div_double_rhs (operator_mul_double_rhs a k) k).value.toRat - a.value.toRat| ≤
        3 * (2 : ℚ) ^ (-53 : Int) * |a.value.toRat|) ∧
    (∀ (α : Type) [LinearOrderedField α] (a : Quantity α) (k : α), 0 < k →
      operator_div_double_rhs (operator_mul_double_rhs a k) k = a) := by
  refine ⟨fun α _ _ a k => rfl, ?_, ?_⟩
  · intro a k hp1 hp2 hr1 hr2
    exact ⟨rfl, mul_div_error a.value k hp1 hp2 hr1 hr2⟩
  · intro α _ a k hk
    unfold operator_div_double_rhs operator_mul_double_rhs
    simp [mul_div_cancel_right₀ _ hk.ne']

/-- C13 (witness): on `double`, the length of magnitude 1 and `k = 2`, where the product is 2
and the quotient 1, and over the rational numbers the length of magnitude 3 and `k = 2`. -/
theorem mul_div_cancel_quantity_witness :
    Double.one * Double.two = Double.two ∧ Double.one * Double.two / Double.two = Double.one ∧
    ((operator_div_double_rhs (operator_mul_double_rhs (IntegralQuantity 0 1 0 0 Double.one)
        Double.two) Double.two).signature = (IntegralQuantity 0 1 0 0 Double.one).signature ∧
      |(operator_div_double_rhs (operator_mul_double_rhs (IntegralQuantity 0 1 0 0 Double.one)
          Double.two) Double.two).value.toRat -
          (IntegralQuantity 0 1 0 0 Double.one).value.toRat| ≤
        3 * (2 : ℚ) ^ (-53 : Int) * |(IntegralQuantity 0 1 0 0 Double.one).value.toRat|) ∧
    (0 : ℚ) < 2 ∧
    operator_div_double_rhs (operator_mul_double_rhs (IntegralQuantity 0 1 0 0 (3 : ℚ)) 2) 2 =
      IntegralQuantity 0 1 0 0 (3 : ℚ) :=
  ⟨by decide!, by decide!,
    mul_div_cancel_quantity.2.1 (IntegralQuantity 0 1 0 0 Double.one) Double.two
      (by decide!) (by decide!) (by decide!) (by decide!),
    by norm_num, mul_div_cancel_quantity.2.2 ℚ _ 2 (by norm_num)⟩

theorem relation_lerp_result (t s : Bool) (e : Fin 2047) (f : Fin 4503599627370496) :
    Double.relation
      (if (Double.finite s e f).significand = 0 then Double.finite (t && s) 0 0
        else Double.finite s e f) (Double.finite s e f) = partial_ordering.equivalent := by
  split_ifs with h
  · obtain ⟨he, hf⟩ := significand_eq_zero s e f h
    rw [he, hf]
    exact relation_zero_zero _ _
  · exact relation_self _ (by simp)

/-! ## C15 : `lerp` at the blend factors 0 and 1 -/

/-- C15 (counterexample): with `std::lerp` of libstdc++, for the dimensionless quantities of the
magnitudes `1.0` and `-infinity`, `lerp(a, b, 0)` has the magnitude NaN, since
`0 * -infinity + 1 * 1` is NaN, and `lerp(a, b, 0) == a` is false; for the magnitudes
`-infinity` and `1.0`, `lerp(a, b, 1)` has the magnitude NaN and `lerp(a, b, 1) == b` is
false. -/
theorem lerp_endpoints_not_exact :
    std_lerp Double.one (Double.inf true) Double.zero = Double.nan ∧
    std_lerp (Double.inf true) Double.one Double.one = Double.nan ∧
    (∀ cm : CMath Double, cm.lerp = std_lerp →
      lerp cm (Number Double.one) (Number (Double.inf true)) Double.zero =
        some (Number Double.nan) ∧
      lerp_Number cm (Number Double.one) (Number (Double.inf true)) (Number Double.zero) =
        some (Number Double.nan) ∧
      operator_eq Double.relation (Number Double.nan) (Number Double.one) = some false ∧
      lerp cm (Number (Double.inf true)) (Number Double.one) Double.one =
        some (Number Double.nan) ∧
      lerp_Number cm (Number (Double.inf true)) (Number Double.one) (Number Double.one) =
        some (Number Double.nan) ∧
      operator_eq Double.relation (Number Double.nan) (Number Double.one) = some false) := by
  have h0 : std_lerp Double.one (Double.inf true) Double.zero = Double.nan := by decide!
  have h1 : std_lerp (Double.inf true) Double.one Double.one = Double.nan := by decide!
  refine ⟨h0, h1, ?_⟩
  intro cm hl
  have e0 : lerp cm (Number Double.one) (Number (Double.inf true)) Double.zero =
      some (Number Double.nan) := by
    unfold lerp Number IntegralQuantity
    rw [if_pos ⟨rfl, rfl, rfl, rfl⟩, hl]
    simp only [h0]
  have e1 : lerp cm (Number (Double.inf true)) (Number Double.one) Double.one =
      some (Number Double.nan) := by
    unfold lerp Number IntegralQuantity
    rw [if_pos ⟨rfl, rfl, rfl, rfl⟩, hl]
    simp only [h1]
  have d : ∀ x : Double, IsDimensionless (Number x).T (Number x).L (Number x).M (Number x).C :=
    fun x => ⟨rfl, rfl, rfl, rfl⟩
  refine ⟨e0, ?_, by decide!, e1, ?_, by decide!⟩
  · unfold lerp_Number
    rw [if_pos (d _)]
    exact e0
  · unfold lerp_Number
    rw [if_pos (d _)]
    exact e1

/-- C15 (amended): with `std::lerp` of libstdc++, for `a` and `b` of one signature on `double`
whose magnitudes are finite, `lerp(a, b, 0)` is a quantity of that signature with
`lerp(a, b, 0) == a`, and it is `a` itself unless the magnitude of `a` is a zero;
`lerp(a, b, 1)` is a quantity of that signature with `lerp(a, b, 1) == b`, and it is `b` itself
unless the magnitude of `b` is a zero.  The form with a `Number` as the blend factor is the form
with its magnitude, and every result of `lerp` has the signature of `a` and `b`. -/
theorem lerp_endpoints (cm : CMath Double) (a b : Quantity Double) (hl : cm.lerp = std_lerp)
    (h : a.signature = b.signature) (ha : a.value.isFinite = true)
    (hb : b.value.isFinite = true) :
    (∃ r, lerp cm a b Double.zero = some r ∧ r.signature = a.signature ∧
      operator_eq Double.relation r a = some true ∧ (a.value.significand ≠ 0 → r = a)) ∧
    (∃ r, lerp cm a b Double.one = some r ∧ r.signature = b.signature ∧
      operator_eq Double.relation r b = some true ∧ (b.value.significand ≠ 0 → r = b)) ∧
    (∀ t : Double, lerp_Number cm a b (Number t) = lerp cm a b t) ∧
    (∀ t r, lerp cm a b t = some r → r.signature = a.signature ∧ r.signature = b.signature) := by
  have hs := (same_signature_iff a b).2 h
  obtain ⟨aT, aL, aM, aC, x⟩ := a
  obtain ⟨bT, bL, bM, bC, y⟩ := b
  obtain ⟨h1, h2, h3, h4⟩ := hs
  simp only at h1 h2 h3 h4 ha hb
  subst h1 h2 h3 h4
  cases x with
  | nan => exact absurd ha Bool.false_ne_true
  | inf s => exact absurd ha Bool.false_ne_true
  | finite s e f =>
    cases y with
    | nan => exact absurd hb Bool.false_ne_true
    | inf t => exact absurd hb Bool.false_ne_true
    | finite t e2 f2 =>
      refine ⟨?_, ?_, ?_, ?_⟩
      · refine ⟨_, if_pos ⟨rfl, rfl, rfl, rfl⟩, rfl, ?_, ?_⟩
        · unfold operator_eq double_eq
          rw [if_pos ⟨rfl, rfl, rfl, rfl⟩, hl]
          simp only [std_lerp_zero, relation_lerp_result, decide_True]
        · intro h0
          simp only [hl, std_lerp_zero]
          rw [if_neg h0]
      · refine ⟨_, if_pos ⟨rfl, rfl, rfl, rfl⟩, rfl, ?_, ?_⟩
        · unfold operator_eq double_eq
          rw [if_pos ⟨rfl, rfl, rfl, rfl⟩, hl]
          simp only [std_lerp_one]
          have := relation_lerp_result s t e2 f2
          rw [Bool.and_comm] at this
          simp only [this, decide_True]
        · intro h0
          simp only [hl, std_lerp_one]
          rw [if_neg h0]
      · intro u
        unfold lerp_Number
        rw [if_pos ⟨rfl, rfl, rfl, rfl⟩]
        rfl
      · intro u r hr
        unfold lerp at hr
        rw [if_pos ⟨rfl, rfl, rfl, rfl⟩] at hr
        cases Option.some.inj hr
        exact ⟨rfl, rfl⟩

/-- C15 (witness): the lengths of the magnitudes `-0.0` and `1.0`: `lerp(a, b, 0)` has the
magnitude `+0.0`, which compares equal to `-0.0`, and `lerp(a, b, 1)` is `b`. -/
theorem lerp_endpoints_witness :
    (⟨Double.abs, std_lerp, fun x _ => x, id, id, fun x _ => x⟩ : CMath Double).lerp =
      std_lerp ∧
    (IntegralQuantity 0 1 0 0 (Double.finite true 0 0)).signature =
      (IntegralQuantity 0 1 0 0 Double.one).signature ∧
    (Double.finite true 0 0).isFinite = true ∧ Double.one.isFinite = true ∧
    lerp ⟨Double.abs, std_lerp, fun x _ => x, id, id, fun x _ => x⟩
      (IntegralQuantity 0 1 0 0 (Double.finite true 0 0)) (IntegralQuantity 0 1 0 0 Double.one)
      Double.zero = some (IntegralQuantity 0 1 0 0 Double.zero) ∧
    operator_eq Double.relation (IntegralQuantity 0 1 0 0 Double.zero)
      (IntegralQuantity 0 1 0 0 (Double.finite true 0 0)) = some true ∧
    ∃ r, lerp ⟨Double.abs, std_lerp, fun x _ => x, id, id, fun x _ => x⟩
        (IntegralQuantity 0 1 0 0 (Double.finite true 0 0))
        (IntegralQuantity 0 1 0 0 Double.one) Double.one = some r ∧
      r.signature = (IntegralQuantity 0 1 0 0 Double.one).signature ∧
      operator_eq Double.relation r (IntegralQuantity 0 1 0 0 Double.one) = some true ∧
      ((IntegralQuantity 0 1 0 0 Double.one).value.significand ≠ 0 →
        r = IntegralQuantity 0 1 0 0 Double.one) :=
  ⟨rfl, rfl, rfl, rfl, by decide!, by decide!,
    (lerp_endpoints ⟨Double.abs, std_lerp, fun x _ => x, id, id, fun x _ => x⟩
      (IntegralQuantity 0 1 0 0 (Double.finite true 0 0)) (IntegralQuantity 0 1 0 0 Double.one)
      rfl rfl rfl rfl).2.1⟩

/-! ## C17 : hash and equality -/

/-- C17: with `std::hash<double>` of libstdc++, which is 0 for a magnitude that compares equal
to `0.0` and the hash of the object representation otherwise, the hash of a quantity is the hash
of its magnitude, and for quantities `a` and `b` of one signature on `double`, `a == b` implies
that the hashes are equal, whatever the hash of the bytes is. -/
theorem hash_eq_of_eq (hash_bytes : Nat → Nat) (a b : Quantity Double) :
    hash (std_hash_double hash_bytes) a = std_hash_double hash_bytes a.value ∧
    hash (std_hash_double hash_bytes) a =
      (if double_ne Double.relation a.value Double.zero then hash_bytes a.value.bits else 0) ∧
    (operator_eq Double.relation a b = some true →
      hash (std_hash_double hash_bytes) a = hash (std_hash_double hash_bytes) b) := by
  refine ⟨rfl, rfl, ?_⟩
  intro h
  unfold operator_eq at h
  split_ifs at h
  have h1 : Double.relation a.value b.value = partial_ordering.equivalent := by
    have h2 := Option.some.inj h
    unfold double_eq at h2
    exact of_decide_eq_true h2
  obtain ⟨ha, hb, hk⟩ := (relation_equivalent_iff _ _).1 h1
  unfold hash
  by_cases h0 : a.value.key = 0
  · rw [std_hash_double_eq, std_hash_double_eq, if_pos ⟨ha, h0⟩, if_pos ⟨hb, hk ▸ h0⟩]
  · rw [key_injective _ _ ha hb hk h0]

/-- C17 (witness): the dimensionless quantities of the magnitudes `+0.0` and `-0.0` are equal,
their object representations differ, and they have the same hash, with the identity as the hash
of the bytes. -/
theorem hash_eq_of_eq_witness :
    operator_eq Double.relation (Number Double.zero) (Number (Double.finite true 0 0)) =
      some true ∧
    Double.zero.bits ≠ (Double.finite true 0 0).bits ∧
    hash (std_hash_double id) (Number Double.zero) =
      hash (std_hash_double id) (Number (Double.finite true 0 0)) :=
  ⟨by decide!, by decide!,
    (hash_eq_of_eq id (Number Double.zero) (Number (Double.finite true 0 0))).2.2 (by decide!)⟩

theorem double_spaceship_eq {α : Type} (rel : α → α → partial_ordering) (x y : α) :
    double_spaceship rel x y = rel x y := by
  unfold double_spaceship double_lt double_gt double_eq
  cases h : rel x y <;> simp

/-! ## C18 : comparison of two quantities -/

/-- C18: for `a` and `b` of one signature with the magnitudes `x` and `y`, whatever the relation
of two doubles is, `a == b`, `a != b`, `a < b`, `a <= b`, `a > b` and `a >= b` are `x == y`,
`x != y`, `x < y`, `x <= y`, `x > y` and `x >= y`, and `a <=> b` is the relation of `x` and `y`;
for two different signatures none of the comparisons is defined. -/
theorem comparison_of_magnitudes {α : Type} (rel : α → α → partial_ordering)
    (a b : Quantity α) :
    (a.signature = b.signature →
      operator_eq rel a b = some (double_eq rel a.value b.value) ∧
      operator_ne rel a b = some (double_ne rel a.value b.value) ∧
      operator_lt rel a b = some (double_lt rel a.value b.value) ∧
      operator_le rel a b = some (double_le rel a.value b.value) ∧
      operator_gt rel a b = some (double_gt rel a.value b.value) ∧
      operator_ge rel a b = some (double_ge rel a.value b.value) ∧
      operator_spaceship rel a b = some (rel a.value b.value)) ∧
    (a.signature ≠ b.signature →
      operator_eq rel a b = none ∧ operator_ne rel a b = none ∧ operator_lt rel a b = none ∧
      operator_le rel a b = none ∧ operator_gt rel a b = none ∧ operator_ge rel a b = none ∧
      operator_spaceship rel a b = none) := by
  constructor
  · intro h
    have hs := (same_signature_iff a b).2 h
    have e1 : operator_eq rel a b = some (double_eq rel a.value b.value) := by
      unfold operator_eq
      rw [if_pos hs]
    have e2 : operator_spaceship rel a b = some (rel a.value b.value) := by
      unfold operator_spaceship
      rw [if_pos hs, double_spaceship_eq]
    refine ⟨e1, ?_, ?_, ?_, ?_, ?_, e2⟩
    · unfold operator_ne
      rw [e1]
      rfl
    · unfold operator_lt
      rw [e2]
      rfl
    · unfold operator_le
      rw [e2]
      rfl
    · unfold operator_gt
      rw [e2]
      rfl
    · unfold operator_ge
      rw [e2]
      rfl
  · intro h
    have hs : ¬ (a.T = b.T ∧ a.L = b.L ∧ a.M = b.M ∧ a.C = b.C) :=
      fun hs => h ((same_signature_iff a b).1 hs)
    have e1 : operator_eq rel a b = none := by
      unfold operator_eq
      rw [if_neg hs]
    have e2 : operator_spaceship rel a b = none := by
      unfold operator_spaceship
      rw [if_neg hs]
    refine ⟨e1, ?_, ?_, ?_, ?_, ?_, e2⟩
    · unfold operator_ne
      rw [e1]
      rfl
    · unfold operator_lt
      rw [e2]
      rfl
    · unfold operator_le
      rw [e2]
      rfl
    · unfold operator_gt
      rw [e2]
      rfl
    · unfold operator_ge
      rw [e2]
      rfl

/-- C18 (witness): on `double`, a length of magnitude NaN compared with itself is unordered:
`a == a` is false, `a != a` is true and `a <= a` is false; the lengths of the magnitudes `-0.0`
and `+0.0` are equal; a length and a time are not compared. -/
theorem comparison_of_magnitudes_witness :
    operator_eq Double.relation (IntegralQuantity 0 1 0 0 Double.nan)
      (IntegralQuantity 0 1 0 0 Double.nan) = some false ∧
    operator_ne Double.relation (IntegralQuantity 0 1 0 0 Double.nan)
      (IntegralQuantity 0 1 0 0 Double.nan) = some true ∧
    operator_le Double.relation (IntegralQuantity 0 1 0 0 Double.nan)
      (IntegralQuantity 0 1 0 0 Double.nan) = some false ∧
    operator_spaceship Double.relation (IntegralQuantity 0 1 0 0 Double.nan)
      (IntegralQuantity 0 1 0 0 Double.nan) = some partial_ordering.unordered ∧
    operator_eq Double.relation (IntegralQuantity 0 1 0 0 (Double.finite true 0 0))
      (IntegralQuantity 0 1 0 0 Double.zero) = some true ∧
    operator_lt Double.relation (IntegralQuantity 0 1 0 0 Double.one)
      (IntegralQuantity 0 1 0 0 Double.two) = some true ∧
    operator_eq Double.relation (IntegralQuantity 0 1 0 0 Double.one)
      (IntegralQuantity 1 0 0 0 Double.one) = none :=
  ⟨(((comparison_of_magnitudes Double.relation (IntegralQuantity 0 1 0 0 Double.nan)
        (IntegralQuantity 0 1 0 0 Double.nan)).1 rfl).1).trans (by decide!),
    by decide!, by decide!, by decide!, by decide!, by decide!, by decide!⟩

end rz.units
